import Mathlib

/-!
Verification of the pygreensense rule engine (`pygreensense_lib/rules/`).

The Python analyzer walks `ast` parse trees of Python source files and emits
"code smell" issue records.  This development shallowly embeds the analyzer:

* `PyGS.PyNode` is the slice of the Python `ast` node language that the five
  rules inspect (statements carry their 1-based `lineno`/`end_lineno` span;
  expression nodes that the rules never take positions from omit them,
  matching the fact that the analyzer never reads those fields).  Nested
  lists/options of nodes are represented by the mutually inductive
  `PyGS.PyNodeList` / `PyGS.PyNodeOpt` so that every function on trees is
  structurally recursive and kernel-computable.
* `PyGS.walk` is `ast.walk`: breadth-first traversal via a FIFO queue.  It is
  implemented with an explicit fuel argument (`PyNode.size` of the root, an
  upper bound on the node count) so that it stays kernel-computable; fuel
  never runs out on the queue that `walk` itself builds.
* Each rule class becomes a function from (configuration and) a tree to a
  `List PyGS.Issue`, translated clause by clause from the Python source.

Modeling notes, applying throughout:
* Python `int` values that can go negative (complexity arithmetic,
  thresholds) are `Int`; line numbers are `Nat`.
* Python sets of strings are `List String` used only through membership;
  Python dicts are association lists with `PyGS.dictInsert`, which mirrors
  dict insertion order semantics (an existing key keeps its position and gets
  the new value).
* `difflib.SequenceMatcher(None, a, b).ratio()` is modeled exactly by the
  documented Ratcliff-Obershelp semantics (longest matching block maximising
  length, then minimising the first index, then the second; recursion on both
  sides; ratio = 2*matches/(len a + len b), and 1 when both are empty) for
  inputs below difflib's autojunk threshold (`len(b) < 200`); the similarity
  score is computed in `ℚ` instead of IEEE floats.
-/

set_option maxRecDepth 16384

namespace PyGS

/-- Expression context of a `Name`/`Attribute`/... node (`ast.Load`,
`ast.Store`, `ast.Del`). -/
inductive Ctx where
  | load
  | store
  | del
deriving DecidableEq, Repr

/-- Value carried by an `ast.Constant` node, with enough structure to recover
Python's `type(node.value).__name__` tag used by the duplicate-code
normalizer.  (Float/bytes/ellipsis constants are not needed by any claim and
are omitted.) -/
inductive PyConst where
  | int (n : Int)
  | str (s : String)
  | bool (b : Bool)
  | none
deriving DecidableEq, Repr

/-- Python's `type(value).__name__` for a constant value. -/
def PyConst.typeName : PyConst → String
  | .int _ => "int"
  | .str _ => "str"
  | .bool _ => "bool"
  | .none => "NoneType"

/-- Boolean operator of an `ast.BoolOp` node. -/
inductive BoolOpKind where
  | And
  | Or
deriving DecidableEq, Repr

/-- Binary operator of an `ast.BinOp` node (the small subset needed here). -/
inductive OperatorKind where
  | Add
  | Sub
  | Mult
deriving DecidableEq, Repr

mutual

/-- The slice of Python's `ast` node language inspected by the five rules.
Constructors keep the `ast` class names and field order.  Statements carry
`lineno`/`end_lineno`.  Omitted-as-unread fields: decorator lists,
annotations, `type_comment`s, keyword arguments of calls, base classes, and
the `posonlyargs`/`vararg`/`kwarg` slots of `arguments`; `ast.operator`
singleton nodes are stored as plain tags. -/
inductive PyNode where
  | Module (body : PyNodeList)
  | FunctionDef (name : String) (args : PyNode) (body : PyNodeList)
      (lineno end_lineno : Nat)
  | AsyncFunctionDef (name : String) (args : PyNode) (body : PyNodeList)
      (lineno end_lineno : Nat)
  | ClassDef (name : String) (body : PyNodeList) (lineno end_lineno : Nat)
  | Assign (targets : PyNodeList) (value : PyNode) (lineno end_lineno : Nat)
  | Return (value : PyNodeOpt) (lineno end_lineno : Nat)
  | Raise (exc : PyNodeOpt) (lineno end_lineno : Nat)
  | Break (lineno end_lineno : Nat)
  | Continue (lineno end_lineno : Nat)
  | Pass (lineno end_lineno : Nat)
  | Expr (value : PyNode) (lineno end_lineno : Nat)
  | Delete (targets : PyNodeList) (lineno end_lineno : Nat)
  | If (test : PyNode) (body orelse : PyNodeList) (lineno end_lineno : Nat)
  | While (test : PyNode) (body orelse : PyNodeList) (lineno end_lineno : Nat)
  | For (target iter : PyNode) (body orelse : PyNodeList)
      (lineno end_lineno : Nat)
  | AsyncFor (target iter : PyNode) (body orelse : PyNodeList)
      (lineno end_lineno : Nat)
  | With (items : PyNodeList) (body : PyNodeList) (lineno end_lineno : Nat)
  | AsyncWith (items : PyNodeList) (body : PyNodeList)
      (lineno end_lineno : Nat)
  | withitem (context_expr : PyNode) (optional_vars : PyNodeOpt)
  | Try (body : PyNodeList) (handlers : PyNodeList)
      (orelse finalbody : PyNodeList) (lineno end_lineno : Nat)
  | ExceptHandler (type_ : PyNodeOpt) (name : Option String)
      (body : PyNodeList) (lineno end_lineno : Nat)
  | Assert (test : PyNode) (msg : PyNodeOpt) (lineno end_lineno : Nat)
  | Import (names : PyNodeList) (lineno end_lineno : Nat)
  | ImportFrom (module : Option String) (names : PyNodeList)
      (lineno end_lineno : Nat)
  | alias_ (name : String) (asname : Option String)
  | Name (id : String) (ctx : Ctx) (lineno end_lineno : Nat)
  | Attribute (value : PyNode) (attr : String) (ctx : Ctx)
  | Call (func : PyNode) (args : PyNodeList)
  | Constant (value : PyConst)
  | ListLit (elts : PyNodeList)
  | Dict (keys : PyNodeList) (values : PyNodeList)
  | Set (elts : PyNodeList)
  | BoolOp (op : BoolOpKind) (values : PyNodeList)
  | BinOp (left : PyNode) (op : OperatorKind) (right : PyNode)
  | ListComp (elt : PyNode) (generators : PyNodeList)
  | SetComp (elt : PyNode) (generators : PyNodeList)
  | DictComp (key : PyNode) (value : PyNode) (generators : PyNodeList)
  | GeneratorExp (elt : PyNode) (generators : PyNodeList)
  | comprehension (target iter : PyNode) (ifs : PyNodeList) (is_async : Nat)
  | arg (argName : String)
  | arguments (args : PyNodeList) (kwonlyargs : PyNodeList)
      (kw_defaults : PyNodeList) (defaults : PyNodeList)

/-- A list of `PyNode`s, as part of the mutual inductive family. -/
inductive PyNodeList where
  | nil
  | cons (hd : PyNode) (tl : PyNodeList)

/-- An optional `PyNode`, as part of the mutual inductive family. -/
inductive PyNodeOpt where
  | none
  | some (x : PyNode)

end

/-- Convert the in-family node list to an ordinary `List`. -/
def PyNodeList.toList : PyNodeList → List PyNode
  | .nil => []
  | .cons h t => h :: t.toList

/-- Convert the in-family optional node to a `List` (used when flattening a
node's children in source order). -/
def PyNodeOpt.toList : PyNodeOpt → List PyNode
  | .none => []
  | .some x => [x]

mutual

/-- Node count of a tree (an upper bound used as traversal fuel). -/
def PyNode.size : PyNode → Nat
  | .Module body => 1 + body.size
  | .FunctionDef _ args body _ _ => 1 + args.size + body.size
  | .AsyncFunctionDef _ args body _ _ => 1 + args.size + body.size
  | .ClassDef _ body _ _ => 1 + body.size
  | .Assign targets value _ _ => 1 + targets.size + value.size
  | .Return value _ _ => 1 + value.size
  | .Raise exc _ _ => 1 + exc.size
  | .Break _ _ => 1
  | .Continue _ _ => 1
  | .Pass _ _ => 1
  | .Expr value _ _ => 1 + value.size
  | .Delete targets _ _ => 1 + targets.size
  | .If test body orelse _ _ => 1 + test.size + body.size + orelse.size
  | .While test body orelse _ _ => 1 + test.size + body.size + orelse.size
  | .For target iter body orelse _ _ =>
      1 + target.size + iter.size + body.size + orelse.size
  | .AsyncFor target iter body orelse _ _ =>
      1 + target.size + iter.size + body.size + orelse.size
  | .With items body _ _ => 1 + items.size + body.size
  | .AsyncWith items body _ _ => 1 + items.size + body.size
  | .withitem c o => 1 + c.size + o.size
  | .Try body handlers orelse finalbody _ _ =>
      1 + body.size + handlers.size + orelse.size + finalbody.size
  | .ExceptHandler t _ body _ _ => 1 + t.size + body.size
  | .Assert test msg _ _ => 1 + test.size + msg.size
  | .Import names _ _ => 1 + names.size
  | .ImportFrom _ names _ _ => 1 + names.size
  | .alias_ _ _ => 1
  | .Name _ _ _ _ => 1
  | .Attribute value _ _ => 1 + value.size
  | .Call func args => 1 + func.size + args.size
  | .Constant _ => 1
  | .ListLit elts => 1 + elts.size
  | .Dict keys values => 1 + keys.size + values.size
  | .Set elts => 1 + elts.size
  | .BoolOp _ values => 1 + values.size
  | .BinOp l _ r => 1 + l.size + r.size
  | .ListComp elt gens => 1 + elt.size + gens.size
  | .SetComp elt gens => 1 + elt.size + gens.size
  | .DictComp k v gens => 1 + k.size + v.size + gens.size
  | .GeneratorExp elt gens => 1 + elt.size + gens.size
  | .comprehension t i ifs _ => 1 + t.size + i.size + ifs.size
  | .arg _ => 1
  | .arguments a ko kd d => 1 + a.size + ko.size + kd.size + d.size

/-- Total node count of a node list. -/
def PyNodeList.size : PyNodeList → Nat
  | .nil => 0
  | .cons h t => h.size + t.size

/-- Total node count of an optional node. -/
def PyNodeOpt.size : PyNodeOpt → Nat
  | .none => 0
  | .some x => x.size

end

/-- The direct children of a node in source-field order, mirroring
`ast.iter_child_nodes` (fields that this embedding does not carry — operator
tags, decorators, annotations — contribute nothing; no rule dispatches on
those nodes). -/
def PyNode.children : PyNode → List PyNode
  | .Module body => body.toList
  | .FunctionDef _ args body _ _ => args :: body.toList
  | .AsyncFunctionDef _ args body _ _ => args :: body.toList
  | .ClassDef _ body _ _ => body.toList
  | .Assign targets value _ _ => targets.toList ++ [value]
  | .Return value _ _ => value.toList
  | .Raise exc _ _ => exc.toList
  | .Break _ _ => []
  | .Continue _ _ => []
  | .Pass _ _ => []
  | .Expr value _ _ => [value]
  | .Delete targets _ _ => targets.toList
  | .If test body orelse _ _ => test :: (body.toList ++ orelse.toList)
  | .While test body orelse _ _ => test :: (body.toList ++ orelse.toList)
  | .For target iter body orelse _ _ =>
      target :: iter :: (body.toList ++ orelse.toList)
  | .AsyncFor target iter body orelse _ _ =>
      target :: iter :: (body.toList ++ orelse.toList)
  | .With items body _ _ => items.toList ++ body.toList
  | .AsyncWith items body _ _ => items.toList ++ body.toList
  | .withitem c o => c :: o.toList
  | .Try body handlers orelse finalbody _ _ =>
      body.toList ++ handlers.toList ++ orelse.toList ++ finalbody.toList
  | .ExceptHandler t _ body _ _ => t.toList ++ body.toList
  | .Assert test msg _ _ => test :: msg.toList
  | .Import names _ _ => names.toList
  | .ImportFrom _ names _ _ => names.toList
  | .alias_ _ _ => []
  | .Name _ _ _ _ => []
  | .Attribute value _ _ => [value]
  | .Call func args => func :: args.toList
  | .Constant _ => []
  | .ListLit elts => elts.toList
  | .Dict keys values => keys.toList ++ values.toList
  | .Set elts => elts.toList
  | .BoolOp _ values => values.toList
  | .BinOp l _ r => [l, r]
  | .ListComp elt gens => elt :: gens.toList
  | .SetComp elt gens => elt :: gens.toList
  | .DictComp k v gens => k :: v :: gens.toList
  | .GeneratorExp elt gens => elt :: gens.toList
  | .comprehension t i ifs _ => t :: i :: ifs.toList
  | .arg _ => []
  | .arguments a ko kd d => a.toList ++ ko.toList ++ kd.toList ++ d.toList

/-- `node.lineno` (0 for node kinds whose position the analyzer never
reads). -/
def PyNode.lineno : PyNode → Nat
  | .FunctionDef _ _ _ l _ => l
  | .AsyncFunctionDef _ _ _ l _ => l
  | .ClassDef _ _ l _ => l
  | .Assign _ _ l _ => l
  | .Return _ l _ => l
  | .Raise _ l _ => l
  | .Break l _ => l
  | .Continue l _ => l
  | .Pass l _ => l
  | .Expr _ l _ => l
  | .Delete _ l _ => l
  | .If _ _ _ l _ => l
  | .While _ _ _ l _ => l
  | .For _ _ _ _ l _ => l
  | .AsyncFor _ _ _ _ l _ => l
  | .With _ _ l _ => l
  | .AsyncWith _ _ l _ => l
  | .Try _ _ _ _ l _ => l
  | .ExceptHandler _ _ _ l _ => l
  | .Assert _ _ l _ => l
  | .Import _ l _ => l
  | .ImportFrom _ _ l _ => l
  | .Name _ _ l _ => l
  | _ => 0

/-- `node.end_lineno` (0 for node kinds whose position the analyzer never
reads). -/
def PyNode.end_lineno : PyNode → Nat
  | .FunctionDef _ _ _ _ e => e
  | .AsyncFunctionDef _ _ _ _ e => e
  | .ClassDef _ _ _ e => e
  | .Assign _ _ _ e => e
  | .Return _ _ e => e
  | .Raise _ _ e => e
  | .Break _ e => e
  | .Continue _ e => e
  | .Pass _ e => e
  | .Expr _ _ e => e
  | .Delete _ _ e => e
  | .If _ _ _ _ e => e
  | .While _ _ _ _ e => e
  | .For _ _ _ _ _ e => e
  | .AsyncFor _ _ _ _ _ e => e
  | .With _ _ _ e => e
  | .AsyncWith _ _ _ e => e
  | .Try _ _ _ _ _ e => e
  | .ExceptHandler _ _ _ _ e => e
  | .Assert _ _ _ e => e
  | .Import _ _ e => e
  | .ImportFrom _ _ _ e => e
  | .Name _ _ _ e => e
  | _ => 0

/-- Queue step of `ast.walk` (breadth-first: pop the front node, yield it,
push its children at the back).  The fuel argument keeps the function
structurally recursive; `walk` supplies enough fuel for the queue it
builds. -/
def walkAux : Nat → List PyNode → List PyNode
  | 0, _ => []
  | _ + 1, [] => []
  | fuel + 1, n :: q => n :: walkAux fuel (q ++ n.children)

/-- `ast.walk(tree)`: the tree's nodes in breadth-first order, starting with
the tree itself. -/
def walk (tree : PyNode) : List PyNode :=
  walkAux tree.size [tree]

/-- An issue dictionary as built by the rules: `rule`, `lineno`,
`end_lineno`, `message`, and (project mode only) `file`. -/
structure Issue where
  rule : String
  lineno : Nat
  end_lineno : Nat
  message : String
  file : Option String := Option.none
deriving DecidableEq, Repr

/-! ### MutableDefaultArgumentsRule (`mutable_default_arguments.py`) -/

/-- `isinstance(default, (ast.List, ast.Dict, ast.Set))`. -/
def isMutableDefault : PyNode → Bool
  | .ListLit _ => true
  | .Dict _ _ => true
  | .Set _ => true
  | _ => false

/-- `node.args.defaults`: the positional-parameter default expressions of a
function's `arguments` node. -/
def PyNode.argDefaults : PyNode → List PyNode
  | .arguments _ _ _ d => d.toList
  | _ => []

/-- The issue appended for one mutable default of function `name`. -/
def mutableDefaultIssue (name : String) (lineno end_lineno : Nat) : Issue :=
  { rule := "MutableDefaultArguments", lineno := lineno,
    end_lineno := end_lineno,
    message := "Function '" ++ name ++
      "' has a mutable default argument. Consider using None and initializing inside the function." }

namespace MutableDefaultArgumentsRule

/-- `MutableDefaultArgumentsRule.check`: walk the tree; for every
`ast.FunctionDef`, iterate over `node.args.defaults` and append one issue for
each default that is a list/dict/set literal. -/
def check (tree : PyNode) : List Issue :=
  (walk tree).flatMap fun node =>
    match node with
    | .FunctionDef name _args _body lineno end_lineno =>
        (PyNode.argDefaults _args).filterMap fun dflt =>
          if isMutableDefault dflt then
            Option.some (mutableDefaultIssue name lineno end_lineno)
          else
            Option.none
    | _ => []

end MutableDefaultArgumentsRule

/-! ### GodClassRule (`god_class.py`) -/

/-- `len(generator.ifs)` for one `ast.comprehension` clause (as `Int`, since
the complexity accumulator is a Python `int`). -/
def comprehensionIfsLen : PyNode → Int
  | .comprehension _ _ ifs _ => (ifs.toList.length : Int)
  | _ => 0

namespace GodClassRule

/-- Thresholds of `GodClassRule.__init__` with the source defaults. -/
structure Config where
  max_methods : Int := 10
  max_cc : Int := 35
  max_loc : Int := 100
deriving DecidableEq, Repr

/-- `GodClassRule.calculate_complexity`: base 1, then walk the whole subtree
adding 1 per `if`/`while`/`for`/`async for`, per `except` handler, per
`with`/`async with`, per `assert`; `len(values) - 1` per boolean operation;
and `len(ifs)` per comprehension clause. -/
def calculate_complexity (node : PyNode) : Int :=
  (walk node).foldl
    (fun complexity child =>
      match child with
      | .If .. | .While .. | .For .. | .AsyncFor .. => complexity + 1
      | .ExceptHandler .. => complexity + 1
      | .With .. | .AsyncWith .. => complexity + 1
      | .Assert .. => complexity + 1
      | .BoolOp _ values => complexity + ((values.toList.length : Int) - 1)
      | .comprehension _ _ ifs _ => complexity + (ifs.toList.length : Int)
      | _ => complexity)
    1

/-- `GodClassRule.check`: for every class, count its direct `ast.FunctionDef`
children, sum their complexities, take the inclusive line count, and emit one
issue listing every exceeded threshold. -/
def check (cfg : Config) (tree : PyNode) : List Issue :=
  (walk tree).flatMap fun node =>
    match node with
    | .ClassDef name body lineno end_lineno =>
        let methods := body.toList.filter fun n =>
          match n with
          | .FunctionDef .. => true
          | _ => false
        let method_count : Int := (methods.length : Int)
        let total_complexity : Int :=
          methods.foldl (fun acc m => acc + calculate_complexity m) 0
        -- `hasattr(node, 'end_lineno')` is always true in this embedding.
        let line_count : Int := (end_lineno : Int) - (lineno : Int) + 1
        let problems : List String :=
          (if cfg.max_methods < method_count then
            [toString method_count ++ " methods (max: " ++
              toString cfg.max_methods ++ ")"]
          else []) ++
          (if cfg.max_cc < total_complexity then
            ["complexity " ++ toString total_complexity ++ " (max: " ++
              toString cfg.max_cc ++ ")"]
          else []) ++
          (if cfg.max_loc < line_count then
            [toString line_count ++ " lines (max: " ++
              toString cfg.max_loc ++ ")"]
          else [])
        if problems.isEmpty then []
        else
          [{ rule := "GodClass", lineno := lineno, end_lineno := end_lineno,
             message := "Class '" ++ name ++ "' is a God Class: " ++
               String.intercalate ", " problems ++
               ". Consider refactoring by extract into sub class." }]
    | _ => []

end GodClassRule

/-! ### LongMethodRule (`long_method.py`) -/

namespace LongMethodRule

/-- Thresholds of `LongMethodRule.__init__` with the source defaults. -/
structure Config where
  max_loc : Int := 30
  max_cc : Int := 10
deriving DecidableEq, Repr

/-- `LongMethodRule.calculate_cyclomatic_complexity`: like
`GodClassRule.calculate_complexity` except that `assert` statements add
nothing and comprehension filter clauses are counted through the enclosing
`ListComp`/`DictComp`/`SetComp`/`GeneratorExp` node. -/
def calculate_cyclomatic_complexity (node : PyNode) : Int :=
  (walk node).foldl
    (fun complexity child =>
      match child with
      | .If .. | .While .. | .For .. | .AsyncFor .. => complexity + 1
      | .ExceptHandler .. => complexity + 1
      | .BoolOp _ values => complexity + ((values.toList.length : Int) - 1)
      | .ListComp _ gens | .SetComp _ gens | .GeneratorExp _ gens =>
          gens.toList.foldl (fun acc g => acc + comprehensionIfsLen g)
            complexity
      | .DictComp _ _ gens =>
          gens.toList.foldl (fun acc g => acc + comprehensionIfsLen g)
            complexity
      | .With .. | .AsyncWith .. => complexity + 1
      | _ => complexity)
    1

/-- `LongMethodRule.count_loops`: number of `for`/`while`/`async for` nodes
in the subtree. -/
def count_loops (node : PyNode) : Nat :=
  (walk node).foldl
    (fun loop_count child =>
      match child with
      | .For .. | .While .. | .AsyncFor .. => loop_count + 1
      | _ => loop_count)
    0

/-- `LongMethodRule.check`: for every function or async function, compute the
inclusive line count and the cyclomatic complexity and emit one issue listing
every exceeded threshold.  (The source also computes `count_loops` for each
function; the result does not enter the issue, which is mirrored here.) -/
def check (cfg : Config) (tree : PyNode) : List Issue :=
  (walk tree).flatMap fun node =>
    match node with
    | .FunctionDef name _ _ lineno end_lineno
    | .AsyncFunctionDef name _ _ lineno end_lineno =>
        -- `hasattr(node, 'end_lineno')` is always true in this embedding.
        let loc : Int := (end_lineno : Int) - (lineno : Int) + 1
        let cyclomatic : Int := calculate_cyclomatic_complexity node
        let _loop_count : Nat := count_loops node
        let problems : List String :=
          (if cfg.max_loc < loc then
            ["LOC: " ++ toString loc ++ " (max: " ++ toString cfg.max_loc ++
              ")"]
          else []) ++
          (if cfg.max_cc < cyclomatic then
            ["Cyclomatic Complexity: " ++ toString cyclomatic ++ " (max: " ++
              toString cfg.max_cc ++ ")"]
          else [])
        if problems.isEmpty then []
        else
          [{ rule := "LongMethod", lineno := lineno,
             end_lineno := end_lineno,
             message := "Method '" ++ name ++ "' is too long: " ++
               String.intercalate ", " problems ++
               ". Consider refactoring by extracting smaller methods." }]
    | _ => []

end LongMethodRule

/-! ### DeadCodeRule (`dead_code.py`) -/

/-- Python `str.startswith`: is `pre` a prefix of `s`?  (Implemented over
the character lists so that it is kernel-computable.) -/
def pyStartsWith (s pre : String) : Bool :=
  pre.data.isPrefixOf s.data

/-- Python dict insertion: an existing key keeps its position in iteration
order and receives the new value; a new key is appended at the end. -/
def dictInsert {α : Type} (k : String) (v : α) :
    List (String × α) → List (String × α)
  | [] => [(k, v)]
  | (k', v') :: rest =>
      if k' = k then (k, v) :: rest else (k', v') :: dictInsert k v rest

namespace DeadCodeRule

/-- One entry of the definitions dict:
`name ↦ (def_type, lineno, end_lineno)`. -/
abbrev DefEntry := String × String × Nat × Nat

/-- `DeadCodeRule._collect_definitions`: walk the tree; record every
`ast.FunctionDef` and `ast.ClassDef` by name, and every simple-`Name` target
of an `ast.Assign` (using the target's own position). -/
def collect_definitions (tree : PyNode) : List DefEntry :=
  (walk tree).foldl
    (fun definitions node =>
      match node with
      | .FunctionDef name _ _ l e =>
          dictInsert name ("function", l, e) definitions
      | .ClassDef name _ l e => dictInsert name ("class", l, e) definitions
      | .Assign targets _ _ _ =>
          targets.toList.foldl
            (fun defs target =>
              match target with
              | .Name id _ l e => dictInsert id ("variable", l, e) defs
              | _ => defs)
            definitions
      | _ => definitions)
    []

/-- `DeadCodeRule._collect_usage`: every `Name` in `Load` context, the
attribute of every `Attribute` node, and the name/attribute of every call
target.  Python keeps these in a set; this model keeps a list used only
through membership. -/
def collect_usage (tree : PyNode) : List String :=
  (walk tree).foldl
    (fun used node =>
      match node with
      | .Name id ctx _ _ => if ctx = Ctx.load then used ++ [id] else used
      | .Attribute _ attr _ => used ++ [attr]
      | .Call func _ =>
          match func with
          | .Name id _ _ _ => used ++ [id]
          | .Attribute _ attr _ => used ++ [attr]
          | _ => used
      | _ => used)
    []

/-- `DeadCodeRule._collect_imports`: names bound by `import`/`from-import`
statements, preferring the `as` alias when present. -/
def collect_imports (tree : PyNode) : List String :=
  (walk tree).foldl
    (fun imports node =>
      match node with
      | .ImportFrom _ names _ _ | .Import names _ _ =>
          names.toList.foldl
            (fun imps al =>
              match al with
              | .alias_ nm asn => imps ++ [asn.getD nm]
              | _ => imps)
            imports
      | _ => imports)
    []

/-- `DeadCodeRule._is_used_anywhere`: does `name` occur in any file's usage
set, or failing that in any file's import set?  (The source also receives the
defining file's path and ignores it.) -/
def is_used_anywhere (name : String) (_file_path : String)
    (all_usages all_imports : List (String × List String)) : Bool :=
  all_usages.any (fun p => p.2.contains name) ||
    all_imports.any (fun p => p.2.contains name)

/-- The issue built for one unused definition (no `file` field in single-file
mode). -/
def unusedIssue (def_type name : String) (lineno end_lineno : Nat) : Issue :=
  { rule := "DeadCode", lineno := lineno, end_lineno := end_lineno,
    message := "Unused " ++ def_type ++ " '" ++ name ++
      "' is never referenced. Suggest removing it." }

/-- `DeadCodeRule._check_unused`: report every defined name that does not
start with `_`, is not an imported name, and does not occur in the usage
set. -/
def check_unused (defined : List DefEntry) (used imports : List String) :
    List Issue :=
  defined.filterMap fun entry =>
    if pyStartsWith entry.1 "_" then Option.none
    else if imports.contains entry.1 then Option.none
    else if used.contains entry.1 then Option.none
    else Option.some (unusedIssue entry.2.1 entry.1 entry.2.2.1 entry.2.2.2)

/-- `DeadCodeRule._is_terminator`: `return`, `raise`, `break`, `continue`, or
an expression statement calling `exit`/`quit` directly or any `.exit`
attribute. -/
def is_terminator : PyNode → Bool
  | .Return .. => true
  | .Raise .. => true
  | .Break .. => true
  | .Continue .. => true
  | .Expr value _ _ =>
      match value with
      | .Call func _ =>
          match func with
          | .Name id _ _ _ => id = "exit" || id = "quit"
          | .Attribute _ attr _ => attr = "exit"
          | _ => false
      | _ => false
  | _ => false

/-- `DeadCodeRule._is_docstring`: an expression statement holding a string
constant, at index 0 of its block. -/
def is_docstring (stmt : PyNode) (index : Nat) : Bool :=
  index = 0 &&
    (match stmt with
     | .Expr (.Constant (.str _)) _ _ => true
     | _ => false)

/-- The issue built for the first unreachable statement of a block.  The
`file` field is set only in project mode, modeled by the `file` argument. -/
def unreachableIssue (stmt : PyNode) (terminator_line : Nat)
    (file : Option String) : Issue :=
  { rule := "DeadCode", lineno := stmt.lineno,
    end_lineno := stmt.end_lineno,
    message := "Unreachable code after statement at line " ++
      toString terminator_line ++ ". Consider removing it.",
    file := file }

/-- Loop body of `DeadCodeRule._check_body_reachability`: track whether a
terminator has been seen and its line; a terminator statement updates that
state, and otherwise — once a terminator was seen — the first non-docstring
statement is reported and scanning stops. -/
def scanBodyAux (file : Option String) :
    Bool → Nat → Nat → List PyNode → List Issue
  | _, _, _, [] => []
  | terminator_found, terminator_line, i, stmt :: rest =>
      if is_terminator stmt then
        scanBodyAux file true stmt.lineno (i + 1) rest
      else if terminator_found && !(is_docstring stmt i) then
        [unreachableIssue stmt terminator_line file]
      else
        scanBodyAux file terminator_found terminator_line (i + 1) rest

/-- `DeadCodeRule._check_body_reachability` on one statement list. -/
def check_body_reachability (body : List PyNode) (file : Option String) :
    List Issue :=
  scanBodyAux file false 0 0 body

/-- The body of one `ast.ExceptHandler`. -/
def handlerBody : PyNode → List PyNode
  | .ExceptHandler _ _ b _ _ => b.toList
  | _ => []

/-- The statement lists scanned by `DeadCodeRule._check_unreachable` for one
node, in source order: for `FunctionDef`/`For`/`While`/`If`/`With`/`Try`
nodes the `body`, then the `orelse` when the node has one, then every
handler's body, then the `finalbody` (the source skips empty `orelse`/
`finalbody` lists; scanning an empty list produces nothing, so they are
passed through unconditionally here). -/
def scannedBodies : PyNode → List (List PyNode)
  | .FunctionDef _ _ body _ _ => [body.toList]
  | .For _ _ body orelse _ _ => [body.toList, orelse.toList]
  | .While _ body orelse _ _ => [body.toList, orelse.toList]
  | .If _ body orelse _ _ => [body.toList, orelse.toList]
  | .With _ body _ _ => [body.toList]
  | .Try body handlers orelse finalbody _ _ =>
      [body.toList, orelse.toList] ++ handlers.toList.map handlerBody ++
        [finalbody.toList]
  | _ => []

/-- `DeadCodeRule._check_unreachable`: scan the statement lists of every
compound node in the walk. -/
def check_unreachable (tree : PyNode) (file : Option String) : List Issue :=
  (walk tree).flatMap fun node =>
    (scannedBodies node).flatMap fun body =>
      check_body_reachability body file

/-- `DeadCodeRule.check` (single-file mode): unused-definition issues
followed by unreachable-code issues; `is_project_mode` is false on a fresh
rule instance, so no `file` field is attached. -/
def check (tree : PyNode) : List Issue :=
  let defined := collect_definitions tree
  let used := collect_usage tree
  let imports := collect_imports tree
  check_unused defined used imports ++ check_unreachable tree Option.none

/-- `self.all_definitions` after the collection pass of `check_project` over
the given parsed files (a Python dict keyed by file path). -/
def all_definitions (project : List (String × PyNode)) :
    List (String × List DefEntry) :=
  project.foldl
    (fun acc p => dictInsert p.1 (collect_definitions p.2) acc) []

/-- `self.all_usages` after the collection pass of `check_project`. -/
def all_usages (project : List (String × PyNode)) :
    List (String × List String) :=
  project.foldl (fun acc p => dictInsert p.1 (collect_usage p.2) acc) []

/-- `self.all_imports` after the collection pass of `check_project`. -/
def all_imports (project : List (String × PyNode)) :
    List (String × List String) :=
  project.foldl (fun acc p => dictInsert p.1 (collect_imports p.2) acc) []

/-- The issue built for one unused definition in project mode (carrying the
defining file). -/
def unusedProjectIssue (file def_type name : String)
    (lineno end_lineno : Nat) : Issue :=
  { unusedIssue def_type name lineno end_lineno with
    file := Option.some file }

/-- `DeadCodeRule.check_project`.  The filesystem boundary is modeled away:
`project` is the list of `(path, parsed tree)` pairs for the `.py` files
found under the project root that parsed successfully (the source silently
skips unparsable files, and re-parses the same files for the unreachability
pass).  Step 2 reports, for every collected definition whose name does not
start with `_`, an issue when the name is used in no file; step 3 appends
each file's unreachable-code issues with the `file` field set. -/
def check_project (project : List (String × PyNode)) : List Issue :=
  let allDefs := all_definitions project
  let allUsages := all_usages project
  let allImports := all_imports project
  let unused := allDefs.flatMap fun fd =>
    fd.2.filterMap fun entry =>
      if pyStartsWith entry.1 "_" then Option.none
      else if is_used_anywhere entry.1 fd.1 allUsages allImports then
        Option.none
      else
        Option.some
          (unusedProjectIssue fd.1 entry.2.1 entry.1 entry.2.2.1 entry.2.2.2)
  let unreachable := project.flatMap fun p =>
    check_unreachable p.2 (Option.some p.1)
  unused ++ unreachable

end DeadCodeRule

/-! ### DuplicatedCodeRule (`duplicated_code.py`): normalization -/

mutual

/-- Value produced by `DuplicatedCodeRule._normalize_code`: a Python string,
int or `None`, or a nested tuple of such values. -/
inductive Norm where
  | str (s : String)
  | int (n : Int)
  | NoneV
  | tup (items : NormList)

/-- A list of `Norm` values (the elements of a normalized tuple). -/
inductive NormList where
  | nil
  | cons (hd : Norm) (tl : NormList)

end

mutual

/-- Structural (Python `==`) equality of normalized values. -/
def Norm.beq : Norm → Norm → Bool
  | .str a, .str b => a = b
  | .int a, .int b => a = b
  | .NoneV, .NoneV => true
  | .tup a, .tup b => NormList.beq a b
  | _, _ => false

/-- Structural equality of normalized tuples. -/
def NormList.beq : NormList → NormList → Bool
  | .nil, .nil => true
  | .cons a as, .cons b bs => Norm.beq a b && NormList.beq as bs
  | _, _ => false

end

/-- The `(field_name, normalized_value)` 2-tuple appended for one structural
field. -/
def Norm.field (name : String) (v : Norm) : Norm :=
  .tup (.cons (.str name) (.cons v .nil))

/-- The normalized form of an `ast.operator`/`ast.boolop` singleton node,
e.g. `('Add',)`. -/
def Norm.tag (name : String) : Norm :=
  .tup (.cons (.str name) .nil)

/-- Normalized form of a `BoolOpKind` (`ast.And()` / `ast.Or()`). -/
def BoolOpKind.norm : BoolOpKind → Norm
  | .And => Norm.tag "And"
  | .Or => Norm.tag "Or"

/-- Normalized form of an `OperatorKind`. -/
def OperatorKind.norm : OperatorKind → Norm
  | .Add => Norm.tag "Add"
  | .Sub => Norm.tag "Sub"
  | .Mult => Norm.tag "Mult"

/-- Normalized form of an optional string field (`None` or the string). -/
def normOptStr : Option String → Norm
  | Option.none => Norm.NoneV
  | Option.some s => Norm.str s

mutual

/-- `DuplicatedCodeRule._normalize_code`: `Name` nodes become `"VAR"`,
constants become `"CONST_" + type name`, lists become tuples of normalized
items, and every other node becomes a tuple of its class name followed by
`(field, normalized value)` pairs, skipping position and context fields.
Fields this embedding does not carry (decorators, annotations,
`type_comment`s, call keywords, `ImportFrom.level`, `Raise.cause`, the
unused `arguments` slots, `Module.type_ignores`) are absent from the tuples;
no theorem below depends on their constant presence. -/
def normalizeCode : PyNode → Norm
  | .Name _ _ _ _ => .str "VAR"
  | .Constant value => .str ("CONST_" ++ value.typeName)
  | .Module body =>
      .tup (.cons (.str "Module")
        (.cons (Norm.field "body" (.tup (normalizeList body))) .nil))
  | .FunctionDef name args body _ _ =>
      .tup (.cons (.str "FunctionDef")
        (.cons (Norm.field "name" (.str name))
        (.cons (Norm.field "args" (normalizeCode args))
        (.cons (Norm.field "body" (.tup (normalizeList body))) .nil))))
  | .AsyncFunctionDef name args body _ _ =>
      .tup (.cons (.str "AsyncFunctionDef")
        (.cons (Norm.field "name" (.str name))
        (.cons (Norm.field "args" (normalizeCode args))
        (.cons (Norm.field "body" (.tup (normalizeList body))) .nil))))
  | .ClassDef name body _ _ =>
      .tup (.cons (.str "ClassDef")
        (.cons (Norm.field "name" (.str name))
        (.cons (Norm.field "body" (.tup (normalizeList body))) .nil)))
  | .Assign targets value _ _ =>
      .tup (.cons (.str "Assign")
        (.cons (Norm.field "targets" (.tup (normalizeList targets)))
        (.cons (Norm.field "value" (normalizeCode value)) .nil)))
  | .Return value _ _ =>
      .tup (.cons (.str "Return")
        (.cons (Norm.field "value" (normalizeOpt value)) .nil))
  | .Raise exc _ _ =>
      .tup (.cons (.str "Raise")
        (.cons (Norm.field "exc" (normalizeOpt exc)) .nil))
  | .Break _ _ => .tup (.cons (.str "Break") .nil)
  | .Continue _ _ => .tup (.cons (.str "Continue") .nil)
  | .Pass _ _ => .tup (.cons (.str "Pass") .nil)
  | .Expr value _ _ =>
      .tup (.cons (.str "Expr")
        (.cons (Norm.field "value" (normalizeCode value)) .nil))
  | .Delete targets _ _ =>
      .tup (.cons (.str "Delete")
        (.cons (Norm.field "targets" (.tup (normalizeList targets))) .nil))
  | .If test body orelse _ _ =>
      .tup (.cons (.str "If")
        (.cons (Norm.field "test" (normalizeCode test))
        (.cons (Norm.field "body" (.tup (normalizeList body)))
        (.cons (Norm.field "orelse" (.tup (normalizeList orelse))) .nil))))
  | .While test body orelse _ _ =>
      .tup (.cons (.str "While")
        (.cons (Norm.field "test" (normalizeCode test))
        (.cons (Norm.field "body" (.tup (normalizeList body)))
        (.cons (Norm.field "orelse" (.tup (normalizeList orelse))) .nil))))
  | .For target iter body orelse _ _ =>
      .tup (.cons (.str "For")
        (.cons (Norm.field "target" (normalizeCode target))
        (.cons (Norm.field "iter" (normalizeCode iter))
        (.cons (Norm.field "body" (.tup (normalizeList body)))
        (.cons (Norm.field "orelse" (.tup (normalizeList orelse))) .nil)))))
  | .AsyncFor target iter body orelse _ _ =>
      .tup (.cons (.str "AsyncFor")
        (.cons (Norm.field "target" (normalizeCode target))
        (.cons (Norm.field "iter" (normalizeCode iter))
        (.cons (Norm.field "body" (.tup (normalizeList body)))
        (.cons (Norm.field "orelse" (.tup (normalizeList orelse))) .nil)))))
  | .With items body _ _ =>
      .tup (.cons (.str "With")
        (.cons (Norm.field "items" (.tup (normalizeList items)))
        (.cons (Norm.field "body" (.tup (normalizeList body))) .nil)))
  | .AsyncWith items body _ _ =>
      .tup (.cons (.str "AsyncWith")
        (.cons (Norm.field "items" (.tup (normalizeList items)))
        (.cons (Norm.field "body" (.tup (normalizeList body))) .nil)))
  | .withitem c o =>
      .tup (.cons (.str "withitem")
        (.cons (Norm.field "context_expr" (normalizeCode c))
        (.cons (Norm.field "optional_vars" (normalizeOpt o)) .nil)))
  | .Try body handlers orelse finalbody _ _ =>
      .tup (.cons (.str "Try")
        (.cons (Norm.field "body" (.tup (normalizeList body)))
        (.cons (Norm.field "handlers" (.tup (normalizeList handlers)))
        (.cons (Norm.field "orelse" (.tup (normalizeList orelse)))
        (.cons (Norm.field "finalbody" (.tup (normalizeList finalbody)))
          .nil)))))
  | .ExceptHandler t name body _ _ =>
      .tup (.cons (.str "ExceptHandler")
        (.cons (Norm.field "type" (normalizeOpt t))
        (.cons (Norm.field "name" (normOptStr name))
        (.cons (Norm.field "body" (.tup (normalizeList body))) .nil))))
  | .Assert test msg _ _ =>
      .tup (.cons (.str "Assert")
        (.cons (Norm.field "test" (normalizeCode test))
        (.cons (Norm.field "msg" (normalizeOpt msg)) .nil)))
  | .Import names _ _ =>
      .tup (.cons (.str "Import")
        (.cons (Norm.field "names" (.tup (normalizeList names))) .nil))
  | .ImportFrom module names _ _ =>
      .tup (.cons (.str "ImportFrom")
        (.cons (Norm.field "module" (normOptStr module))
        (.cons (Norm.field "names" (.tup (normalizeList names))) .nil)))
  | .alias_ name asname =>
      .tup (.cons (.str "alias")
        (.cons (Norm.field "name" (.str name))
        (.cons (Norm.field "asname" (normOptStr asname)) .nil)))
  | .Attribute value attr _ =>
      .tup (.cons (.str "Attribute")
        (.cons (Norm.field "value" (normalizeCode value))
        (.cons (Norm.field "attr" (.str attr)) .nil)))
  | .Call func args =>
      .tup (.cons (.str "Call")
        (.cons (Norm.field "func" (normalizeCode func))
        (.cons (Norm.field "args" (.tup (normalizeList args))) .nil)))
  | .ListLit elts =>
      .tup (.cons (.str "List")
        (.cons (Norm.field "elts" (.tup (normalizeList elts))) .nil))
  | .Dict keys values =>
      .tup (.cons (.str "Dict")
        (.cons (Norm.field "keys" (.tup (normalizeList keys)))
        (.cons (Norm.field "values" (.tup (normalizeList values))) .nil)))
  | .Set elts =>
      .tup (.cons (.str "Set")
        (.cons (Norm.field "elts" (.tup (normalizeList elts))) .nil))
  | .BoolOp op values =>
      .tup (.cons (.str "BoolOp")
        (.cons (Norm.field "op" op.norm)
        (.cons (Norm.field "values" (.tup (normalizeList values))) .nil)))
  | .BinOp l op r =>
      .tup (.cons (.str "BinOp")
        (.cons (Norm.field "left" (normalizeCode l))
        (.cons (Norm.field "op" op.norm)
        (.cons (Norm.field "right" (normalizeCode r)) .nil))))
  | .ListComp elt gens =>
      .tup (.cons (.str "ListComp")
        (.cons (Norm.field "elt" (normalizeCode elt))
        (.cons (Norm.field "generators" (.tup (normalizeList gens))) .nil)))
  | .SetComp elt gens =>
      .tup (.cons (.str "SetComp")
        (.cons (Norm.field "elt" (normalizeCode elt))
        (.cons (Norm.field "generators" (.tup (normalizeList gens))) .nil)))
  | .DictComp k v gens =>
      .tup (.cons (.str "DictComp")
        (.cons (Norm.field "key" (normalizeCode k))
        (.cons (Norm.field "value" (normalizeCode v))
        (.cons (Norm.field "generators" (.tup (normalizeList gens)))
          .nil))))
  | .GeneratorExp elt gens =>
      .tup (.cons (.str "GeneratorExp")
        (.cons (Norm.field "elt" (normalizeCode elt))
        (.cons (Norm.field "generators" (.tup (normalizeList gens))) .nil)))
  | .comprehension t i ifs is_async =>
      .tup (.cons (.str "comprehension")
        (.cons (Norm.field "target" (normalizeCode t))
        (.cons (Norm.field "iter" (normalizeCode i))
        (.cons (Norm.field "ifs" (.tup (normalizeList ifs)))
        (.cons (Norm.field "is_async" (.int is_async)) .nil)))))
  | .arg argName =>
      .tup (.cons (.str "arg")
        (.cons (Norm.field "arg" (.str argName)) .nil))
  | .arguments a ko kd d =>
      .tup (.cons (.str "arguments")
        (.cons (Norm.field "args" (.tup (normalizeList a)))
        (.cons (Norm.field "kwonlyargs" (.tup (normalizeList ko)))
        (.cons (Norm.field "kw_defaults" (.tup (normalizeList kd)))
        (.cons (Norm.field "defaults" (.tup (normalizeList d))) .nil)))))

/-- Normalize a list field: `tuple(normalize(item) for item in value)`. -/
def normalizeList : PyNodeList → NormList
  | .nil => NormList.nil
  | .cons h t => NormList.cons (normalizeCode h) (normalizeList t)

/-- Normalize an optional field (`None` stays `None`). -/
def normalizeOpt : PyNodeOpt → Norm
  | .none => Norm.NoneV
  | .some x => normalizeCode x

end

/-- Normalize an ordinary list of statements (`tuple(normalize(stmt) for
stmt in body)`). -/
def normalizeStmts : List PyNode → NormList
  | [] => NormList.nil
  | s :: rest => NormList.cons (normalizeCode s) (normalizeStmts rest)

mutual

/-- Python `repr` of a normalized value, as used inside a tuple rendering:
strings are quoted, `None` and ints print as themselves, tuples recurse
(with Python's trailing comma for 1-tuples). -/
def Norm.reprStr : Norm → String
  | .str s => "'" ++ s ++ "'"
  | .int n => toString n
  | .NoneV => "None"
  | .tup .nil => "()"
  | .tup (.cons x .nil) => "(" ++ x.reprStr ++ ",)"
  | .tup (.cons x (.cons y t)) =>
      "(" ++ x.reprStr ++ ", " ++ NormList.reprItems (.cons y t) ++ ")"

/-- Comma-separated `repr`s of tuple elements. -/
def NormList.reprItems : NormList → String
  | .nil => ""
  | .cons x .nil => x.reprStr
  | .cons x (.cons y t) => x.reprStr ++ ", " ++ NormList.reprItems (.cons y t)

end

/-- Python `str()` of a normalized value (`str` of a string is the string
itself, everything else matches `repr`). -/
def Norm.pyStr : Norm → String
  | .str s => s
  | .int n => toString n
  | .NoneV => "None"
  | .tup items => Norm.reprStr (.tup items)

/-! ### `difflib.SequenceMatcher` (no junk, below the autojunk threshold) -/

/-- Length of the common run of two sequences read from their heads. -/
def runLen : List Char → List Char → Nat
  | a :: as, b :: bs => if a = b then runLen as bs + 1 else 0
  | _, _ => 0

/-- Inner loop of `SequenceMatcher.find_longest_match`: scan the start
positions `j` in `b`, replacing the current best block only when the run at
`(i, j)` is strictly longer (so the final block maximises the length, then
minimises `i`, then minimises `j` — the documented difflib tie-breaking).
The accumulator is destructured at each step to keep evaluation
iterative. -/
def flmInner (a b : List Char) (i : Nat) :
    List Nat → Nat × Nat × Nat → Nat × Nat × Nat
  | [], best => best
  | j :: js, (bi, bj, bk) =>
      let k := runLen (a.drop i) (b.drop j)
      if bk < k then flmInner a b i js (i, j, k)
      else flmInner a b i js (bi, bj, bk)

/-- Outer loop of `find_longest_match`: scan the start positions `i` in
`a`. -/
def flmOuter (a b : List Char) :
    List Nat → Nat × Nat × Nat → Nat × Nat × Nat
  | [], best => best
  | i :: rest, best =>
      flmOuter a b rest (flmInner a b i (List.range b.length) best)

/-- `SequenceMatcher.find_longest_match` over whole sequences (with no junk
there is no junk extension step). -/
def find_longest_match (a b : List Char) : Nat × Nat × Nat :=
  flmOuter a b (List.range a.length) (0, 0, 0)

/-- Total size of `get_matching_blocks`: recursively take the longest match
and recurse on the region to its left and the region to its right.  The fuel
argument (`|a| + |b|` at the top call) keeps the recursion structural; both
sub-regions are strictly smaller, so it never runs out. -/
def smMatchesAux : Nat → List Char → List Char → Nat
  | 0, _, _ => 0
  | fuel + 1, a, b =>
      let best := find_longest_match a b
      if best.2.2 = 0 then 0
      else
        best.2.2 + smMatchesAux fuel (a.take best.1) (b.take best.2.1) +
          smMatchesAux fuel (a.drop (best.1 + best.2.2))
            (b.drop (best.2.1 + best.2.2))

/-- Total matched length over all matching blocks. -/
def smMatches (a b : List Char) : Nat :=
  smMatchesAux (a.length + b.length) a b

/-- `SequenceMatcher.ratio()` (difflib's `_calculate_ratio`): `2M/T`, and
`1.0` when both sequences are empty.  Computed in `ℚ` rather than IEEE
floats. -/
def smRatio (a b : List Char) : ℚ :=
  if a.length + b.length = 0 then 1
  else (2 * (smMatches a b : ℚ)) / ((a.length : ℚ) + (b.length : ℚ))

/-! ### DuplicatedCodeRule: similarity, blocks and checks -/

namespace DuplicatedCodeRule

/-- Configuration of `DuplicatedCodeRule.__init__` with the source
defaults.  The similarity threshold is a rational standing for the Python
float. -/
structure Config where
  similarity_threshold : ℚ := 0.85
  min_statements : Nat := 3
  check_within_functions : Bool := true
  check_between_functions : Bool := true

/-- `DuplicatedCodeRule._calculate_similarity`: `SequenceMatcher` ratio of
the `str()` serializations of the two normalized values. -/
def calculate_similarity (code1 code2 : Norm) : ℚ :=
  smRatio (Norm.pyStr code1).data (Norm.pyStr code2).data

/-- One record of `_extract_all_functions`.  Equality on these records
models Python `==` on the function dicts; the `body` lists of distinct
records are distinct objects in Python, which is mirrored well enough by
comparing the remaining fields (used only for the duplicate-append guard in
the grouping loop, where it does not change any theorem below). -/
structure FuncRec where
  name : String
  lineno : Nat
  end_lineno : Nat
  statements : Nat
  normalized : Norm
  body : List PyNode

/-- Python `==` on function records (see `FuncRec`). -/
def funcRecBeq (f g : FuncRec) : Bool :=
  f.name = g.name && f.lineno = g.lineno && f.end_lineno = g.end_lineno &&
    f.statements = g.statements && Norm.beq f.normalized g.normalized

/-- `DuplicatedCodeRule._extract_all_functions`: every function or async
function whose body has at least `min_statements` statements, with its
normalized body tuple. -/
def extract_all_functions (cfg : Config) (tree : PyNode) : List FuncRec :=
  (walk tree).filterMap fun node =>
    match node with
    | .FunctionDef name _ body l e | .AsyncFunctionDef name _ body l e =>
        let bl := body.toList
        if cfg.min_statements ≤ bl.length then
          Option.some
            { name := name, lineno := l, end_lineno := e,
              statements := bl.length,
              normalized := Norm.tup (normalizeStmts bl), body := bl }
        else Option.none
    | _ => Option.none

/-- One record of `_extract_code_blocks`. -/
structure CodeBlock where
  parent : String
  parent_lineno : Nat
  start_line : Nat
  end_line : Nat
  statements : Nat
  normalized : Norm

/-- Python `range(a, b)`. -/
def rangePy (a b : Nat) : List Nat :=
  List.range' a (b - a)

/-- `DuplicatedCodeRule._extract_code_blocks`: all sliding windows of
`min_size` up to `min_size + 4` consecutive statements.  `start_line` and
`end_line` are the `lineno` of the window's first and last statement
(`block[0]`/`block[-1]`; the `hasattr` fallbacks to 0 are mirrored by the
`getD 0`, and windows are nonempty whenever `min_size ≥ 1`, the precondition
the spec lays on callers). -/
def extract_code_blocks (statements : List PyNode) (min_size : Nat)
    (parent_name : String) (parent_lineno : Nat) : List CodeBlock :=
  if statements.length < min_size then []
  else
    (List.range (statements.length - min_size + 1)).flatMap fun i =>
      (rangePy min_size
          (min (statements.length - i + 1) (min_size + 5))).map
        fun window_size =>
          let block := (statements.drop i).take window_size
          { parent := parent_name, parent_lineno := parent_lineno,
            start_line := ((block.head?.map PyNode.lineno).getD 0),
            end_line := ((block.getLast?.map PyNode.lineno).getD 0),
            statements := block.length,
            normalized := Norm.tup (normalizeStmts block) }

/-- The ordered pairs visited by a double loop `for i, x in enumerate(l):
for j, y in enumerate(l): if i >= j: continue`, in visiting order. -/
def orderedPairs {α : Type} : List α → List (α × α)
  | [] => []
  | x :: xs => xs.map (fun y => (x, y)) ++ orderedPairs xs

/-- The issue reported for a within-function duplicate pair. -/
def withinIssue (funcName : String) (b1 b2 : CodeBlock) (similarity : ℚ)
    (fmt : ℚ → String) : Issue :=
  { rule := "DuplicatedCode", lineno := b1.start_line,
    end_lineno := b1.end_line,
    message := "Duplicated code block in function '" ++ funcName ++
      "' (similarity: " ++ fmt similarity ++ "): lines " ++
      toString b1.start_line ++ "-" ++ toString b1.end_line ++ " and " ++
      toString b2.start_line ++ "-" ++ toString b2.end_line ++ " (" ++
      toString b1.statements ++
      " statements). Consider extracting to a separate function." }

/-- Python's `f"{x:.1%}"` percentage rendering of the similarity score.
(CPython rounds the IEEE double half-to-even; this model rounds the rational
half-up.  No theorem below inspects a rendered percentage.) -/
def formatPct (q : ℚ) : String :=
  let t : Int := round (q * 1000)
  toString (t / 10) ++ "." ++ toString (t % 10) ++ "%"

/-- The comparison predicate of the within-function double loop: the two
blocks' line ranges must not intersect and the similarity of their
normalized forms must reach the threshold. -/
def withinPairHit (cfg : Config) (bp : CodeBlock × CodeBlock) : Bool :=
  (decide (bp.1.end_line < bp.2.start_line) ||
      decide (bp.2.end_line < bp.1.start_line)) &&
    decide (cfg.similarity_threshold ≤
      calculate_similarity bp.1.normalized bp.2.normalized)

/-- `DuplicatedCodeRule._check_within_functions`: skip functions with fewer
than `2 * min_statements` statements; otherwise report the first
non-overlapping block pair (in double-loop order) whose similarity reaches
the threshold, then stop scanning that function (the source's
`reported_pairs` set is populated only immediately before both loops break,
so it never filters a comparison). -/
def check_within_functions (cfg : Config) (functions : List FuncRec) :
    List Issue :=
  functions.flatMap fun func =>
    if func.statements < cfg.min_statements * 2 then []
    else
      let blocks := extract_code_blocks func.body cfg.min_statements
        ("function:" ++ func.name) func.lineno
      match (orderedPairs blocks).find? (withinPairHit cfg) with
      | Option.some bp =>
          [withinIssue func.name bp.1 bp.2
            (calculate_similarity bp.1.normalized bp.2.normalized)
            formatPct]
      | Option.none => []

/-- `tuple(sorted([name1, name2]))`. -/
def sortedPairKey (n1 n2 : String) : String × String :=
  if n1 ≤ n2 then (n1, n2) else (n2, n1)

/-- The group-extension scan of `_check_function_to_function`: find the
first group containing `f1`'s name (append `f2` unless already present), or
failing that the first group containing `f2`'s name (append `f1`); `none`
when no group matches. -/
def updateGroups (f1 f2 : FuncRec) :
    List (String × List FuncRec) → Option (List (String × List FuncRec))
  | [] => Option.none
  | (key, members) :: rest =>
      if members.any (fun m => m.name = f1.name) then
        Option.some
          ((key,
            if members.any (fun m => funcRecBeq m f2) then members
            else members ++ [f2]) :: rest)
      else if members.any (fun m => m.name = f2.name) then
        Option.some
          ((key,
            if members.any (fun m => funcRecBeq m f1) then members
            else members ++ [f1]) :: rest)
      else
        (updateGroups f1 f2 rest).map (fun g => (key, members) :: g)

/-- The grouping pass of `_check_function_to_function`: visit every ordered
pair once (the `compared` set of sorted name pairs can suppress re-compares
when two functions share a name), and when the similarity reaches the
threshold extend the first group containing either function, or else insert
a fresh group keyed by the two names. -/
def buildGroups (cfg : Config) (functions : List FuncRec) :
    List (String × List FuncRec) :=
  ((orderedPairs functions).foldl
    (fun (st : List (String × String) × List (String × List FuncRec)) fp =>
      let pair_key := sortedPairKey fp.1.name fp.2.name
      if st.1.contains pair_key then st
      else
        let compared := st.1 ++ [pair_key]
        let similarity :=
          calculate_similarity fp.1.normalized fp.2.normalized
        if cfg.similarity_threshold ≤ similarity then
          match updateGroups fp.1 fp.2 st.2 with
          | Option.some g => (compared, g)
          | Option.none =>
              (compared,
                dictInsert (fp.1.name ++ "_" ++ fp.2.name) [fp.1, fp.2] st.2)
        else (compared, st.2))
    ([], [])).2

/-- `unique_funcs`: deduplicate a group by function name, keeping the first
occurrence. -/
def dedupByName (seen : List String) : List FuncRec → List FuncRec
  | [] => []
  | f :: rest =>
      if seen.contains f.name then dedupByName seen rest
      else f :: dedupByName (seen ++ [f.name]) rest

/-- The issue reported for one similarity group (line span of the group's
first function; message carries the mean pairwise similarity and every
member). -/
def betweenIssue (group : List FuncRec) : Issue :=
  let sims := (orderedPairs group).map fun fp =>
    calculate_similarity fp.1.normalized fp.2.normalized
  let avg : ℚ := if sims.length = 0 then 0 else sims.sum / (sims.length : ℚ)
  let func_names := group.map fun f =>
    f.name ++ "() (line " ++ toString f.lineno ++ ", " ++
      toString f.statements ++ " statements)"
  { rule := "DuplicatedCode",
    lineno := ((group.head?.map FuncRec.lineno).getD 0),
    end_lineno := ((group.head?.map FuncRec.end_lineno).getD 0),
    message := "Similar function implementations (similarity: " ++
      formatPct avg ++ "): " ++ String.intercalate ", " func_names ++
      ". Consider refactoring into a single function." }

/-- The reporting pass of `_check_function_to_function`: for each group in
insertion order, deduplicate by name; report it when it still has at least
two members, none of which was reported before, and then mark all its
members reported. -/
def reportGroups (groups : List (String × List FuncRec)) : List Issue :=
  (groups.foldl
    (fun (acc : List String × List Issue) kg =>
      let group := dedupByName [] kg.2
      if 2 ≤ group.length &&
          group.all (fun f => !(acc.1.contains f.name)) then
        (acc.1 ++ group.map FuncRec.name, acc.2 ++ [betweenIssue group])
      else acc)
    ([], [])).2

/-- `DuplicatedCodeRule._check_function_to_function`. -/
def check_function_to_function (cfg : Config) (functions : List FuncRec) :
    List Issue :=
  reportGroups (buildGroups cfg functions)

/-- `DuplicatedCodeRule.check`: between-function comparison (when enabled
and at least two functions qualify) followed by within-function
comparison (when enabled). -/
def check (cfg : Config) (tree : PyNode) : List Issue :=
  let functions := extract_all_functions cfg tree
  (if cfg.check_between_functions && decide (2 ≤ functions.length) then
    check_function_to_function cfg functions
  else []) ++
    (if cfg.check_within_functions then check_within_functions cfg functions
    else [])

end DuplicatedCodeRule

/-! ### Spec-side definitions

The following definitions transcribe the specification's wording (not the
source) and are used to state refinement-style claims against the functions
above. -/

/-- Number of mutable positional defaults a node contributes: for a
`FunctionDef`, the number of list/dict/set literals among its positional
defaults; 0 for anything else. -/
def specMutableCount : PyNode → Nat
  | .FunctionDef _ args _ _ _ =>
      (PyNode.argDefaults args).countP isMutableDefault
  | _ => 0

/-- The issues `MutableDefaultArgumentsRule.check` appends while visiting
one walked node: nothing unless the node is a synchronous `FunctionDef`, and
then one issue per mutable expression in the positional-defaults list. -/
def mdaNodeIssues : PyNode → List Issue
  | .FunctionDef name _args _body lineno end_lineno =>
      (PyNode.argDefaults _args).filterMap fun dflt =>
        if isMutableDefault dflt then
          Option.some (mutableDefaultIssue name lineno end_lineno)
        else
          Option.none
  | _ => []

/-- Count of `if`/`while`/`for`/`async for` nodes in the subtree. -/
def countBranches (node : PyNode) : Int :=
  ((walk node).countP fun c =>
    match c with
    | .If .. | .While .. | .For .. | .AsyncFor .. => true
    | _ => false : Nat)

/-- Count of exception-handler clauses in the subtree. -/
def countExceptHandlers (node : PyNode) : Int :=
  ((walk node).countP fun c =>
    match c with
    | .ExceptHandler .. => true
    | _ => false : Nat)

/-- Count of `with`/`async with` nodes in the subtree. -/
def countWithBlocks (node : PyNode) : Int :=
  ((walk node).countP fun c =>
    match c with
    | .With .. | .AsyncWith .. => true
    | _ => false : Nat)

/-- Count of `assert` statements in the subtree. -/
def countAsserts (node : PyNode) : Int :=
  ((walk node).countP fun c =>
    match c with
    | .Assert .. => true
    | _ => false : Nat)

/-- Sum of `(operand_count - 1)` over the boolean `and`/`or` expressions of
the subtree. -/
def boolOpExtra (node : PyNode) : Int :=
  ((walk node).map fun c =>
    match c with
    | .BoolOp _ values => (values.toList.length : Int) - 1
    | _ => 0).sum

/-- Sum of the filter-condition counts of all comprehension clauses of the
subtree. -/
def comprehensionFilterTotal (node : PyNode) : Int :=
  ((walk node).map comprehensionIfsLen).sum

/-- The specification's cyclomatic-complexity formula: base 1, plus one per
branch construct, per exception handler, per context-manager entry and per
assertion, plus `(operand_count - 1)` per boolean expression, plus the
filter-condition count of every comprehension clause. -/
def cyclomaticSpec (node : PyNode) : Int :=
  1 + countBranches node + countExceptHandlers node + countWithBlocks node +
    countAsserts node + boolOpExtra node + comprehensionFilterTotal node

/-- Per-node contribution counted by
`LongMethodRule.calculate_cyclomatic_complexity` for comprehension filters:
the total filter count of the generators of a comprehension *expression*. -/
def compExprFilterLen : PyNode → Int
  | .ListComp _ gens | .SetComp _ gens | .GeneratorExp _ gens =>
      (gens.toList.map comprehensionIfsLen).sum
  | .DictComp _ _ gens => (gens.toList.map comprehensionIfsLen).sum
  | _ => 0

/-- The amount `GodClassRule.calculate_complexity` adds for one walked
node. -/
def godContribution : PyNode → Int
  | .If .. | .While .. | .For .. | .AsyncFor .. => 1
  | .ExceptHandler .. => 1
  | .With .. | .AsyncWith .. => 1
  | .Assert .. => 1
  | .BoolOp _ values => (values.toList.length : Int) - 1
  | .comprehension _ _ ifs _ => (ifs.toList.length : Int)
  | _ => 0

/-- The amount `LongMethodRule.calculate_cyclomatic_complexity` adds for
one walked node. -/
def longContribution : PyNode → Int
  | .If .. | .While .. | .For .. | .AsyncFor .. => 1
  | .ExceptHandler .. => 1
  | .BoolOp _ values => (values.toList.length : Int) - 1
  | .ListComp _ gens | .SetComp _ gens | .GeneratorExp _ gens =>
      (gens.toList.map comprehensionIfsLen).sum
  | .DictComp _ _ gens => (gens.toList.map comprehensionIfsLen).sum
  | .With .. | .AsyncWith .. => 1
  | _ => 0

mutual

/-- Proper placement of comprehension clauses (true of every tree produced
by `ast.parse`): `comprehension` nodes occur exactly as the generators of
`ListComp`/`SetComp`/`DictComp`/`GeneratorExp` nodes, and nowhere else. -/
def PyNode.noStray : PyNode → Bool
  | .comprehension _ _ _ _ => false
  | .ListComp elt gens => elt.noStray && gens.allGenerators
  | .SetComp elt gens => elt.noStray && gens.allGenerators
  | .DictComp k v gens => k.noStray && v.noStray && gens.allGenerators
  | .GeneratorExp elt gens => elt.noStray && gens.allGenerators
  | .Module body => body.noStray
  | .FunctionDef _ args body _ _ => args.noStray && body.noStray
  | .AsyncFunctionDef _ args body _ _ => args.noStray && body.noStray
  | .ClassDef _ body _ _ => body.noStray
  | .Assign targets value _ _ => targets.noStray && value.noStray
  | .Return value _ _ => value.noStray
  | .Raise exc _ _ => exc.noStray
  | .Break _ _ => true
  | .Continue _ _ => true
  | .Pass _ _ => true
  | .Expr value _ _ => value.noStray
  | .Delete targets _ _ => targets.noStray
  | .If test body orelse _ _ =>
      test.noStray && body.noStray && orelse.noStray
  | .While test body orelse _ _ =>
      test.noStray && body.noStray && orelse.noStray
  | .For target iter body orelse _ _ =>
      target.noStray && iter.noStray && body.noStray && orelse.noStray
  | .AsyncFor target iter body orelse _ _ =>
      target.noStray && iter.noStray && body.noStray && orelse.noStray
  | .With items body _ _ => items.noStray && body.noStray
  | .AsyncWith items body _ _ => items.noStray && body.noStray
  | .withitem c o => c.noStray && o.noStray
  | .Try body handlers orelse finalbody _ _ =>
      body.noStray && handlers.noStray && orelse.noStray &&
        finalbody.noStray
  | .ExceptHandler t _ body _ _ => t.noStray && body.noStray
  | .Assert test msg _ _ => test.noStray && msg.noStray
  | .Import names _ _ => names.noStray
  | .ImportFrom _ names _ _ => names.noStray
  | .alias_ _ _ => true
  | .Name _ _ _ _ => true
  | .Attribute value _ _ => value.noStray
  | .Call func args => func.noStray && args.noStray
  | .Constant _ => true
  | .ListLit elts => elts.noStray
  | .Dict keys values => keys.noStray && values.noStray
  | .Set elts => elts.noStray
  | .BoolOp _ values => values.noStray
  | .BinOp l _ r => l.noStray && r.noStray
  | .arg _ => true
  | .arguments a ko kd d =>
      a.noStray && ko.noStray && kd.noStray && d.noStray

/-- `noStray` for every element of a list field. -/
def PyNodeList.noStray : PyNodeList → Bool
  | .nil => true
  | .cons h t => h.noStray && t.noStray

/-- `noStray` for an optional field. -/
def PyNodeOpt.noStray : PyNodeOpt → Bool
  | .none => true
  | .some x => x.noStray

/-- Every element is a comprehension clause whose own components contain no
stray comprehension nodes. -/
def PyNodeList.allGenerators : PyNodeList → Bool
  | .nil => true
  | .cons (.comprehension t i ifs _) rest =>
      t.noStray && i.noStray && ifs.noStray && rest.allGenerators
  | .cons _ _ => false

end

mutual

/-- Depth-first node enumeration of a tree (the node followed by the nodes
of its fields in order); used as a structurally-defined reference multiset
for the breadth-first `walk`. -/
def PyNode.dfs : PyNode → List PyNode
  | .Module body => .Module body :: body.dfs
  | .FunctionDef n args body l e =>
      .FunctionDef n args body l e :: (args.dfs ++ body.dfs)
  | .AsyncFunctionDef n args body l e =>
      .AsyncFunctionDef n args body l e :: (args.dfs ++ body.dfs)
  | .ClassDef n body l e => .ClassDef n body l e :: body.dfs
  | .Assign targets value l e =>
      .Assign targets value l e :: (targets.dfs ++ value.dfs)
  | .Return value l e => .Return value l e :: value.dfs
  | .Raise exc l e => .Raise exc l e :: exc.dfs
  | .Break l e => [.Break l e]
  | .Continue l e => [.Continue l e]
  | .Pass l e => [.Pass l e]
  | .Expr value l e => .Expr value l e :: value.dfs
  | .Delete targets l e => .Delete targets l e :: targets.dfs
  | .If test body orelse l e =>
      .If test body orelse l e :: (test.dfs ++ (body.dfs ++ orelse.dfs))
  | .While test body orelse l e =>
      .While test body orelse l e :: (test.dfs ++ (body.dfs ++ orelse.dfs))
  | .For target iter body orelse l e =>
      .For target iter body orelse l e ::
        (target.dfs ++ (iter.dfs ++ (body.dfs ++ orelse.dfs)))
  | .AsyncFor target iter body orelse l e =>
      .AsyncFor target iter body orelse l e ::
        (target.dfs ++ (iter.dfs ++ (body.dfs ++ orelse.dfs)))
  | .With items body l e => .With items body l e :: (items.dfs ++ body.dfs)
  | .AsyncWith items body l e =>
      .AsyncWith items body l e :: (items.dfs ++ body.dfs)
  | .withitem c o => .withitem c o :: (c.dfs ++ o.dfs)
  | .Try body handlers orelse finalbody l e =>
      .Try body handlers orelse finalbody l e ::
        (body.dfs ++ (handlers.dfs ++ (orelse.dfs ++ finalbody.dfs)))
  | .ExceptHandler t n body l e =>
      .ExceptHandler t n body l e :: (t.dfs ++ body.dfs)
  | .Assert test msg l e => .Assert test msg l e :: (test.dfs ++ msg.dfs)
  | .Import names l e => .Import names l e :: names.dfs
  | .ImportFrom m names l e => .ImportFrom m names l e :: names.dfs
  | .alias_ n a => [.alias_ n a]
  | .Name i c l e => [.Name i c l e]
  | .Attribute value attr c => .Attribute value attr c :: value.dfs
  | .Call func args => .Call func args :: (func.dfs ++ args.dfs)
  | .Constant v => [.Constant v]
  | .ListLit elts => .ListLit elts :: elts.dfs
  | .Dict keys values => .Dict keys values :: (keys.dfs ++ values.dfs)
  | .Set elts => .Set elts :: elts.dfs
  | .BoolOp op values => .BoolOp op values :: values.dfs
  | .BinOp l op r => .BinOp l op r :: (l.dfs ++ r.dfs)
  | .ListComp elt gens => .ListComp elt gens :: (elt.dfs ++ gens.dfs)
  | .SetComp elt gens => .SetComp elt gens :: (elt.dfs ++ gens.dfs)
  | .DictComp k v gens =>
      .DictComp k v gens :: (k.dfs ++ (v.dfs ++ gens.dfs))
  | .GeneratorExp elt gens =>
      .GeneratorExp elt gens :: (elt.dfs ++ gens.dfs)
  | .comprehension t i ifs ia =>
      .comprehension t i ifs ia :: (t.dfs ++ (i.dfs ++ ifs.dfs))
  | .arg n => [.arg n]
  | .arguments a ko kd d =>
      .arguments a ko kd d :: (a.dfs ++ (ko.dfs ++ (kd.dfs ++ d.dfs)))

/-- Depth-first enumeration of all nodes of a list field. -/
def PyNodeList.dfs : PyNodeList → List PyNode
  | .nil => []
  | .cons h t => h.dfs ++ t.dfs

/-- Depth-first enumeration of all nodes of an optional field. -/
def PyNodeOpt.dfs : PyNodeOpt → List PyNode
  | .none => []
  | .some x => x.dfs

end

/-- A constant check allowing any replacement (the frozen claim's literal
reading of "identical up to renaming … literal values"). -/
def constAny (_ _ : PyConst) : Bool :=
  true

/-- A string-field check allowing any renaming. -/
def strAny (_ _ : String) : Bool :=
  true

mutual

/-- Parametrized structural equivalence of two subtrees: the same
constructors with the same scalar fields everywhere, except that `Name`
identifiers may always differ, constant values must satisfy `constOk`,
attribute identifiers must satisfy `attrOk`, and source positions are
ignored (two occurrences of the same code sit at different lines). -/
def PyNode.renEquivP (constOk : PyConst → PyConst → Bool)
    (attrOk : String → String → Bool) : PyNode → PyNode → Bool
  | .Name _ c1 _ _, .Name _ c2 _ _ => c1 = c2
  | .Constant v1, .Constant v2 => constOk v1 v2
  | .Attribute v1 a1 c1, .Attribute v2 a2 c2 =>
      v1.renEquivP constOk attrOk v2 && attrOk a1 a2 && c1 = c2
  | .Module b1, .Module b2 => b1.renEquivP constOk attrOk b2
  | .FunctionDef n1 a1 b1 _ _, .FunctionDef n2 a2 b2 _ _ =>
      n1 = n2 && a1.renEquivP constOk attrOk a2 &&
        b1.renEquivP constOk attrOk b2
  | .AsyncFunctionDef n1 a1 b1 _ _, .AsyncFunctionDef n2 a2 b2 _ _ =>
      n1 = n2 && a1.renEquivP constOk attrOk a2 &&
        b1.renEquivP constOk attrOk b2
  | .ClassDef n1 b1 _ _, .ClassDef n2 b2 _ _ =>
      n1 = n2 && b1.renEquivP constOk attrOk b2
  | .Assign t1 v1 _ _, .Assign t2 v2 _ _ =>
      t1.renEquivP constOk attrOk t2 && v1.renEquivP constOk attrOk v2
  | .Return v1 _ _, .Return v2 _ _ => v1.renEquivP constOk attrOk v2
  | .Raise e1 _ _, .Raise e2 _ _ => e1.renEquivP constOk attrOk e2
  | .Break _ _, .Break _ _ => true
  | .Continue _ _, .Continue _ _ => true
  | .Pass _ _, .Pass _ _ => true
  | .Expr v1 _ _, .Expr v2 _ _ => v1.renEquivP constOk attrOk v2
  | .Delete t1 _ _, .Delete t2 _ _ => t1.renEquivP constOk attrOk t2
  | .If c1 b1 o1 _ _, .If c2 b2 o2 _ _ =>
      c1.renEquivP constOk attrOk c2 && b1.renEquivP constOk attrOk b2 &&
        o1.renEquivP constOk attrOk o2
  | .While c1 b1 o1 _ _, .While c2 b2 o2 _ _ =>
      c1.renEquivP constOk attrOk c2 && b1.renEquivP constOk attrOk b2 &&
        o1.renEquivP constOk attrOk o2
  | .For t1 i1 b1 o1 _ _, .For t2 i2 b2 o2 _ _ =>
      t1.renEquivP constOk attrOk t2 && i1.renEquivP constOk attrOk i2 &&
        b1.renEquivP constOk attrOk b2 && o1.renEquivP constOk attrOk o2
  | .AsyncFor t1 i1 b1 o1 _ _, .AsyncFor t2 i2 b2 o2 _ _ =>
      t1.renEquivP constOk attrOk t2 && i1.renEquivP constOk attrOk i2 &&
        b1.renEquivP constOk attrOk b2 && o1.renEquivP constOk attrOk o2
  | .With i1 b1 _ _, .With i2 b2 _ _ =>
      i1.renEquivP constOk attrOk i2 && b1.renEquivP constOk attrOk b2
  | .AsyncWith i1 b1 _ _, .AsyncWith i2 b2 _ _ =>
      i1.renEquivP constOk attrOk i2 && b1.renEquivP constOk attrOk b2
  | .withitem c1 o1, .withitem c2 o2 =>
      c1.renEquivP constOk attrOk c2 && o1.renEquivP constOk attrOk o2
  | .Try b1 h1 o1 f1 _ _, .Try b2 h2 o2 f2 _ _ =>
      b1.renEquivP constOk attrOk b2 && h1.renEquivP constOk attrOk h2 &&
        o1.renEquivP constOk attrOk o2 && f1.renEquivP constOk attrOk f2
  | .ExceptHandler t1 n1 b1 _ _, .ExceptHandler t2 n2 b2 _ _ =>
      t1.renEquivP constOk attrOk t2 && n1 = n2 &&
        b1.renEquivP constOk attrOk b2
  | .Assert t1 m1 _ _, .Assert t2 m2 _ _ =>
      t1.renEquivP constOk attrOk t2 && m1.renEquivP constOk attrOk m2
  | .Import n1 _ _, .Import n2 _ _ => n1.renEquivP constOk attrOk n2
  | .ImportFrom m1 n1 _ _, .ImportFrom m2 n2 _ _ =>
      m1 = m2 && n1.renEquivP constOk attrOk n2
  | .alias_ n1 a1, .alias_ n2 a2 => n1 = n2 && a1 = a2
  | .Call f1 a1, .Call f2 a2 =>
      f1.renEquivP constOk attrOk f2 && a1.renEquivP constOk attrOk a2
  | .ListLit e1, .ListLit e2 => e1.renEquivP constOk attrOk e2
  | .Dict k1 v1, .Dict k2 v2 =>
      k1.renEquivP constOk attrOk k2 && v1.renEquivP constOk attrOk v2
  | .Set e1, .Set e2 => e1.renEquivP constOk attrOk e2
  | .BoolOp op1 v1, .BoolOp op2 v2 =>
      op1 = op2 && v1.renEquivP constOk attrOk v2
  | .BinOp l1 op1 r1, .BinOp l2 op2 r2 =>
      l1.renEquivP constOk attrOk l2 && op1 = op2 &&
        r1.renEquivP constOk attrOk r2
  | .ListComp e1 g1, .ListComp e2 g2 =>
      e1.renEquivP constOk attrOk e2 && g1.renEquivP constOk attrOk g2
  | .SetComp e1 g1, .SetComp e2 g2 =>
      e1.renEquivP constOk attrOk e2 && g1.renEquivP constOk attrOk g2
  | .DictComp k1 v1 g1, .DictComp k2 v2 g2 =>
      k1.renEquivP constOk attrOk k2 && v1.renEquivP constOk attrOk v2 &&
        g1.renEquivP constOk attrOk g2
  | .GeneratorExp e1 g1, .GeneratorExp e2 g2 =>
      e1.renEquivP constOk attrOk e2 && g1.renEquivP constOk attrOk g2
  | .comprehension t1 i1 f1 a1, .comprehension t2 i2 f2 a2 =>
      t1.renEquivP constOk attrOk t2 && i1.renEquivP constOk attrOk i2 &&
        f1.renEquivP constOk attrOk f2 && a1 = a2
  | .arg n1, .arg n2 => n1 = n2
  | .arguments a1 k1 d1 e1, .arguments a2 k2 d2 e2 =>
      a1.renEquivP constOk attrOk a2 && k1.renEquivP constOk attrOk k2 &&
        d1.renEquivP constOk attrOk d2 && e1.renEquivP constOk attrOk e2
  | _, _ => false

/-- Pointwise `renEquivP` on list fields. -/
def PyNodeList.renEquivP (constOk : PyConst → PyConst → Bool)
    (attrOk : String → String → Bool) : PyNodeList → PyNodeList → Bool
  | .nil, .nil => true
  | .cons h1 t1, .cons h2 t2 =>
      h1.renEquivP constOk attrOk h2 && t1.renEquivP constOk attrOk t2
  | _, _ => false

/-- Pointwise `renEquivP` on optional fields. -/
def PyNodeOpt.renEquivP (constOk : PyConst → PyConst → Bool)
    (attrOk : String → String → Bool) : PyNodeOpt → PyNodeOpt → Bool
  | .none, .none => true
  | .some x1, .some x2 => x1.renEquivP constOk attrOk x2
  | _, _ => false

end

/-- The frozen claim's relation: identical up to renaming identifiers
(variable references and attribute names) and replacing literal values. -/
def renEquivLoose (t1 t2 : PyNode) : Bool :=
  t1.renEquivP constAny strAny t2

/-- Canonical representative of a constant's type: erasing a literal value
while keeping Python's type tag. -/
def PyConst.erase : PyConst → PyConst
  | .int _ => .int 0
  | .str _ => .str ""
  | .bool _ => .bool true
  | .none => .none

mutual

/-- Canonical form of a subtree under the amended equivalence: every `Name`
identifier becomes `""`, every constant becomes the representative of its
type, and every source position becomes 0; all remaining structure
(including attribute identifiers and expression contexts) is kept.  Two
subtrees are identical up to renaming variable references, replacing
literals within their types, and relocation exactly when their erasures are
equal. -/
def PyNode.erase : PyNode → PyNode
  | .Module body => .Module body.erase
  | .FunctionDef n args body _ _ =>
      .FunctionDef n args.erase body.erase 0 0
  | .AsyncFunctionDef n args body _ _ =>
      .AsyncFunctionDef n args.erase body.erase 0 0
  | .ClassDef n body _ _ => .ClassDef n body.erase 0 0
  | .Assign targets value _ _ => .Assign targets.erase value.erase 0 0
  | .Return value _ _ => .Return value.erase 0 0
  | .Raise exc _ _ => .Raise exc.erase 0 0
  | .Break _ _ => .Break 0 0
  | .Continue _ _ => .Continue 0 0
  | .Pass _ _ => .Pass 0 0
  | .Expr value _ _ => .Expr value.erase 0 0
  | .Delete targets _ _ => .Delete targets.erase 0 0
  | .If test body orelse _ _ =>
      .If test.erase body.erase orelse.erase 0 0
  | .While test body orelse _ _ =>
      .While test.erase body.erase orelse.erase 0 0
  | .For target iter body orelse _ _ =>
      .For target.erase iter.erase body.erase orelse.erase 0 0
  | .AsyncFor target iter body orelse _ _ =>
      .AsyncFor target.erase iter.erase body.erase orelse.erase 0 0
  | .With items body _ _ => .With items.erase body.erase 0 0
  | .AsyncWith items body _ _ => .AsyncWith items.erase body.erase 0 0
  | .withitem c o => .withitem c.erase o.erase
  | .Try body handlers orelse finalbody _ _ =>
      .Try body.erase handlers.erase orelse.erase finalbody.erase 0 0
  | .ExceptHandler t n body _ _ =>
      .ExceptHandler t.erase n body.erase 0 0
  | .Assert test msg _ _ => .Assert test.erase msg.erase 0 0
  | .Import names _ _ => .Import names.erase 0 0
  | .ImportFrom m names _ _ => .ImportFrom m names.erase 0 0
  | .alias_ n a => .alias_ n a
  | .Name _ c _ _ => .Name "" c 0 0
  | .Attribute value attr c => .Attribute value.erase attr c
  | .Call func args => .Call func.erase args.erase
  | .Constant v => .Constant v.erase
  | .ListLit elts => .ListLit elts.erase
  | .Dict keys values => .Dict keys.erase values.erase
  | .Set elts => .Set elts.erase
  | .BoolOp op values => .BoolOp op values.erase
  | .BinOp l op r => .BinOp l.erase op r.erase
  | .ListComp elt gens => .ListComp elt.erase gens.erase
  | .SetComp elt gens => .SetComp elt.erase gens.erase
  | .DictComp k v gens => .DictComp k.erase v.erase gens.erase
  | .GeneratorExp elt gens => .GeneratorExp elt.erase gens.erase
  | .comprehension t i ifs ia =>
      .comprehension t.erase i.erase ifs.erase ia
  | .arg n => .arg n
  | .arguments a ko kd d =>
      .arguments a.erase ko.erase kd.erase d.erase

/-- Pointwise erasure of a list field. -/
def PyNodeList.erase : PyNodeList → PyNodeList
  | .nil => .nil
  | .cons h t => .cons h.erase t.erase

/-- Pointwise erasure of an optional field. -/
def PyNodeOpt.erase : PyNodeOpt → PyNodeOpt
  | .none => .none
  | .some x => .some x.erase

end

/-- The amended relation: identical up to renaming variable-reference
identifiers, replacing literal values within their types, and relocation —
i.e. equal canonical erasures. -/
def renEquiv (t1 t2 : PyNode) : Prop :=
  t1.erase = t2.erase

/-- Nondecreasing statement start lines (true of the statement lists of
every parsed file: a later statement never starts on an earlier line). -/
def nondecreasingLinenos : List PyNode → Bool
  | [] => true
  | [_] => true
  | a :: b :: rest =>
      decide (a.lineno ≤ b.lineno) && nondecreasingLinenos (b :: rest)

/-- A node carries a real position: `1 ≤ lineno ≤ end_lineno` (true of
every statement `ast.parse` places in a statement list). -/
def PyNode.posOk (n : PyNode) : Bool :=
  decide (1 ≤ n.lineno) && decide (n.lineno ≤ n.end_lineno)

/-- What `ast.parse` guarantees of a statement list: every member is a
positioned statement and start lines never decrease. -/
def stmtsOk (l : List PyNode) : Bool :=
  nondecreasingLinenos l && l.all PyNode.posOk

mutual

/-- Well-formedness of a parse tree's positions, as guaranteed by
`ast.parse`: every position-carrying node has `1 ≤ lineno ≤ end_lineno`,
and every statement list holds positioned statements whose start lines
never decrease. -/
def PyNode.wf : PyNode → Bool
  | .Module body => stmtsOk body.toList && body.wf
  | .FunctionDef _ args body l e =>
      decide (1 ≤ l) && decide (l ≤ e) &&
        stmtsOk body.toList && args.wf && body.wf
  | .AsyncFunctionDef _ args body l e =>
      decide (1 ≤ l) && decide (l ≤ e) &&
        stmtsOk body.toList && args.wf && body.wf
  | .ClassDef _ body l e =>
      decide (1 ≤ l) && decide (l ≤ e) &&
        stmtsOk body.toList && body.wf
  | .Assign targets value l e =>
      decide (1 ≤ l) && decide (l ≤ e) && targets.wf && value.wf
  | .Return value l e => decide (1 ≤ l) && decide (l ≤ e) && value.wf
  | .Raise exc l e => decide (1 ≤ l) && decide (l ≤ e) && exc.wf
  | .Break l e => decide (1 ≤ l) && decide (l ≤ e)
  | .Continue l e => decide (1 ≤ l) && decide (l ≤ e)
  | .Pass l e => decide (1 ≤ l) && decide (l ≤ e)
  | .Expr value l e => decide (1 ≤ l) && decide (l ≤ e) && value.wf
  | .Delete targets l e => decide (1 ≤ l) && decide (l ≤ e) && targets.wf
  | .If test body orelse l e =>
      decide (1 ≤ l) && decide (l ≤ e) &&
        stmtsOk body.toList &&
        stmtsOk orelse.toList && test.wf && body.wf &&
        orelse.wf
  | .While test body orelse l e =>
      decide (1 ≤ l) && decide (l ≤ e) &&
        stmtsOk body.toList &&
        stmtsOk orelse.toList && test.wf && body.wf &&
        orelse.wf
  | .For target iter body orelse l e =>
      decide (1 ≤ l) && decide (l ≤ e) &&
        stmtsOk body.toList &&
        stmtsOk orelse.toList && target.wf && iter.wf &&
        body.wf && orelse.wf
  | .AsyncFor target iter body orelse l e =>
      decide (1 ≤ l) && decide (l ≤ e) &&
        stmtsOk body.toList &&
        stmtsOk orelse.toList && target.wf && iter.wf &&
        body.wf && orelse.wf
  | .With items body l e =>
      decide (1 ≤ l) && decide (l ≤ e) &&
        stmtsOk body.toList && items.wf && body.wf
  | .AsyncWith items body l e =>
      decide (1 ≤ l) && decide (l ≤ e) &&
        stmtsOk body.toList && items.wf && body.wf
  | .withitem c o => c.wf && o.wf
  | .Try body handlers orelse finalbody l e =>
      decide (1 ≤ l) && decide (l ≤ e) &&
        stmtsOk body.toList &&
        stmtsOk orelse.toList &&
        stmtsOk finalbody.toList && body.wf && handlers.wf &&
        orelse.wf && finalbody.wf
  | .ExceptHandler t _ body l e =>
      decide (1 ≤ l) && decide (l ≤ e) &&
        stmtsOk body.toList && t.wf && body.wf
  | .Assert test msg l e =>
      decide (1 ≤ l) && decide (l ≤ e) && test.wf && msg.wf
  | .Import names l e => decide (1 ≤ l) && decide (l ≤ e) && names.wf
  | .ImportFrom _ names l e =>
      decide (1 ≤ l) && decide (l ≤ e) && names.wf
  | .alias_ _ _ => true
  | .Name _ _ l e => decide (1 ≤ l) && decide (l ≤ e)
  | .Attribute value _ _ => value.wf
  | .Call func args => func.wf && args.wf
  | .Constant _ => true
  | .ListLit elts => elts.wf
  | .Dict keys values => keys.wf && values.wf
  | .Set elts => elts.wf
  | .BoolOp _ values => values.wf
  | .BinOp l _ r => l.wf && r.wf
  | .ListComp elt gens => elt.wf && gens.wf
  | .SetComp elt gens => elt.wf && gens.wf
  | .DictComp k v gens => k.wf && v.wf && gens.wf
  | .GeneratorExp elt gens => elt.wf && gens.wf
  | .comprehension t i ifs _ => t.wf && i.wf && ifs.wf
  | .arg _ => true
  | .arguments a ko kd d => a.wf && ko.wf && kd.wf && d.wf

/-- `wf` for every element of a list field. -/
def PyNodeList.wf : PyNodeList → Bool
  | .nil => true
  | .cons h t => h.wf && t.wf

/-- `wf` for an optional field. -/
def PyNodeOpt.wf : PyNodeOpt → Bool
  | .none => true
  | .some x => x.wf

end

/-- The span invariant every emitted issue is claimed to satisfy. -/
def Issue.spanOk (i : Issue) : Prop :=
  1 ≤ i.lineno ∧ i.lineno ≤ i.end_lineno

/-! ### Concrete inputs used by counterexamples and witnesses -/

/-- Build a `PyNodeList` from an ordinary list. -/
def PyNodeList.ofList : List PyNode → PyNodeList
  | [] => .nil
  | x :: xs => .cons x (PyNodeList.ofList xs)

/-- An empty `ast.arguments` node. -/
def emptyArgs : PyNode :=
  .arguments .nil .nil .nil .nil

/-- `def f(a=[], b={}): pass` — one function, two mutable positional
defaults. -/
def exTwoMutable : PyNode :=
  .Module (.cons
    (.FunctionDef "f"
      (.arguments
        (PyNodeList.ofList [.arg "a", .arg "b"]) .nil .nil
        (PyNodeList.ofList [.ListLit .nil, .Dict .nil .nil]))
      (.cons (.Pass 1 1) .nil) 1 1)
    .nil)

/-- `async def g(x=[]): pass` — a mutable positional default on an *async*
function. -/
def exAsyncMutable : PyNode :=
  .Module (.cons
    (.AsyncFunctionDef "g"
      (.arguments (.cons (.arg "x") .nil) .nil .nil
        (.cons (.ListLit .nil) .nil))
      (.cons (.Pass 1 1) .nil) 1 1)
    .nil)

/-- `def h(*, x=[]): pass` — a mutable default bound to a keyword-only
parameter. -/
def exKwOnlyMutable : PyNode :=
  .Module (.cons
    (.FunctionDef "h"
      (.arguments .nil (.cons (.arg "x") .nil) (.cons (.ListLit .nil) .nil)
        .nil)
      (.cons (.Pass 1 1) .nil) 1 1)
    .nil)

/-- `def f(x=[]): pass` — a mutable positional default on a plain
function. -/
def exOneMutable : PyNode :=
  .Module (.cons
    (.FunctionDef "f"
      (.arguments (.cons (.arg "x") .nil) .nil .nil
        (.cons (.ListLit .nil) .nil))
      (.cons (.Pass 1 1) .nil) 1 1)
    .nil)

/-- `def f(): assert x` — one assert statement and no other decision
point. -/
def exAssertFun : PyNode :=
  .FunctionDef "f" emptyArgs
    (.cons (.Assert (.Name "x" .load 2 2) .none 2 2) .nil) 1 2

/-- A statement list `return 1` followed by `return 2`: the second
terminator follows a terminator but is never reported. -/
def exDoubleReturn : List PyNode :=
  [.Return (.some (.Constant (.int 1))) 1 1,
   .Return (.some (.Constant (.int 2))) 2 2]

/-- `def helper(): pass` alone in a module. -/
def exHelper : PyNode :=
  .Module (.cons (.FunctionDef "helper" emptyArgs (.cons (.Pass 1 1) .nil)
    1 1) .nil)

/-- `def helper(): pass` followed by a top-level call `helper()`. -/
def exHelperCalled : PyNode :=
  .Module (PyNodeList.ofList
    [.FunctionDef "helper" emptyArgs (.cons (.Pass 1 1) .nil) 1 1,
     .Expr (.Call (.Name "helper" .load 2 2) .nil) 2 2])

/-- A statement list `return 1` followed by `print("never")`. -/
def exReturnThenPrint : List PyNode :=
  [.Return (.some (.Constant (.int 1))) 1 1,
   .Expr (.Call (.Name "print" .load 2 2)
     (.cons (.Constant (.str "never")) .nil)) 2 2]

/-- A one-file project whose only definition is the private variable
`_x = 1`. -/
def projUnderscore : List (String × PyNode) :=
  [("pkg/mod.py",
    .Module (.cons
      (.Assign (.cons (.Name "_x" .store 1 1) .nil) (.Constant (.int 1))
        1 1)
      .nil))]

/-- A one-file project defining an unused `helper` function. -/
def projHelper : List (String × PyNode) :=
  [("pkg/a.py", exHelper)]

/-- A two-file project: `a.py` defines `helper`, and only `b.py` calls it. -/
def projCross : List (String × PyNode) :=
  [("pkg/a.py", exHelper),
   ("pkg/b.py",
     .Module (.cons (.Expr (.Call (.Name "helper" .load 1 1) .nil) 1 1)
       .nil))]

/-- Subtrees `1` and `'a'`: identical up to replacing a literal value, but
with literals of different types. -/
def exConstInt : PyNode := .Constant (.int 1)

/-- See `exConstInt`. -/
def exConstStr : PyNode := .Constant (.str "a")

/-- Subtrees `a.b` and `a.c`: identical up to renaming an attribute
identifier. -/
def exAttrB : PyNode := .Attribute (.Name "a" .load 1 1) "b" .load

/-- See `exAttrB`. -/
def exAttrC : PyNode := .Attribute (.Name "a" .load 1 1) "c" .load

/-- Statement `a = 1`, to be compared with `x = 2` (identical up to
renaming a variable and changing an int literal to another int). -/
def exAssignA : PyNode :=
  .Assign (.cons (.Name "a" .store 1 1) .nil) (.Constant (.int 1)) 1 1

/-- See `exAssignA`. -/
def exAssignX : PyNode :=
  .Assign (.cons (.Name "x" .store 7 7) .nil) (.Constant (.int 2)) 7 7

/-- The normalized body tuple of the one-statement body `a` (a bare name
expression). -/
def normFormA : Norm :=
  Norm.tup (normalizeStmts [.Expr (.Name "a" .load 1 1) 1 1])

/-- The normalized body tuple of the two-statement body
`pass` ; `del a`. -/
def normFormPassDel : Norm :=
  Norm.tup (normalizeStmts
    [.Pass 1 1, .Delete (.cons (.Name "a" .del 2 2) .nil) 2 2])

/-- A function record with four body statements: below the
`2 * min_statements` gate of the within-function duplicate scan at the
default configuration. -/
def funcSmall : DuplicatedCodeRule.FuncRec :=
  { name := "f", lineno := 1, end_lineno := 5, statements := 4,
    normalized :=
      Norm.tup (normalizeStmts [.Pass 2 2, .Pass 3 3, .Pass 4 4, .Pass 5 5]),
    body := [.Pass 2 2, .Pass 3 3, .Pass 4 4, .Pass 5 5] }

/-! ## General list lemmas -/

/-- Length of a `flatMap` is the sum of the per-element lengths. -/
theorem length_flatMap_eq {α β : Type} (f : α → List β) :
    ∀ l : List α, (l.flatMap f).length = (l.map fun a => (f a).length).sum
  | [] => rfl
  | x :: xs => by
      simp [List.flatMap_cons, length_flatMap_eq f xs]

/-- `map` respects pointwise-equal functions. -/
theorem map_congr_fun {α β : Type} (f g : α → β) (h : ∀ a, f a = g a) :
    ∀ l : List α, l.map f = l.map g
  | [] => rfl
  | x :: xs => by simp [h x, map_congr_fun f g h xs]

/-- `flatMap` respects pointwise-equal functions. -/
theorem flatMap_congr_fun {α β : Type} (f g : α → List β)
    (h : ∀ a, f a = g a) : ∀ l : List α, l.flatMap f = l.flatMap g
  | [] => rfl
  | x :: xs => by simp [List.flatMap_cons, h x, flatMap_congr_fun f g h xs]

/-- Length of a `filterMap` whose function is a guarded constant. -/
theorem length_filterMap_if {α β : Type} (p : α → Bool) (c : β) :
    ∀ l : List α,
      (l.filterMap fun x =>
        if p x then Option.some c else Option.none).length = l.countP p
  | [] => rfl
  | x :: xs => by
      by_cases h : p x <;>
        simp [List.filterMap_cons, h, List.countP_cons,
          length_filterMap_if p c xs]

/-! ## Walk structure: the breadth-first walk is a permutation of the
depth-first node enumeration -/

/-- List size of a node-list field is the sum of element sizes. -/
theorem sum_toList_size :
    ∀ l : PyNodeList, (l.toList.map PyNode.size).sum = l.size
  | .nil => rfl
  | .cons h t => by
      simp [PyNodeList.toList, PyNodeList.size, sum_toList_size t]

/-- List size of an optional field is the sum of element sizes. -/
theorem sum_toList_size_opt :
    ∀ o : PyNodeOpt, (o.toList.map PyNode.size).sum = o.size
  | .none => rfl
  | .some x => by simp [PyNodeOpt.toList, PyNodeOpt.size]

/-- A node's size is one more than the total size of its children. -/
theorem size_children (n : PyNode) :
    n.size = 1 + ((n.children).map PyNode.size).sum := by
  cases n <;>
    simp [PyNode.children, PyNode.size, sum_toList_size,
      sum_toList_size_opt] <;>
    omega

/-- Sizes are positive. -/
theorem size_pos (n : PyNode) : 1 ≤ n.size := by
  cases n <;> simp [PyNode.size] <;> omega

/-- `dfs` of a list field is the concatenation of element traversals. -/
theorem dfs_toList :
    ∀ l : PyNodeList, l.dfs = l.toList.flatMap PyNode.dfs
  | .nil => rfl
  | .cons h t => by
      simp [PyNodeList.toList, PyNodeList.dfs, List.flatMap_cons,
        dfs_toList t]

/-- `dfs` of an optional field is the concatenation of element
traversals. -/
theorem dfs_toList_opt :
    ∀ o : PyNodeOpt, o.dfs = o.toList.flatMap PyNode.dfs
  | .none => rfl
  | .some x => by simp [PyNodeOpt.toList, PyNodeOpt.dfs]

/-- `dfs` is the node followed by the traversals of its children. -/
theorem dfs_eq_children (n : PyNode) :
    n.dfs = n :: (n.children).flatMap PyNode.dfs := by
  cases n <;>
    simp [PyNode.children, PyNode.dfs, dfs_toList, dfs_toList_opt]

/-- With enough fuel, the queue-based walk enumerates, up to order, the
depth-first nodes of everything in the queue. -/
theorem walkAux_perm :
    ∀ fuel q, (q.map PyNode.size).sum ≤ fuel →
      List.Perm (walkAux fuel q) (q.flatMap PyNode.dfs) := by
  intro fuel
  induction fuel with
  | zero =>
      intro q hq
      cases q with
      | nil => simp [walkAux]
      | cons n q' =>
          exfalso
          have h1 := size_pos n
          simp [List.map_cons, List.sum_cons] at hq
          omega
  | succ fuel ih =>
      intro q hq
      cases q with
      | nil => simp [walkAux]
      | cons n q' =>
          have hsz : ((q' ++ n.children).map PyNode.size).sum ≤ fuel := by
            have hn := size_children n
            simp [List.map_cons, List.sum_cons] at hq
            simp [List.map_append, List.sum_append]
            omega
          have hperm := ih (q' ++ n.children) hsz
          have h1 : walkAux (fuel + 1) (n :: q') =
              n :: walkAux fuel (q' ++ n.children) := rfl
          have h2 : List.Perm (n :: walkAux fuel (q' ++ n.children))
              (n :: (q'.flatMap PyNode.dfs ++
                n.children.flatMap PyNode.dfs)) := by
            refine List.Perm.cons n ?_
            simpa [List.flatMap_append] using hperm
          have h3 : List.Perm
              (n :: (q'.flatMap PyNode.dfs ++
                n.children.flatMap PyNode.dfs))
              (n :: (n.children.flatMap PyNode.dfs ++
                q'.flatMap PyNode.dfs)) :=
            List.Perm.cons n List.perm_append_comm
          have h4 : n :: (n.children.flatMap PyNode.dfs ++
              q'.flatMap PyNode.dfs) = (n :: q').flatMap PyNode.dfs := by
            rw [List.flatMap_cons, dfs_eq_children]
            rfl
          rw [h1, ← h4]
          exact h2.trans h3

/-- The breadth-first `walk` is a permutation of the depth-first node
enumeration. -/
theorem walk_perm_dfs (t : PyNode) : List.Perm (walk t) t.dfs := by
  have h := walkAux_perm t.size [t] (by simp)
  simpa [walk, List.flatMap_cons] using h

/-! ## Claim C1 — MutableDefaultArgumentsRule issue multiplicity -/

/-- **C1, counterexample.**  The claim says a function with two or more
mutable positional defaults yields exactly one issue.  On
`def f(a=[], b={}): pass` — a tree whose walk contains exactly one function
definition, with two mutable positional defaults — `check` emits two
issues, not one. -/
theorem claim_C1_cex :
    ((walk exTwoMutable).countP fun n =>
      match n with
      | .FunctionDef .. => true
      | _ => false) = 1 ∧
    (MutableDefaultArgumentsRule.check exTwoMutable).length = 2 := by
  constructor
  · decide
  · decide

/-- **C1, amended.**  `MutableDefaultArgumentsRule.check` emits one issue
*per mutable positional default* (not per function): for every tree, the
number of issues equals the sum over all walked `FunctionDef` nodes of the
number of list/dict/set literals among their positional defaults — and in
particular it is zero when no function has a mutable positional default. -/
theorem claim_C1 (tree : PyNode) :
    (MutableDefaultArgumentsRule.check tree).length =
      ((walk tree).map specMutableCount).sum := by
  unfold MutableDefaultArgumentsRule.check
  rw [length_flatMap_eq]
  refine congrArg List.sum (map_congr_fun _ _ (fun node => ?_) _)
  cases node <;>
    simp [specMutableCount, length_filterMap_if]

/-! ## Claim C10 — only sync functions and positional defaults inspected -/

/-- **C10.**  `MutableDefaultArgumentsRule.check` walks the tree and lets
every node contribute `mdaNodeIssues`; an `AsyncFunctionDef` node
contributes nothing whatever its defaults, and a `FunctionDef` node's
contribution is computed from the positional-defaults list alone (the
keyword-only slots `ko`, `kd` do not occur in the right-hand side).
Concretely: `async def g(x=[])` and `def h(*, x=[])` produce no issue, while
`def f(x=[])` produces exactly one. -/
theorem claim_C10 :
    (∀ tree, MutableDefaultArgumentsRule.check tree =
      (walk tree).flatMap mdaNodeIssues) ∧
    (∀ name args body l e,
      mdaNodeIssues (.AsyncFunctionDef name args body l e) = []) ∧
    (∀ name a ko kd d body l e,
      mdaNodeIssues (.FunctionDef name (.arguments a ko kd d) body l e) =
        d.toList.filterMap fun dflt =>
          if isMutableDefault dflt then
            Option.some (mutableDefaultIssue name l e)
          else Option.none) ∧
    MutableDefaultArgumentsRule.check exAsyncMutable = [] ∧
    MutableDefaultArgumentsRule.check exKwOnlyMutable = [] ∧
    MutableDefaultArgumentsRule.check exOneMutable =
      [mutableDefaultIssue "f" 1 1] := by
  refine ⟨fun tree => ?_, fun _ _ _ _ _ => rfl, fun _ _ _ _ _ _ _ _ => rfl,
    by decide, by decide, by decide⟩
  unfold MutableDefaultArgumentsRule.check
  exact flatMap_congr_fun _ _ (fun node => by cases node <;> rfl) _

/-! ## Claim C2 — the two cyclomatic-complexity computations -/

/-- Folding an accumulating step over a list adds the per-element
amounts. -/
theorem foldl_add_eq {α : Type} (f : α → Int) (step : Int → α → Int)
    (hstep : ∀ acc c, step acc c = acc + f c) :
    ∀ (l : List α) (acc : Int), l.foldl step acc = acc + (l.map f).sum
  | [], acc => by simp
  | x :: xs, acc => by
      rw [List.foldl_cons, hstep, foldl_add_eq f step hstep xs]
      simp [add_assoc]

/-- The god-class fold adds `godContribution` per node. -/
theorem god_step_eq (acc : Int) (c : PyNode) :
    (fun complexity child =>
      match child with
      | .If .. | .While .. | .For .. | .AsyncFor .. => complexity + 1
      | .ExceptHandler .. => complexity + 1
      | .With .. | .AsyncWith .. => complexity + 1
      | .Assert .. => complexity + 1
      | .BoolOp _ values => complexity + ((values.toList.length : Int) - 1)
      | .comprehension _ _ ifs _ =>
          complexity + (ifs.toList.length : Int)
      | _ => complexity : Int → PyNode → Int) acc c =
      acc + godContribution c := by
  cases c <;> simp [godContribution]

/-- The long-method fold adds `longContribution` per node. -/
theorem long_step_eq (acc : Int) (c : PyNode) :
    (fun complexity child =>
      match child with
      | .If .. | .While .. | .For .. | .AsyncFor .. => complexity + 1
      | .ExceptHandler .. => complexity + 1
      | .BoolOp _ values => complexity + ((values.toList.length : Int) - 1)
      | .ListComp _ gens | .SetComp _ gens | .GeneratorExp _ gens =>
          gens.toList.foldl (fun acc g => acc + comprehensionIfsLen g)
            complexity
      | .DictComp _ _ gens =>
          gens.toList.foldl (fun acc g => acc + comprehensionIfsLen g)
            complexity
      | .With .. | .AsyncWith .. => complexity + 1
      | _ => complexity : Int → PyNode → Int) acc c =
      acc + longContribution c := by
  cases c <;>
    simp [longContribution,
      foldl_add_eq comprehensionIfsLen _ (fun _ _ => rfl)]

/-- A sum of pointwise sums splits. -/
theorem sum_map_add {α : Type} (f g : α → Int) :
    ∀ l : List α,
      (l.map fun c => f c + g c).sum = (l.map f).sum + (l.map g).sum
  | [] => rfl
  | x :: xs => by
      simp only [List.map_cons, List.sum_cons, sum_map_add f g xs]
      ring

/-- A `countP`, cast to `Int`, is the sum of indicator values. -/
theorem countP_int_sum {α : Type} (p : α → Bool) :
    ∀ l : List α,
      ((l.countP p : Nat) : Int) =
        (l.map fun c => if p c then (1 : Int) else 0).sum
  | [] => rfl
  | x :: xs => by
      by_cases h : p x <;>
        simp only [List.countP_cons, h, List.map_cons, List.sum_cons,
          if_true, if_false, ← countP_int_sum p xs] <;>
        push_cast <;> ring

/-- Splitting the god contributions into the specification's six counters
(stated over an arbitrary node list). -/
theorem sum_god_split :
    ∀ l : List PyNode,
      (l.map godContribution).sum =
        ((l.countP fun c =>
          match c with
          | .If .. | .While .. | .For .. | .AsyncFor .. => true
          | _ => false : Nat) : Int) +
        ((l.countP fun c =>
          match c with
          | .ExceptHandler .. => true
          | _ => false : Nat) : Int) +
        ((l.countP fun c =>
          match c with
          | .With .. | .AsyncWith .. => true
          | _ => false : Nat) : Int) +
        ((l.countP fun c =>
          match c with
          | .Assert .. => true
          | _ => false : Nat) : Int) +
        (l.map fun c =>
          match c with
          | .BoolOp _ values => (values.toList.length : Int) - 1
          | _ => 0).sum +
        (l.map comprehensionIfsLen).sum
  | l => by
      rw [map_congr_fun godContribution
        (fun c =>
          (if (match c with
            | .If .. | .While .. | .For .. | .AsyncFor .. => true
            | _ => false) then (1 : Int) else 0) +
          (if (match c with
            | .ExceptHandler .. => true
            | _ => false) then (1 : Int) else 0) +
          (if (match c with
            | .With .. | .AsyncWith .. => true
            | _ => false) then (1 : Int) else 0) +
          (if (match c with
            | .Assert .. => true
            | _ => false) then (1 : Int) else 0) +
          (match c with
            | .BoolOp _ values => (values.toList.length : Int) - 1
            | _ => 0) +
          comprehensionIfsLen c)
        (fun c => by cases c <;> simp [godContribution, comprehensionIfsLen])
        l]
      rw [sum_map_add, sum_map_add, sum_map_add, sum_map_add, sum_map_add]
      rw [← countP_int_sum, ← countP_int_sum, ← countP_int_sum,
        ← countP_int_sum]

/-- Splitting the long-method contributions into counters (no assert
counter; comprehension filters counted at the enclosing expression). -/
theorem sum_long_split :
    ∀ l : List PyNode,
      (l.map longContribution).sum =
        ((l.countP fun c =>
          match c with
          | .If .. | .While .. | .For .. | .AsyncFor .. => true
          | _ => false : Nat) : Int) +
        ((l.countP fun c =>
          match c with
          | .ExceptHandler .. => true
          | _ => false : Nat) : Int) +
        ((l.countP fun c =>
          match c with
          | .With .. | .AsyncWith .. => true
          | _ => false : Nat) : Int) +
        (l.map fun c =>
          match c with
          | .BoolOp _ values => (values.toList.length : Int) - 1
          | _ => 0).sum +
        (l.map compExprFilterLen).sum
  | l => by
      rw [map_congr_fun longContribution
        (fun c =>
          (if (match c with
            | .If .. | .While .. | .For .. | .AsyncFor .. => true
            | _ => false) then (1 : Int) else 0) +
          (if (match c with
            | .ExceptHandler .. => true
            | _ => false) then (1 : Int) else 0) +
          (if (match c with
            | .With .. | .AsyncWith .. => true
            | _ => false) then (1 : Int) else 0) +
          (match c with
            | .BoolOp _ values => (values.toList.length : Int) - 1
            | _ => 0) +
          compExprFilterLen c)
        (fun c => by cases c <;> simp [longContribution, compExprFilterLen])
        l]
      rw [sum_map_add, sum_map_add, sum_map_add, sum_map_add]
      rw [← countP_int_sum, ← countP_int_sum, ← countP_int_sum]

mutual

/-- Under proper comprehension placement, counting filters at comprehension
expressions equals counting them at comprehension clauses, over the
depth-first nodes of a tree. -/
theorem comprSum_node :
    ∀ n : PyNode, n.noStray = true →
      ((n.dfs.map compExprFilterLen).sum =
        (n.dfs.map comprehensionIfsLen).sum)
  | .Module body, h => by
      simp only [PyNode.noStray] at h
      simp [PyNode.dfs, compExprFilterLen, comprehensionIfsLen,
        comprSum_list body h]
  | .FunctionDef n args body l e, h => by
      simp only [PyNode.noStray, Bool.and_eq_true] at h
      simp [PyNode.dfs, compExprFilterLen, comprehensionIfsLen,
        comprSum_node args h.1, comprSum_list body h.2]
  | .AsyncFunctionDef n args body l e, h => by
      simp only [PyNode.noStray, Bool.and_eq_true] at h
      simp [PyNode.dfs, compExprFilterLen, comprehensionIfsLen,
        comprSum_node args h.1, comprSum_list body h.2]
  | .ClassDef n body l e, h => by
      simp only [PyNode.noStray] at h
      simp [PyNode.dfs, compExprFilterLen, comprehensionIfsLen,
        comprSum_list body h]
  | .Assign targets value l e, h => by
      simp only [PyNode.noStray, Bool.and_eq_true] at h
      simp [PyNode.dfs, compExprFilterLen, comprehensionIfsLen,
        comprSum_list targets h.1, comprSum_node value h.2]
  | .Return value l e, h => by
      simp only [PyNode.noStray] at h
      simp [PyNode.dfs, compExprFilterLen, comprehensionIfsLen,
        comprSum_opt value h]
  | .Raise exc l e, h => by
      simp only [PyNode.noStray] at h
      simp [PyNode.dfs, compExprFilterLen, comprehensionIfsLen,
        comprSum_opt exc h]
  | .Break l e, _ => by simp [PyNode.dfs, compExprFilterLen,
      comprehensionIfsLen]
  | .Continue l e, _ => by simp [PyNode.dfs, compExprFilterLen,
      comprehensionIfsLen]
  | .Pass l e, _ => by simp [PyNode.dfs, compExprFilterLen,
      comprehensionIfsLen]
  | .Expr value l e, h => by
      simp only [PyNode.noStray] at h
      simp [PyNode.dfs, compExprFilterLen, comprehensionIfsLen,
        comprSum_node value h]
  | .Delete targets l e, h => by
      simp only [PyNode.noStray] at h
      simp [PyNode.dfs, compExprFilterLen, comprehensionIfsLen,
        comprSum_list targets h]
  | .If test body orelse l e, h => by
      simp only [PyNode.noStray, Bool.and_eq_true] at h
      simp [PyNode.dfs, compExprFilterLen, comprehensionIfsLen,
        comprSum_node test h.1.1, comprSum_list body h.1.2,
        comprSum_list orelse h.2]
  | .While test body orelse l e, h => by
      simp only [PyNode.noStray, Bool.and_eq_true] at h
      simp [PyNode.dfs, compExprFilterLen, comprehensionIfsLen,
        comprSum_node test h.1.1, comprSum_list body h.1.2,
        comprSum_list orelse h.2]
  | .For target iter body orelse l e, h => by
      simp only [PyNode.noStray, Bool.and_eq_true] at h
      simp [PyNode.dfs, compExprFilterLen, comprehensionIfsLen,
        comprSum_node target h.1.1.1, comprSum_node iter h.1.1.2,
        comprSum_list body h.1.2, comprSum_list orelse h.2]
  | .AsyncFor target iter body orelse l e, h => by
      simp only [PyNode.noStray, Bool.and_eq_true] at h
      simp [PyNode.dfs, compExprFilterLen, comprehensionIfsLen,
        comprSum_node target h.1.1.1, comprSum_node iter h.1.1.2,
        comprSum_list body h.1.2, comprSum_list orelse h.2]
  | .With items body l e, h => by
      simp only [PyNode.noStray, Bool.and_eq_true] at h
      simp [PyNode.dfs, compExprFilterLen, comprehensionIfsLen,
        comprSum_list items h.1, comprSum_list body h.2]
  | .AsyncWith items body l e, h => by
      simp only [PyNode.noStray, Bool.and_eq_true] at h
      simp [PyNode.dfs, compExprFilterLen, comprehensionIfsLen,
        comprSum_list items h.1, comprSum_list body h.2]
  | .withitem c o, h => by
      simp only [PyNode.noStray, Bool.and_eq_true] at h
      simp [PyNode.dfs, compExprFilterLen, comprehensionIfsLen,
        comprSum_node c h.1, comprSum_opt o h.2]
  | .Try body handlers orelse finalbody l e, h => by
      simp only [PyNode.noStray, Bool.and_eq_true] at h
      simp [PyNode.dfs, compExprFilterLen, comprehensionIfsLen,
        comprSum_list body h.1.1.1, comprSum_list handlers h.1.1.2,
        comprSum_list orelse h.1.2, comprSum_list finalbody h.2]
  | .ExceptHandler t n body l e, h => by
      simp only [PyNode.noStray, Bool.and_eq_true] at h
      simp [PyNode.dfs, compExprFilterLen, comprehensionIfsLen,
        comprSum_opt t h.1, comprSum_list body h.2]
  | .Assert test msg l e, h => by
      simp only [PyNode.noStray, Bool.and_eq_true] at h
      simp [PyNode.dfs, compExprFilterLen, comprehensionIfsLen,
        comprSum_node test h.1, comprSum_opt msg h.2]
  | .Import names l e, h => by
      simp only [PyNode.noStray] at h
      simp [PyNode.dfs, compExprFilterLen, comprehensionIfsLen,
        comprSum_list names h]
  | .ImportFrom m names l e, h => by
      simp only [PyNode.noStray] at h
      simp [PyNode.dfs, compExprFilterLen, comprehensionIfsLen,
        comprSum_list names h]
  | .alias_ n a, _ => by simp [PyNode.dfs, compExprFilterLen,
      comprehensionIfsLen]
  | .Name i c l e, _ => by simp [PyNode.dfs, compExprFilterLen,
      comprehensionIfsLen]
  | .Attribute value attr c, h => by
      simp only [PyNode.noStray] at h
      simp [PyNode.dfs, compExprFilterLen, comprehensionIfsLen,
        comprSum_node value h]
  | .Call func args, h => by
      simp only [PyNode.noStray, Bool.and_eq_true] at h
      simp [PyNode.dfs, compExprFilterLen, comprehensionIfsLen,
        comprSum_node func h.1, comprSum_list args h.2]
  | .Constant v, _ => by simp [PyNode.dfs, compExprFilterLen,
      comprehensionIfsLen]
  | .ListLit elts, h => by
      simp only [PyNode.noStray] at h
      simp [PyNode.dfs, compExprFilterLen, comprehensionIfsLen,
        comprSum_list elts h]
  | .Dict keys values, h => by
      simp only [PyNode.noStray, Bool.and_eq_true] at h
      simp [PyNode.dfs, compExprFilterLen, comprehensionIfsLen,
        comprSum_list keys h.1, comprSum_list values h.2]
  | .Set elts, h => by
      simp only [PyNode.noStray] at h
      simp [PyNode.dfs, compExprFilterLen, comprehensionIfsLen,
        comprSum_list elts h]
  | .BoolOp op values, h => by
      simp only [PyNode.noStray] at h
      simp [PyNode.dfs, compExprFilterLen, comprehensionIfsLen,
        comprSum_list values h]
  | .BinOp l op r, h => by
      simp only [PyNode.noStray, Bool.and_eq_true] at h
      simp [PyNode.dfs, compExprFilterLen, comprehensionIfsLen,
        comprSum_node l h.1, comprSum_node r h.2]
  | .ListComp elt gens, h => by
      simp only [PyNode.noStray, Bool.and_eq_true] at h
      have hg := comprSum_gens gens h.2
      simp only [PyNode.dfs, List.map_cons, List.map_append,
        List.sum_cons, List.sum_append, compExprFilterLen,
        comprehensionIfsLen, comprSum_node elt h.1]
      omega
  | .SetComp elt gens, h => by
      simp only [PyNode.noStray, Bool.and_eq_true] at h
      have hg := comprSum_gens gens h.2
      simp only [PyNode.dfs, List.map_cons, List.map_append,
        List.sum_cons, List.sum_append, compExprFilterLen,
        comprehensionIfsLen, comprSum_node elt h.1]
      omega
  | .DictComp k v gens, h => by
      simp only [PyNode.noStray, Bool.and_eq_true] at h
      have hg := comprSum_gens gens h.2
      simp only [PyNode.dfs, List.map_cons, List.map_append,
        List.sum_cons, List.sum_append, compExprFilterLen,
        comprehensionIfsLen, comprSum_node k h.1.1, comprSum_node v h.1.2]
      omega
  | .GeneratorExp elt gens, h => by
      simp only [PyNode.noStray, Bool.and_eq_true] at h
      have hg := comprSum_gens gens h.2
      simp only [PyNode.dfs, List.map_cons, List.map_append,
        List.sum_cons, List.sum_append, compExprFilterLen,
        comprehensionIfsLen, comprSum_node elt h.1]
      omega
  | .comprehension t i ifs ia, h => by
      simp [PyNode.noStray] at h
  | .arg n, _ => by simp [PyNode.dfs, compExprFilterLen,
      comprehensionIfsLen]
  | .arguments a ko kd d, h => by
      simp only [PyNode.noStray, Bool.and_eq_true] at h
      simp [PyNode.dfs, compExprFilterLen, comprehensionIfsLen,
        comprSum_list a h.1.1.1, comprSum_list ko h.1.1.2,
        comprSum_list kd h.1.2, comprSum_list d h.2]

/-- `comprSum_node` lifted to list fields. -/
theorem comprSum_list :
    ∀ l : PyNodeList, l.noStray = true →
      ((l.dfs.map compExprFilterLen).sum =
        (l.dfs.map comprehensionIfsLen).sum)
  | .nil, _ => rfl
  | .cons h t, hyp => by
      simp only [PyNodeList.noStray, Bool.and_eq_true] at hyp
      simp [PyNodeList.dfs, comprSum_node h hyp.1, comprSum_list t hyp.2]

/-- `comprSum_node` lifted to optional fields. -/
theorem comprSum_opt :
    ∀ o : PyNodeOpt, o.noStray = true →
      ((o.dfs.map compExprFilterLen).sum =
        (o.dfs.map comprehensionIfsLen).sum)
  | .none, _ => rfl
  | .some x, h => by
      simp only [PyNodeOpt.noStray] at h
      simp [PyNodeOpt.dfs, comprSum_node x h]

/-- Over a generator list, counting filters at clauses exceeds counting
them at nested comprehension expressions by exactly the clauses' own filter
totals. -/
theorem comprSum_gens :
    ∀ l : PyNodeList, l.allGenerators = true →
      ((l.dfs.map comprehensionIfsLen).sum =
        (l.toList.map comprehensionIfsLen).sum +
          (l.dfs.map compExprFilterLen).sum)
  | .nil, _ => rfl
  | .cons (.comprehension t i ifs ia) rest, hyp => by
      simp only [PyNodeList.allGenerators, Bool.and_eq_true] at hyp
      have hrest := comprSum_gens rest hyp.2
      simp only [PyNodeList.dfs, PyNodeList.toList, PyNode.dfs,
        List.map_cons, List.map_append, List.sum_cons, List.sum_append,
        compExprFilterLen, comprehensionIfsLen,
        comprSum_node t hyp.1.1.1, comprSum_node i hyp.1.1.2,
        comprSum_list ifs hyp.1.2]
      omega

end

/-- **C2, counterexample.**  The claim states that *both* complexity
computations add 1 per assert statement.  On `def f(): assert x` the
specification formula (and `GodClassRule.calculate_complexity`) give 2, but
`LongMethodRule.calculate_cyclomatic_complexity` gives 1: it has no assert
clause. -/
theorem claim_C2_cex :
    LongMethodRule.calculate_cyclomatic_complexity exAssertFun = 1 ∧
    GodClassRule.calculate_complexity exAssertFun = 2 ∧
    cyclomaticSpec exAssertFun = 2 := by
  refine ⟨by decide, by decide, by decide⟩

/-- **C2, amended.**  `GodClassRule.calculate_complexity` computes exactly
the claimed formula (1, plus 1 per `if`/`while`/`for`/`async for`, per
exception handler, per `with`/`async with` and per assert, plus
`operand_count - 1` per boolean expression, plus the filter count of every
comprehension clause), over the entire subtree including nested function
definitions.  `LongMethodRule.calculate_cyclomatic_complexity` computes the
same formula *without the assert term*: adding the subtree's assert count
recovers the formula, for every subtree whose comprehension clauses sit
where `ast.parse` places them. -/
theorem claim_C2 (node : PyNode) :
    GodClassRule.calculate_complexity node = cyclomaticSpec node ∧
    (node.noStray = true →
      LongMethodRule.calculate_cyclomatic_complexity node +
        countAsserts node = cyclomaticSpec node) := by
  have hgod : GodClassRule.calculate_complexity node =
      1 + ((walk node).map godContribution).sum := by
    unfold GodClassRule.calculate_complexity
    exact foldl_add_eq godContribution _ god_step_eq (walk node) 1
  have hlong : LongMethodRule.calculate_cyclomatic_complexity node =
      1 + ((walk node).map longContribution).sum := by
    unfold LongMethodRule.calculate_cyclomatic_complexity
    exact foldl_add_eq longContribution _ long_step_eq (walk node) 1
  constructor
  · rw [hgod, sum_god_split]
    unfold cyclomaticSpec countBranches countExceptHandlers
      countWithBlocks countAsserts boolOpExtra comprehensionFilterTotal
    ring
  · intro hstray
    have hcompr : ((walk node).map compExprFilterLen).sum =
        ((walk node).map comprehensionIfsLen).sum := by
      have hperm := walk_perm_dfs node
      rw [(hperm.map compExprFilterLen).sum_eq,
        (hperm.map comprehensionIfsLen).sum_eq]
      exact comprSum_node node hstray
    rw [hlong, sum_long_split, hcompr]
    unfold cyclomaticSpec countBranches countExceptHandlers
      countWithBlocks countAsserts boolOpExtra comprehensionFilterTotal
    ring

/-! ## Claim C5 — unreachable-code detection per statement list -/

/-- In the found-a-terminator phase, a run of further terminators followed
by a non-terminator yields exactly the one issue for that non-terminator,
whose message points at the line of the last terminator seen. -/
theorem scanBodyAux_found :
    ∀ (file : Option String) (mid : List PyNode) (s : PyNode)
      (post : List PyNode) (tline i : Nat), 1 ≤ i →
      (∀ m ∈ mid, DeadCodeRule.is_terminator m = true) →
      DeadCodeRule.is_terminator s = false →
      DeadCodeRule.scanBodyAux file true tline i (mid ++ s :: post) =
        [DeadCodeRule.unreachableIssue s
          ((mid.map PyNode.lineno).getLastD tline) file]
  | file, [], s, post, tline, i, hi, _, hs => by
      have hdoc : DeadCodeRule.is_docstring s i = false := by
        unfold DeadCodeRule.is_docstring
        have hne : i ≠ 0 := by omega
        simp [hne]
      simp [DeadCodeRule.scanBodyAux, hs, hdoc]
  | file, m :: mid', s, post, tline, i, hi, hmid, hs => by
      have hm : DeadCodeRule.is_terminator m = true :=
        hmid m (List.mem_cons_self m mid')
      have ih := scanBodyAux_found file mid' s post m.lineno (i + 1)
        (by omega) (fun x hx => hmid x (List.mem_cons_of_mem m hx)) hs
      have hstep : DeadCodeRule.scanBodyAux file true tline i
          ((m :: mid') ++ s :: post) =
          DeadCodeRule.scanBodyAux file true m.lineno (i + 1)
            (mid' ++ s :: post) := by
        simp [DeadCodeRule.scanBodyAux, hm]
      rw [hstep, ih, List.map_cons, List.getLastD_cons]

/-- In the found-a-terminator phase, a list consisting solely of
terminators yields no issue (each terminator merely refreshes the state). -/
theorem scanBodyAux_found_all_term :
    ∀ (file : Option String) (mid : List PyNode) (tline i : Nat),
      (∀ m ∈ mid, DeadCodeRule.is_terminator m = true) →
      DeadCodeRule.scanBodyAux file true tline i mid = []
  | file, [], tline, i, _ => by simp [DeadCodeRule.scanBodyAux]
  | file, m :: mid', tline, i, hmid => by
      have hm : DeadCodeRule.is_terminator m = true :=
        hmid m (List.mem_cons_self m mid')
      have ih := scanBodyAux_found_all_term file mid' m.lineno (i + 1)
        (fun x hx => hmid x (List.mem_cons_of_mem m hx))
      simp [DeadCodeRule.scanBodyAux, hm, ih]

/-- Before any terminator is seen, the scan just moves over non-terminator
statements. -/
theorem scanBodyAux_not_found :
    ∀ (file : Option String) (pre rest : List PyNode) (i : Nat),
      (∀ p ∈ pre, DeadCodeRule.is_terminator p = false) →
      DeadCodeRule.scanBodyAux file false 0 i (pre ++ rest) =
        DeadCodeRule.scanBodyAux file false 0 (i + pre.length) rest
  | file, [], rest, i, _ => by simp
  | file, p :: pre', rest, i, hpre => by
      have hp : DeadCodeRule.is_terminator p = false :=
        hpre p (List.mem_cons_self p pre')
      have ih := scanBodyAux_not_found file pre' rest (i + 1)
        (fun x hx => hpre x (List.mem_cons_of_mem p hx))
      have hstep : DeadCodeRule.scanBodyAux file false 0 i
          ((p :: pre') ++ rest) =
          DeadCodeRule.scanBodyAux file false 0 (i + 1) (pre' ++ rest) := by
        simp [DeadCodeRule.scanBodyAux, hp]
      rw [hstep, ih, List.length_cons]
      congr 1
      omega

/-- **C5, counterexample.**  The claim says that, once a terminator has
occurred, the first subsequent non-docstring statement produces exactly one
issue.  In the list `return 1 ; return 2` the second `return` is a
non-docstring statement following a terminator, yet the scan produces no
issue at all: a terminator following a terminator only refreshes the
terminator line and is never reported. -/
theorem claim_C5_cex :
    DeadCodeRule.is_terminator
      (.Return (.some (.Constant (.int 1))) 1 1) = true ∧
    DeadCodeRule.is_docstring
      (.Return (.some (.Constant (.int 2))) 2 2) 1 = false ∧
    DeadCodeRule.check_body_reachability exDoubleReturn Option.none =
      [] := by
  refine ⟨by decide, by decide, by decide⟩

/-- **C5, amended.**  For every statement list scanned by the
unreachable-code detection (`check_unreachable` scans the body, else,
except-handler and finally lists of `FunctionDef`/`For`/`While`/`If`/
`With`/`Try` nodes — first conjunct), `_check_body_reachability` behaves as
follows: a list with no terminator yields no issue; in a list
`pre ++ t :: mid ++ s :: post` whose prefix `pre` has no terminator, where
`t` and all of `mid` are terminators and `s` is the first statement after
`t` that is *not itself a terminator*, exactly one issue is produced — for
`s`, citing the line of the last terminator before it — and nothing after
`s` is scanned; if every statement from the first terminator on is a
terminator, no issue is produced.  A statement at index `1` or beyond is
never a docstring, so the index-0 docstring guard never suppresses an
issue (final conjunct: a string-literal expression statement at index 0 is
never flagged, because flagged statements always follow a terminator). -/
theorem claim_C5 :
    (∀ tree file, DeadCodeRule.check_unreachable tree file =
      (walk tree).flatMap fun node =>
        (DeadCodeRule.scannedBodies node).flatMap fun body =>
          DeadCodeRule.check_body_reachability body file) ∧
    (∀ file (body : List PyNode),
      (∀ s ∈ body, DeadCodeRule.is_terminator s = false) →
      DeadCodeRule.check_body_reachability body file = []) ∧
    (∀ file (pre : List PyNode) t (mid : List PyNode) s
        (post : List PyNode),
      (∀ p ∈ pre, DeadCodeRule.is_terminator p = false) →
      DeadCodeRule.is_terminator t = true →
      (∀ m ∈ mid, DeadCodeRule.is_terminator m = true) →
      DeadCodeRule.is_terminator s = false →
      DeadCodeRule.check_body_reachability
          (pre ++ t :: (mid ++ s :: post)) file =
        [DeadCodeRule.unreachableIssue s
          (((t :: mid).map PyNode.lineno).getLastD 0) file]) ∧
    (∀ file (pre : List PyNode) t (mid : List PyNode),
      (∀ p ∈ pre, DeadCodeRule.is_terminator p = false) →
      DeadCodeRule.is_terminator t = true →
      (∀ m ∈ mid, DeadCodeRule.is_terminator m = true) →
      DeadCodeRule.check_body_reachability (pre ++ t :: mid) file = []) ∧
    (∀ stmt i, 1 ≤ i → DeadCodeRule.is_docstring stmt i = false) := by
  refine ⟨fun _ _ => rfl, ?_, ?_, ?_, ?_⟩
  · intro file body hbody
    have h := scanBodyAux_not_found file body [] 0 hbody
    simpa [DeadCodeRule.check_body_reachability,
      DeadCodeRule.scanBodyAux] using h
  · intro file pre t mid s post hpre ht hmid hs
    unfold DeadCodeRule.check_body_reachability
    rw [scanBodyAux_not_found file pre _ 0 hpre]
    have hstep : DeadCodeRule.scanBodyAux file false 0 (0 + pre.length)
        (t :: (mid ++ s :: post)) =
        DeadCodeRule.scanBodyAux file true t.lineno (0 + pre.length + 1)
          (mid ++ s :: post) := by
      simp [DeadCodeRule.scanBodyAux, ht]
    rw [hstep, scanBodyAux_found file mid s post t.lineno _ (by omega)
      hmid hs, List.map_cons, List.getLastD_cons]
  · intro file pre t mid hpre ht hmid
    unfold DeadCodeRule.check_body_reachability
    rw [scanBodyAux_not_found file pre _ 0 hpre]
    have hstep : DeadCodeRule.scanBodyAux file false 0 (0 + pre.length)
        (t :: mid) =
        DeadCodeRule.scanBodyAux file true t.lineno (0 + pre.length + 1)
          mid := by
      simp [DeadCodeRule.scanBodyAux, ht]
    rw [hstep, scanBodyAux_found_all_term file mid t.lineno _ hmid]
  · intro stmt i hi
    unfold DeadCodeRule.is_docstring
    have hne : i ≠ 0 := by omega
    simp [hne]

/-- **C5, witness.**  The amended theorem applied to the concrete list
`return 1 ; print("never")` (empty prefix, no further terminators): exactly
one issue, for the `print` statement, citing line 1. -/
theorem claim_C5_witness :
    DeadCodeRule.check_body_reachability exReturnThenPrint Option.none =
      [DeadCodeRule.unreachableIssue
        (.Expr (.Call (.Name "print" .load 2 2)
          (.cons (.Constant (.str "never")) .nil)) 2 2) 1 Option.none] := by
  have h := (claim_C5.2.2.1) Option.none []
    (.Return (.some (.Constant (.int 1))) 1 1) []
    (.Expr (.Call (.Name "print" .load 2 2)
      (.cons (.Constant (.str "never")) .nil)) 2 2) []
    (by intro p hp; cases hp) (by decide) (by intro m hm; cases hm)
    (by decide)
  simpa [exReturnThenPrint, PyNode.lineno] using h

/-! ## Claims C4 and C3 — unused-definition reporting -/

/-- `filterMap` respects pointwise-equal functions. -/
theorem filterMap_congr_fun {α β : Type} (f g : α → Option β)
    (h : ∀ a, f a = g a) : ∀ l : List α, l.filterMap f = l.filterMap g
  | [] => rfl
  | x :: xs => by
      simp [List.filterMap_cons, h x, filterMap_congr_fun f g h xs]

/-- A guarded-constant `filterMap` is a `filter` followed by a `map`. -/
theorem filterMap_eq_map_filter {α β : Type} (p : α → Bool) (f : α → β) :
    ∀ l : List α,
      (l.filterMap fun x =>
        if p x then Option.some (f x) else Option.none) =
        (l.filter p).map f
  | [] => rfl
  | x :: xs => by
      by_cases h : p x <;>
        simp [List.filterMap_cons, List.filter_cons, h,
          filterMap_eq_map_filter p f xs]

/-- **C4.**  Single-file mode: `DeadCodeRule.check` reports, before the
unreachable-code issues, exactly the collected definitions whose names do
not start with `_`, are not imported names, and do not occur in the usage
set (in collection order) — i.e. a collected definition is reported as
unused iff those three conditions hold.  On `def helper(): pass` with no
reference it yields exactly the one unused-function issue for `helper`,
and adding the call `helper()` suppresses it. -/
theorem claim_C4 :
    (∀ tree, DeadCodeRule.check tree =
      (((DeadCodeRule.collect_definitions tree).filter fun entry =>
        !pyStartsWith entry.1 "_" &&
        !(DeadCodeRule.collect_imports tree).contains entry.1 &&
        !(DeadCodeRule.collect_usage tree).contains entry.1).map
          fun entry =>
            DeadCodeRule.unusedIssue entry.2.1 entry.1 entry.2.2.1
              entry.2.2.2) ++
        DeadCodeRule.check_unreachable tree Option.none) ∧
    DeadCodeRule.check exHelper =
      [DeadCodeRule.unusedIssue "function" "helper" 1 1] ∧
    DeadCodeRule.check exHelperCalled = [] := by
  refine ⟨fun tree => ?_, by decide, by decide⟩
  rw [show DeadCodeRule.check tree =
    DeadCodeRule.check_unused (DeadCodeRule.collect_definitions tree)
      (DeadCodeRule.collect_usage tree)
      (DeadCodeRule.collect_imports tree) ++
      DeadCodeRule.check_unreachable tree Option.none from rfl]
  unfold DeadCodeRule.check_unused
  rw [filterMap_congr_fun _
    (fun entry =>
      if (!pyStartsWith entry.1 "_" &&
          !(DeadCodeRule.collect_imports tree).contains entry.1 &&
          !(DeadCodeRule.collect_usage tree).contains entry.1) then
        Option.some (DeadCodeRule.unusedIssue entry.2.1 entry.1
          entry.2.2.1 entry.2.2.2)
      else Option.none)
    (fun entry => by
      by_cases h1 : pyStartsWith entry.1 "_" <;>
        by_cases h2 : entry.1 ∈ DeadCodeRule.collect_imports tree <;>
        by_cases h3 : entry.1 ∈ DeadCodeRule.collect_usage tree <;>
        simp [h1, h2, h3])
    (DeadCodeRule.collect_definitions tree)]
  rw [filterMap_eq_map_filter]

/-- **C3, counterexample.**  The claim says a collected definition is
reported whenever its name is used in no file.  The project whose single
file is `_x = 1` collects `_x` (with no usage or import anywhere), yet
`check_project` reports nothing: project mode also skips names starting
with an underscore. -/
theorem claim_C3_cex :
    DeadCodeRule.all_definitions projUnderscore =
      [("pkg/mod.py", [("_x", ("variable", 1, 1))])] ∧
    DeadCodeRule.is_used_anywhere "_x" "pkg/mod.py"
      (DeadCodeRule.all_usages projUnderscore)
      (DeadCodeRule.all_imports projUnderscore) = false ∧
    DeadCodeRule.check_project projUnderscore = [] := by
  refine ⟨by decide, by decide, by decide⟩

/-- **C3, amended.**  Project mode: `DeadCodeRule.check_project` reports,
before the per-file unreachable-code issues, exactly the collected
definitions whose names do not start with an underscore and occur in *no*
file's usage set and *no* file's import set across the whole project
(regardless of which file defined them) — in index order.  Concretely, a
`helper` defined in one file and called only from another file is not
reported, while the same single-file definition with no use anywhere is. -/
theorem claim_C3 :
    (∀ project, DeadCodeRule.check_project project =
      ((DeadCodeRule.all_definitions project).flatMap fun fd =>
        ((fd.2.filter fun entry =>
          !pyStartsWith entry.1 "_" &&
          !DeadCodeRule.is_used_anywhere entry.1 fd.1
            (DeadCodeRule.all_usages project)
            (DeadCodeRule.all_imports project)).map fun entry =>
            DeadCodeRule.unusedProjectIssue fd.1 entry.2.1 entry.1
              entry.2.2.1 entry.2.2.2)) ++
        project.flatMap fun p =>
          DeadCodeRule.check_unreachable p.2 (Option.some p.1)) ∧
    DeadCodeRule.check_project projCross = [] ∧
    DeadCodeRule.check_project projHelper =
      [DeadCodeRule.unusedProjectIssue "pkg/a.py" "function" "helper"
        1 1] := by
  refine ⟨fun project => ?_, by decide, by decide⟩
  rw [show DeadCodeRule.check_project project =
    ((DeadCodeRule.all_definitions project).flatMap fun fd =>
      fd.2.filterMap fun entry =>
        if pyStartsWith entry.1 "_" then Option.none
        else if DeadCodeRule.is_used_anywhere entry.1 fd.1
            (DeadCodeRule.all_usages project)
            (DeadCodeRule.all_imports project) then Option.none
        else Option.some (DeadCodeRule.unusedProjectIssue fd.1 entry.2.1
          entry.1 entry.2.2.1 entry.2.2.2)) ++
      (project.flatMap fun p =>
        DeadCodeRule.check_unreachable p.2 (Option.some p.1)) from rfl]
  refine congrArg (· ++ _) ?_
  refine flatMap_congr_fun _ _ (fun fd => ?_) _
  rw [filterMap_congr_fun _
    (fun entry =>
      if (!pyStartsWith entry.1 "_" &&
          !DeadCodeRule.is_used_anywhere entry.1 fd.1
            (DeadCodeRule.all_usages project)
            (DeadCodeRule.all_imports project)) then
        Option.some (DeadCodeRule.unusedProjectIssue fd.1 entry.2.1
          entry.1 entry.2.2.1 entry.2.2.2)
      else Option.none)
    (fun entry => by
      by_cases h1 : pyStartsWith entry.1 "_" <;>
        by_cases h2 : DeadCodeRule.is_used_anywhere entry.1 fd.1
          (DeadCodeRule.all_usages project)
          (DeadCodeRule.all_imports project) <;>
        simp [h1, h2])
    fd.2]
  rw [filterMap_eq_map_filter]

/-! ## Claims C7 and C8 — similarity of normalized forms -/

/-- Erasure preserves a constant's type tag. -/
theorem erase_typeName (v : PyConst) : v.erase.typeName = v.typeName := by
  cases v <;> rfl

mutual

/-- Normalization is invariant under canonical erasure: the normalizer
reads exactly the structure that `erase` keeps. -/
theorem normalize_erase :
    ∀ t : PyNode, normalizeCode t.erase = normalizeCode t
  | .Module body => by
      simp [PyNode.erase, normalizeCode, normalizeList_erase body]
  | .FunctionDef n args body l e => by
      simp [PyNode.erase, normalizeCode, normalize_erase args,
        normalizeList_erase body]
  | .AsyncFunctionDef n args body l e => by
      simp [PyNode.erase, normalizeCode, normalize_erase args,
        normalizeList_erase body]
  | .ClassDef n body l e => by
      simp [PyNode.erase, normalizeCode, normalizeList_erase body]
  | .Assign targets value l e => by
      simp [PyNode.erase, normalizeCode, normalizeList_erase targets,
        normalize_erase value]
  | .Return value l e => by
      simp [PyNode.erase, normalizeCode, normalizeOpt_erase value]
  | .Raise exc l e => by
      simp [PyNode.erase, normalizeCode, normalizeOpt_erase exc]
  | .Break l e => by simp [PyNode.erase, normalizeCode]
  | .Continue l e => by simp [PyNode.erase, normalizeCode]
  | .Pass l e => by simp [PyNode.erase, normalizeCode]
  | .Expr value l e => by
      simp [PyNode.erase, normalizeCode, normalize_erase value]
  | .Delete targets l e => by
      simp [PyNode.erase, normalizeCode, normalizeList_erase targets]
  | .If test body orelse l e => by
      simp [PyNode.erase, normalizeCode, normalize_erase test,
        normalizeList_erase body, normalizeList_erase orelse]
  | .While test body orelse l e => by
      simp [PyNode.erase, normalizeCode, normalize_erase test,
        normalizeList_erase body, normalizeList_erase orelse]
  | .For target iter body orelse l e => by
      simp [PyNode.erase, normalizeCode, normalize_erase target,
        normalize_erase iter, normalizeList_erase body,
        normalizeList_erase orelse]
  | .AsyncFor target iter body orelse l e => by
      simp [PyNode.erase, normalizeCode, normalize_erase target,
        normalize_erase iter, normalizeList_erase body,
        normalizeList_erase orelse]
  | .With items body l e => by
      simp [PyNode.erase, normalizeCode, normalizeList_erase items,
        normalizeList_erase body]
  | .AsyncWith items body l e => by
      simp [PyNode.erase, normalizeCode, normalizeList_erase items,
        normalizeList_erase body]
  | .withitem c o => by
      simp [PyNode.erase, normalizeCode, normalize_erase c,
        normalizeOpt_erase o]
  | .Try body handlers orelse finalbody l e => by
      simp [PyNode.erase, normalizeCode, normalizeList_erase body,
        normalizeList_erase handlers, normalizeList_erase orelse,
        normalizeList_erase finalbody]
  | .ExceptHandler t n body l e => by
      simp [PyNode.erase, normalizeCode, normalizeOpt_erase t,
        normalizeList_erase body]
  | .Assert test msg l e => by
      simp [PyNode.erase, normalizeCode, normalize_erase test,
        normalizeOpt_erase msg]
  | .Import names l e => by
      simp [PyNode.erase, normalizeCode, normalizeList_erase names]
  | .ImportFrom m names l e => by
      simp [PyNode.erase, normalizeCode, normalizeList_erase names]
  | .alias_ n a => by simp [PyNode.erase]
  | .Name i c l e => by simp [PyNode.erase, normalizeCode]
  | .Attribute value attr c => by
      simp [PyNode.erase, normalizeCode, normalize_erase value]
  | .Call func args => by
      simp [PyNode.erase, normalizeCode, normalize_erase func,
        normalizeList_erase args]
  | .Constant v => by
      simp [PyNode.erase, normalizeCode, erase_typeName]
  | .ListLit elts => by
      simp [PyNode.erase, normalizeCode, normalizeList_erase elts]
  | .Dict keys values => by
      simp [PyNode.erase, normalizeCode, normalizeList_erase keys,
        normalizeList_erase values]
  | .Set elts => by
      simp [PyNode.erase, normalizeCode, normalizeList_erase elts]
  | .BoolOp op values => by
      simp [PyNode.erase, normalizeCode, normalizeList_erase values]
  | .BinOp l op r => by
      simp [PyNode.erase, normalizeCode, normalize_erase l,
        normalize_erase r]
  | .ListComp elt gens => by
      simp [PyNode.erase, normalizeCode, normalize_erase elt,
        normalizeList_erase gens]
  | .SetComp elt gens => by
      simp [PyNode.erase, normalizeCode, normalize_erase elt,
        normalizeList_erase gens]
  | .DictComp k v gens => by
      simp [PyNode.erase, normalizeCode, normalize_erase k,
        normalize_erase v, normalizeList_erase gens]
  | .GeneratorExp elt gens => by
      simp [PyNode.erase, normalizeCode, normalize_erase elt,
        normalizeList_erase gens]
  | .comprehension t i ifs ia => by
      simp [PyNode.erase, normalizeCode, normalize_erase t,
        normalize_erase i, normalizeList_erase ifs]
  | .arg n => by simp [PyNode.erase]
  | .arguments a ko kd d => by
      simp [PyNode.erase, normalizeCode, normalizeList_erase a,
        normalizeList_erase ko, normalizeList_erase kd,
        normalizeList_erase d]

/-- `normalize_erase` for list fields. -/
theorem normalizeList_erase :
    ∀ l : PyNodeList, normalizeList l.erase = normalizeList l
  | .nil => rfl
  | .cons h t => by
      simp [PyNodeList.erase, normalizeList, normalize_erase h,
        normalizeList_erase t]

/-- `normalize_erase` for optional fields. -/
theorem normalizeOpt_erase :
    ∀ o : PyNodeOpt, normalizeOpt o.erase = normalizeOpt o
  | .none => rfl
  | .some x => by
      simp [PyNodeOpt.erase, normalizeOpt, normalize_erase x]

end

/-- A run of a sequence against itself spans the whole sequence. -/
theorem runLen_self : ∀ l : List Char, runLen l l = l.length
  | [] => rfl
  | c :: cs => by simp [runLen, runLen_self cs]

/-- A common run is no longer than the right sequence. -/
theorem runLen_le_right : ∀ a b : List Char, runLen a b ≤ b.length
  | [], _ => by simp [runLen]
  | _ :: _, [] => by simp [runLen]
  | a :: as, b :: bs => by
      by_cases h : a = b <;> simp [runLen, h]
      exact runLen_le_right as bs

/-- The inner scan never updates a best block at least as long as every
candidate run. -/
theorem flmInner_no_update (a b : List Char) (i : Nat) :
    ∀ (l : List Nat) (best : Nat × Nat × Nat),
      (∀ j ∈ l, runLen (a.drop i) (b.drop j) ≤ best.2.2) →
      flmInner a b i l best = best
  | [], _, _ => rfl
  | j :: js, (bi, bj, bk), h => by
      have hj := h j (List.mem_cons_self j js)
      have hnlt : ¬ (bk < runLen (a.drop i) (b.drop j)) :=
        Nat.not_lt.mpr hj
      simp only [flmInner, hnlt, if_false]
      exact flmInner_no_update a b i js (bi, bj, bk) fun x hx =>
        h x (List.mem_cons_of_mem j hx)

/-- The outer scan never updates a best block the inner scan keeps. -/
theorem flmOuter_no_update (a b : List Char) :
    ∀ (l : List Nat) (best : Nat × Nat × Nat),
      (∀ i ∈ l, flmInner a b i (List.range b.length) best = best) →
      flmOuter a b l best = best
  | [], _, _ => rfl
  | i :: rest, best, h => by
      simp only [flmOuter]
      rw [h i (List.mem_cons_self i rest)]
      exact flmOuter_no_update a b rest best fun x hx =>
        h x (List.mem_cons_of_mem i hx)

/-- Matching a nonempty sequence against itself finds the whole sequence as
the longest block, at the earliest position. -/
theorem find_longest_match_self (a : List Char) (ha : a ≠ []) :
    find_longest_match a a = (0, 0, a.length) := by
  obtain ⟨c, cs, rfl⟩ := List.exists_cons_of_ne_nil ha
  have hbound : ∀ i j,
      runLen ((c :: cs).drop i) ((c :: cs).drop j) ≤ cs.length + 1 := by
    intro i j
    have hr := runLen_le_right ((c :: cs).drop i) ((c :: cs).drop j)
    rw [List.length_drop] at hr
    simp only [List.length_cons] at hr
    omega
  have hkeep : ∀ (i : Nat) (l : List Nat),
      flmInner (c :: cs) (c :: cs) i l (0, 0, cs.length + 1) =
        (0, 0, cs.length + 1) := by
    intro i l
    exact flmInner_no_update _ _ i l _ fun j _ => hbound i j
  have hfirstInner : ∀ l : List Nat,
      flmInner (c :: cs) (c :: cs) 0 (0 :: l) (0, 0, 0) =
        (0, 0, cs.length + 1) := by
    intro l
    have hrl : runLen ((c :: cs).drop 0) ((c :: cs).drop 0) =
        cs.length + 1 := by
      simp [runLen_self]
    simp only [flmInner, hrl]
    rw [if_pos (by omega)]
    exact hkeep 0 l
  have hrange : List.range (c :: cs).length =
      0 :: List.map Nat.succ (List.range cs.length) := by
    simp [List.range_succ_eq_map]
  unfold find_longest_match
  rw [hrange]
  simp only [flmOuter]
  rw [hrange, hfirstInner]
  exact flmOuter_no_update _ _ _ _ fun i _ => hkeep i _

/-- The matcher finds nothing against an empty sequence. -/
theorem smMatchesAux_nil_left (fuel : Nat) (b : List Char) :
    smMatchesAux fuel [] b = 0 := by
  cases fuel with
  | zero => rfl
  | succ fuel => simp [smMatchesAux, find_longest_match, flmOuter]

/-- Total match size of a sequence against itself is its length. -/
theorem smMatches_self (a : List Char) : smMatches a a = a.length := by
  cases ha : a with
  | nil => rfl
  | cons c cs =>
      show smMatchesAux ((c :: cs).length + (c :: cs).length) (c :: cs)
        (c :: cs) = (c :: cs).length
      rw [show (c :: cs).length + (c :: cs).length =
        ((c :: cs).length + cs.length) + 1 by simp; omega]
      rw [smMatchesAux]
      rw [find_longest_match_self (c :: cs) (by simp)]
      simp [smMatchesAux_nil_left, List.drop_length]

/-- `SequenceMatcher.ratio` of any sequence with itself is exactly 1. -/
theorem smRatio_self (a : List Char) : smRatio a a = 1 := by
  unfold smRatio
  by_cases h : a.length + a.length = 0
  · simp [h]
  · rw [if_neg h, smMatches_self]
    have hne : ((a.length : ℚ) + a.length) ≠ 0 := by
      exact_mod_cast h
    field_simp
    ring

/-- A strict deficit of matches keeps the ratio away from 1. -/
theorem smRatio_ne_one_of_lt (a b : List Char)
    (h : 2 * smMatches a b < a.length + b.length) : smRatio a b ≠ 1 := by
  unfold smRatio
  have hT : a.length + b.length ≠ 0 := by omega
  rw [if_neg hT]
  intro heq
  have hden : ((a.length : ℚ) + b.length) ≠ 0 := by
    exact_mod_cast hT
  rw [div_eq_one_iff_eq hden] at heq
  have : 2 * smMatches a b = a.length + b.length := by exact_mod_cast heq
  omega

/-- **C7, counterexample.**  Two refutations of the claim as stated.  The
subtrees `1` and `'a'` are identical up to replacing a literal value, yet
their normalized forms (`CONST_int` vs `CONST_str`) have similarity below
1.  The subtrees `a.b` and `a.c` are identical up to renaming an
identifier, yet the normalizer keeps attribute identifiers, so their
similarity is also below 1. -/
theorem claim_C7_cex :
    renEquivLoose exConstInt exConstStr = true ∧
    DuplicatedCodeRule.calculate_similarity (normalizeCode exConstInt)
      (normalizeCode exConstStr) ≠ 1 ∧
    renEquivLoose exAttrB exAttrC = true ∧
    DuplicatedCodeRule.calculate_similarity (normalizeCode exAttrB)
      (normalizeCode exAttrC) ≠ 1 := by
  refine ⟨by decide, ?_, by decide, ?_⟩
  · exact smRatio_ne_one_of_lt _ _ (by decide)
  · exact smRatio_ne_one_of_lt _ _ (by decide)

/-- **C7, amended.**  For subtrees that are identical up to renaming
*variable-reference* identifiers, replacing literal values *within their
types*, and relocation (equal canonical erasures), the two normalized forms
are equal and the similarity of their serializations is exactly 1. -/
theorem claim_C7 (t1 t2 : PyNode) (h : renEquiv t1 t2) :
    DuplicatedCodeRule.calculate_similarity (normalizeCode t1)
      (normalizeCode t2) = 1 := by
  have hn : normalizeCode t1 = normalizeCode t2 := by
    rw [← normalize_erase t1, ← normalize_erase t2, h]
  show smRatio _ _ = 1
  rw [hn]
  exact smRatio_self _

/-- **C7, witness.**  `a = 1` and `x = 2` have equal erasures, and their
similarity is 1. -/
theorem claim_C7_witness :
    renEquiv exAssignA exAssignX ∧
    DuplicatedCodeRule.calculate_similarity (normalizeCode exAssignA)
      (normalizeCode exAssignX) = 1 :=
  ⟨rfl, claim_C7 exAssignA exAssignX rfl⟩

/-- **C8, counterexample.**  The similarity score is not symmetric: on the
normalized forms of the bodies `a` and `pass ; del a`, the matcher finds 21
matched characters in one direction but 20 in the other (tie-breaking of
the longest-match search depends on the argument order), giving ratios
42/75 and 40/75. -/
theorem claim_C8_cex :
    DuplicatedCodeRule.calculate_similarity normFormA normFormPassDel ≠
      DuplicatedCodeRule.calculate_similarity normFormPassDel normFormA := by
  have h1 : smMatches (Norm.pyStr normFormA).data
      (Norm.pyStr normFormPassDel).data = 21 := by decide
  have h2 : smMatches (Norm.pyStr normFormPassDel).data
      (Norm.pyStr normFormA).data = 20 := by decide
  have hl1 : (Norm.pyStr normFormA).data.length = 29 := by decide
  have hl2 : (Norm.pyStr normFormPassDel).data.length = 46 := by decide
  unfold DuplicatedCodeRule.calculate_similarity smRatio
  rw [h1, h2, hl1, hl2]
  norm_num

/-- **C8, amended.**  The similarity score is symmetric — and equal to
1 — whenever the two normalized forms have the same serialization; in
general (see the counterexample) it is not symmetric. -/
theorem claim_C8 (a b : Norm) (h : Norm.pyStr a = Norm.pyStr b) :
    DuplicatedCodeRule.calculate_similarity a b =
      DuplicatedCodeRule.calculate_similarity b a ∧
    DuplicatedCodeRule.calculate_similarity a b = 1 := by
  unfold DuplicatedCodeRule.calculate_similarity
  rw [h]
  exact ⟨rfl, smRatio_self _⟩

/-- **C8, witness.**  The amended theorem applied to the normalized form of
the body `a` against itself. -/
theorem claim_C8_witness :
    DuplicatedCodeRule.calculate_similarity normFormA normFormA = 1 :=
  (claim_C8 normFormA normFormA rfl).2

/-! ## Claim C9 — within-function duplicate detection -/

/-- A successful `find?` splits its list at the first element satisfying
the predicate. -/
theorem find_first_split {α : Type} (p : α → Bool) :
    ∀ (l : List α) (b : α), l.find? p = Option.some b →
      ∃ pre post, l = pre ++ b :: post ∧ ∀ q ∈ pre, p q = false
  | [], _, h => by simp at h
  | x :: xs, b, h => by
      cases hx : p x with
      | true =>
          rw [List.find?_cons_of_pos _ hx] at h
          cases h
          exact ⟨[], xs, rfl, by simp⟩
      | false =>
          rw [List.find?_cons_of_neg _ (by simp [hx])] at h
          obtain ⟨pre, post, heq, hpre⟩ := find_first_split p xs b h
          refine ⟨x :: pre, post, by simp [heq], ?_⟩
          intro q hq
          rcases List.mem_cons.mp hq with rfl | hq2
          · exact hx
          · exact hpre q hq2

/-- The within-function scan of a single function record, written without
the surrounding `flatMap`. -/
theorem check_within_single (cfg : DuplicatedCodeRule.Config)
    (f : DuplicatedCodeRule.FuncRec) :
    DuplicatedCodeRule.check_within_functions cfg [f] =
      if f.statements < cfg.min_statements * 2 then []
      else
        match (DuplicatedCodeRule.orderedPairs
            (DuplicatedCodeRule.extract_code_blocks f.body
              cfg.min_statements ("function:" ++ f.name) f.lineno)).find?
            (DuplicatedCodeRule.withinPairHit cfg) with
        | Option.some bp =>
            [DuplicatedCodeRule.withinIssue f.name bp.1 bp.2
              (DuplicatedCodeRule.calculate_similarity bp.1.normalized
                bp.2.normalized) DuplicatedCodeRule.formatPct]
        | Option.none => [] := by
  rw [DuplicatedCodeRule.check_within_functions]
  simp only [List.flatMap_cons, List.flatMap_nil, List.append_nil]

/-- **C9.**  Within-function duplicate detection works function by
function; a function with fewer than `2 * min_statements` body statements
is skipped entirely; every function contributes at most one Issue; and any
Issue a function contributes arises from the *first* block pair (in
double-loop order) that passes the comparison — a pair whose line ranges
do not intersect and whose similarity reaches the threshold — with every
earlier pair failing that comparison. -/
theorem claim_C9 (cfg : DuplicatedCodeRule.Config)
    (functions : List DuplicatedCodeRule.FuncRec) :
    DuplicatedCodeRule.check_within_functions cfg functions =
      functions.flatMap
        (fun f => DuplicatedCodeRule.check_within_functions cfg [f]) ∧
    ∀ f : DuplicatedCodeRule.FuncRec,
      (f.statements < cfg.min_statements * 2 →
        DuplicatedCodeRule.check_within_functions cfg [f] = []) ∧
      (DuplicatedCodeRule.check_within_functions cfg [f]).length ≤ 1 ∧
      ∀ iss ∈ DuplicatedCodeRule.check_within_functions cfg [f],
        ∃ bp pre post,
          DuplicatedCodeRule.orderedPairs
              (DuplicatedCodeRule.extract_code_blocks f.body
                cfg.min_statements ("function:" ++ f.name) f.lineno) =
            pre ++ bp :: post ∧
          (∀ q ∈ pre, DuplicatedCodeRule.withinPairHit cfg q = false) ∧
          (bp.1.end_line < bp.2.start_line ∨
            bp.2.end_line < bp.1.start_line) ∧
          cfg.similarity_threshold ≤
            DuplicatedCodeRule.calculate_similarity bp.1.normalized
              bp.2.normalized ∧
          iss = DuplicatedCodeRule.withinIssue f.name bp.1 bp.2
            (DuplicatedCodeRule.calculate_similarity bp.1.normalized
              bp.2.normalized) DuplicatedCodeRule.formatPct := by
  constructor
  · rw [DuplicatedCodeRule.check_within_functions]
    refine flatMap_congr_fun _ _ (fun f => ?_) functions
    rw [check_within_single]
  · intro f
    refine ⟨?_, ?_, ?_⟩
    · intro h
      rw [check_within_single, if_pos h]
    · rw [check_within_single]
      split
      · simp
      · split <;> simp
    · intro iss hiss
      rw [check_within_single] at hiss
      by_cases h : f.statements < cfg.min_statements * 2
      · rw [if_pos h] at hiss
        simp at hiss
      · rw [if_neg h] at hiss
        rcases hfind : (DuplicatedCodeRule.orderedPairs
            (DuplicatedCodeRule.extract_code_blocks f.body
              cfg.min_statements ("function:" ++ f.name) f.lineno)).find?
            (DuplicatedCodeRule.withinPairHit cfg) with _ | bp
        · rw [hfind] at hiss
          simp at hiss
        · rw [hfind] at hiss
          simp at hiss
          obtain ⟨pre, post, heq, hpre⟩ := find_first_split _ _ _ hfind
          have hhit : DuplicatedCodeRule.withinPairHit cfg bp = true :=
            List.find?_some hfind
          rw [DuplicatedCodeRule.withinPairHit] at hhit
          simp only [Bool.and_eq_true, Bool.or_eq_true,
            decide_eq_true_eq] at hhit
          exact ⟨bp, pre, post, heq, hpre, hhit.1, hhit.2, hiss⟩

/-- **C9, witness.**  At the default configuration, a function with four
body statements sits below the `2 * min_statements = 6` gate and
contributes no Issue. -/
theorem claim_C9_witness :
    funcSmall.statements <
        ({} : DuplicatedCodeRule.Config).min_statements * 2 ∧
    DuplicatedCodeRule.check_within_functions {} [funcSmall] = [] :=
  ⟨by decide, ((claim_C9 {} [funcSmall]).2 funcSmall).1 (by decide)⟩

/-! ## Claim C6 — the span invariant of every emitted issue -/

mutual

/-- Every node in the depth-first enumeration of a well-formed tree is
itself well-formed. -/
theorem wf_dfs_node : ∀ t : PyNode, t.wf = true → ∀ n ∈ t.dfs, n.wf = true
  | .Module body, h => by
      intro n hn
      simp only [PyNode.dfs, List.mem_cons, List.mem_append] at hn
      have h' := h
      simp only [PyNode.wf, Bool.and_eq_true] at h'
      rcases hn with rfl | hn
      · exact h
      · exact wf_dfs_list body h'.2 n hn
  | .FunctionDef nm args body l e, h => by
      intro n hn
      simp only [PyNode.dfs, List.mem_cons, List.mem_append] at hn
      have h' := h
      simp only [PyNode.wf, Bool.and_eq_true] at h'
      rcases hn with rfl | hn | hn
      · exact h
      · exact wf_dfs_node args h'.1.2 n hn
      · exact wf_dfs_list body h'.2 n hn
  | .AsyncFunctionDef nm args body l e, h => by
      intro n hn
      simp only [PyNode.dfs, List.mem_cons, List.mem_append] at hn
      have h' := h
      simp only [PyNode.wf, Bool.and_eq_true] at h'
      rcases hn with rfl | hn | hn
      · exact h
      · exact wf_dfs_node args h'.1.2 n hn
      · exact wf_dfs_list body h'.2 n hn
  | .ClassDef nm body l e, h => by
      intro n hn
      simp only [PyNode.dfs, List.mem_cons, List.mem_append] at hn
      have h' := h
      simp only [PyNode.wf, Bool.and_eq_true] at h'
      rcases hn with rfl | hn
      · exact h
      · exact wf_dfs_list body h'.2 n hn
  | .Assign targets value l e, h => by
      intro n hn
      simp only [PyNode.dfs, List.mem_cons, List.mem_append] at hn
      have h' := h
      simp only [PyNode.wf, Bool.and_eq_true] at h'
      rcases hn with rfl | hn | hn
      · exact h
      · exact wf_dfs_list targets h'.1.2 n hn
      · exact wf_dfs_node value h'.2 n hn
  | .Return value l e, h => by
      intro n hn
      simp only [PyNode.dfs, List.mem_cons, List.mem_append] at hn
      have h' := h
      simp only [PyNode.wf, Bool.and_eq_true] at h'
      rcases hn with rfl | hn
      · exact h
      · exact wf_dfs_opt value h'.2 n hn
  | .Raise exc l e, h => by
      intro n hn
      simp only [PyNode.dfs, List.mem_cons, List.mem_append] at hn
      have h' := h
      simp only [PyNode.wf, Bool.and_eq_true] at h'
      rcases hn with rfl | hn
      · exact h
      · exact wf_dfs_opt exc h'.2 n hn
  | .Break l e, h => by
      intro n hn
      simp only [PyNode.dfs, List.mem_singleton] at hn
      subst hn
      exact h
  | .Continue l e, h => by
      intro n hn
      simp only [PyNode.dfs, List.mem_singleton] at hn
      subst hn
      exact h
  | .Pass l e, h => by
      intro n hn
      simp only [PyNode.dfs, List.mem_singleton] at hn
      subst hn
      exact h
  | .Expr value l e, h => by
      intro n hn
      simp only [PyNode.dfs, List.mem_cons, List.mem_append] at hn
      have h' := h
      simp only [PyNode.wf, Bool.and_eq_true] at h'
      rcases hn with rfl | hn
      · exact h
      · exact wf_dfs_node value h'.2 n hn
  | .Delete targets l e, h => by
      intro n hn
      simp only [PyNode.dfs, List.mem_cons, List.mem_append] at hn
      have h' := h
      simp only [PyNode.wf, Bool.and_eq_true] at h'
      rcases hn with rfl | hn
      · exact h
      · exact wf_dfs_list targets h'.2 n hn
  | .If test body orelse l e, h => by
      intro n hn
      simp only [PyNode.dfs, List.mem_cons, List.mem_append] at hn
      have h' := h
      simp only [PyNode.wf, Bool.and_eq_true] at h'
      rcases hn with rfl | hn | hn | hn
      · exact h
      · exact wf_dfs_node test h'.1.1.2 n hn
      · exact wf_dfs_list body h'.1.2 n hn
      · exact wf_dfs_list orelse h'.2 n hn
  | .While test body orelse l e, h => by
      intro n hn
      simp only [PyNode.dfs, List.mem_cons, List.mem_append] at hn
      have h' := h
      simp only [PyNode.wf, Bool.and_eq_true] at h'
      rcases hn with rfl | hn | hn | hn
      · exact h
      · exact wf_dfs_node test h'.1.1.2 n hn
      · exact wf_dfs_list body h'.1.2 n hn
      · exact wf_dfs_list orelse h'.2 n hn
  | .For target iter body orelse l e, h => by
      intro n hn
      simp only [PyNode.dfs, List.mem_cons, List.mem_append] at hn
      have h' := h
      simp only [PyNode.wf, Bool.and_eq_true] at h'
      rcases hn with rfl | hn | hn | hn | hn
      · exact h
      · exact wf_dfs_node target h'.1.1.1.2 n hn
      · exact wf_dfs_node iter h'.1.1.2 n hn
      · exact wf_dfs_list body h'.1.2 n hn
      · exact wf_dfs_list orelse h'.2 n hn
  | .AsyncFor target iter body orelse l e, h => by
      intro n hn
      simp only [PyNode.dfs, List.mem_cons, List.mem_append] at hn
      have h' := h
      simp only [PyNode.wf, Bool.and_eq_true] at h'
      rcases hn with rfl | hn | hn | hn | hn
      · exact h
      · exact wf_dfs_node target h'.1.1.1.2 n hn
      · exact wf_dfs_node iter h'.1.1.2 n hn
      · exact wf_dfs_list body h'.1.2 n hn
      · exact wf_dfs_list orelse h'.2 n hn
  | .With items body l e, h => by
      intro n hn
      simp only [PyNode.dfs, List.mem_cons, List.mem_append] at hn
      have h' := h
      simp only [PyNode.wf, Bool.and_eq_true] at h'
      rcases hn with rfl | hn | hn
      · exact h
      · exact wf_dfs_list items h'.1.2 n hn
      · exact wf_dfs_list body h'.2 n hn
  | .AsyncWith items body l e, h => by
      intro n hn
      simp only [PyNode.dfs, List.mem_cons, List.mem_append] at hn
      have h' := h
      simp only [PyNode.wf, Bool.and_eq_true] at h'
      rcases hn with rfl | hn | hn
      · exact h
      · exact wf_dfs_list items h'.1.2 n hn
      · exact wf_dfs_list body h'.2 n hn
  | .withitem c o, h => by
      intro n hn
      simp only [PyNode.dfs, List.mem_cons, List.mem_append] at hn
      have h' := h
      simp only [PyNode.wf, Bool.and_eq_true] at h'
      rcases hn with rfl | hn | hn
      · exact h
      · exact wf_dfs_node c h'.1 n hn
      · exact wf_dfs_opt o h'.2 n hn
  | .Try body handlers orelse finalbody l e, h => by
      intro n hn
      simp only [PyNode.dfs, List.mem_cons, List.mem_append] at hn
      have h' := h
      simp only [PyNode.wf, Bool.and_eq_true] at h'
      rcases hn with rfl | hn | hn | hn | hn
      · exact h
      · exact wf_dfs_list body h'.1.1.1.2 n hn
      · exact wf_dfs_list handlers h'.1.1.2 n hn
      · exact wf_dfs_list orelse h'.1.2 n hn
      · exact wf_dfs_list finalbody h'.2 n hn
  | .ExceptHandler t nm body l e, h => by
      intro n hn
      simp only [PyNode.dfs, List.mem_cons, List.mem_append] at hn
      have h' := h
      simp only [PyNode.wf, Bool.and_eq_true] at h'
      rcases hn with rfl | hn | hn
      · exact h
      · exact wf_dfs_opt t h'.1.2 n hn
      · exact wf_dfs_list body h'.2 n hn
  | .Assert test msg l e, h => by
      intro n hn
      simp only [PyNode.dfs, List.mem_cons, List.mem_append] at hn
      have h' := h
      simp only [PyNode.wf, Bool.and_eq_true] at h'
      rcases hn with rfl | hn | hn
      · exact h
      · exact wf_dfs_node test h'.1.2 n hn
      · exact wf_dfs_opt msg h'.2 n hn
  | .Import names l e, h => by
      intro n hn
      simp only [PyNode.dfs, List.mem_cons, List.mem_append] at hn
      have h' := h
      simp only [PyNode.wf, Bool.and_eq_true] at h'
      rcases hn with rfl | hn
      · exact h
      · exact wf_dfs_list names h'.2 n hn
  | .ImportFrom m names l e, h => by
      intro n hn
      simp only [PyNode.dfs, List.mem_cons, List.mem_append] at hn
      have h' := h
      simp only [PyNode.wf, Bool.and_eq_true] at h'
      rcases hn with rfl | hn
      · exact h
      · exact wf_dfs_list names h'.2 n hn
  | .alias_ nm a, h => by
      intro n hn
      simp only [PyNode.dfs, List.mem_singleton] at hn
      subst hn
      exact h
  | .Name i c l e, h => by
      intro n hn
      simp only [PyNode.dfs, List.mem_singleton] at hn
      subst hn
      exact h
  | .Attribute value attr c, h => by
      intro n hn
      simp only [PyNode.dfs, List.mem_cons, List.mem_append] at hn
      have h' := h
      simp only [PyNode.wf, Bool.and_eq_true] at h'
      rcases hn with rfl | hn
      · exact h
      · exact wf_dfs_node value h' n hn
  | .Call func args, h => by
      intro n hn
      simp only [PyNode.dfs, List.mem_cons, List.mem_append] at hn
      have h' := h
      simp only [PyNode.wf, Bool.and_eq_true] at h'
      rcases hn with rfl | hn | hn
      · exact h
      · exact wf_dfs_node func h'.1 n hn
      · exact wf_dfs_list args h'.2 n hn
  | .Constant v, h => by
      intro n hn
      simp only [PyNode.dfs, List.mem_singleton] at hn
      subst hn
      exact h
  | .ListLit elts, h => by
      intro n hn
      simp only [PyNode.dfs, List.mem_cons, List.mem_append] at hn
      have h' := h
      simp only [PyNode.wf, Bool.and_eq_true] at h'
      rcases hn with rfl | hn
      · exact h
      · exact wf_dfs_list elts h' n hn
  | .Dict keys values, h => by
      intro n hn
      simp only [PyNode.dfs, List.mem_cons, List.mem_append] at hn
      have h' := h
      simp only [PyNode.wf, Bool.and_eq_true] at h'
      rcases hn with rfl | hn | hn
      · exact h
      · exact wf_dfs_list keys h'.1 n hn
      · exact wf_dfs_list values h'.2 n hn
  | .Set elts, h => by
      intro n hn
      simp only [PyNode.dfs, List.mem_cons, List.mem_append] at hn
      have h' := h
      simp only [PyNode.wf, Bool.and_eq_true] at h'
      rcases hn with rfl | hn
      · exact h
      · exact wf_dfs_list elts h' n hn
  | .BoolOp op values, h => by
      intro n hn
      simp only [PyNode.dfs, List.mem_cons, List.mem_append] at hn
      have h' := h
      simp only [PyNode.wf, Bool.and_eq_true] at h'
      rcases hn with rfl | hn
      · exact h
      · exact wf_dfs_list values h' n hn
  | .BinOp lv op rv, h => by
      intro n hn
      simp only [PyNode.dfs, List.mem_cons, List.mem_append] at hn
      have h' := h
      simp only [PyNode.wf, Bool.and_eq_true] at h'
      rcases hn with rfl | hn | hn
      · exact h
      · exact wf_dfs_node lv h'.1 n hn
      · exact wf_dfs_node rv h'.2 n hn
  | .ListComp elt gens, h => by
      intro n hn
      simp only [PyNode.dfs, List.mem_cons, List.mem_append] at hn
      have h' := h
      simp only [PyNode.wf, Bool.and_eq_true] at h'
      rcases hn with rfl | hn | hn
      · exact h
      · exact wf_dfs_node elt h'.1 n hn
      · exact wf_dfs_list gens h'.2 n hn
  | .SetComp elt gens, h => by
      intro n hn
      simp only [PyNode.dfs, List.mem_cons, List.mem_append] at hn
      have h' := h
      simp only [PyNode.wf, Bool.and_eq_true] at h'
      rcases hn with rfl | hn | hn
      · exact h
      · exact wf_dfs_node elt h'.1 n hn
      · exact wf_dfs_list gens h'.2 n hn
  | .DictComp k v gens, h => by
      intro n hn
      simp only [PyNode.dfs, List.mem_cons, List.mem_append] at hn
      have h' := h
      simp only [PyNode.wf, Bool.and_eq_true] at h'
      rcases hn with rfl | hn | hn | hn
      · exact h
      · exact wf_dfs_node k h'.1.1 n hn
      · exact wf_dfs_node v h'.1.2 n hn
      · exact wf_dfs_list gens h'.2 n hn
  | .GeneratorExp elt gens, h => by
      intro n hn
      simp only [PyNode.dfs, List.mem_cons, List.mem_append] at hn
      have h' := h
      simp only [PyNode.wf, Bool.and_eq_true] at h'
      rcases hn with rfl | hn | hn
      · exact h
      · exact wf_dfs_node elt h'.1 n hn
      · exact wf_dfs_list gens h'.2 n hn
  | .comprehension t i ifs ia, h => by
      intro n hn
      simp only [PyNode.dfs, List.mem_cons, List.mem_append] at hn
      have h' := h
      simp only [PyNode.wf, Bool.and_eq_true] at h'
      rcases hn with rfl | hn | hn | hn
      · exact h
      · exact wf_dfs_node t h'.1.1 n hn
      · exact wf_dfs_node i h'.1.2 n hn
      · exact wf_dfs_list ifs h'.2 n hn
  | .arg nm, h => by
      intro n hn
      simp only [PyNode.dfs, List.mem_singleton] at hn
      subst hn
      exact h
  | .arguments a ko kd d, h => by
      intro n hn
      simp only [PyNode.dfs, List.mem_cons, List.mem_append] at hn
      have h' := h
      simp only [PyNode.wf, Bool.and_eq_true] at h'
      rcases hn with rfl | hn | hn | hn | hn
      · exact h
      · exact wf_dfs_list a h'.1.1.1 n hn
      · exact wf_dfs_list ko h'.1.1.2 n hn
      · exact wf_dfs_list kd h'.1.2 n hn
      · exact wf_dfs_list d h'.2 n hn

/-- `wf_dfs_node` for every element of a list field. -/
theorem wf_dfs_list : ∀ l : PyNodeList, l.wf = true → ∀ n ∈ l.dfs, n.wf = true
  | .nil, _ => by
      intro n hn
      simp [PyNodeList.dfs] at hn
  | .cons hd tl, h => by
      intro n hn
      have h' := h
      simp only [PyNodeList.wf, Bool.and_eq_true] at h'
      simp only [PyNodeList.dfs, List.mem_append] at hn
      rcases hn with hn | hn
      · exact wf_dfs_node hd h'.1 n hn
      · exact wf_dfs_list tl h'.2 n hn

/-- `wf_dfs_node` for an optional field. -/
theorem wf_dfs_opt : ∀ o : PyNodeOpt, o.wf = true → ∀ n ∈ o.dfs, n.wf = true
  | .none, _ => by
      intro n hn
      simp [PyNodeOpt.dfs] at hn
  | .some x, h => by
      intro n hn
      simp only [PyNodeOpt.dfs] at hn
      exact wf_dfs_node x h n hn

end

/-- Every node `ast.walk` yields from a well-formed tree is well-formed. -/
theorem wf_walk (tree : PyNode) (hwf : tree.wf = true) :
    ∀ n ∈ walk tree, n.wf = true := fun n hn =>
  wf_dfs_node tree hwf n ((walk_perm_dfs tree).mem_iff.mp hn)

/-- Every element of a well-formed list field is well-formed. -/
theorem listWf_mem : ∀ l : PyNodeList, l.wf = true →
    ∀ x ∈ l.toList, x.wf = true
  | .nil, _ => by
      intro x hx
      simp [PyNodeList.toList] at hx
  | .cons hd tl, h => by
      intro x hx
      have h' := h
      simp only [PyNodeList.wf, Bool.and_eq_true] at h'
      rcases List.mem_cons.mp hx with rfl | hx
      · exact h'.1
      · exact listWf_mem tl h'.2 x hx



/-- Dropping the head of a nondecreasing statement list keeps it
nondecreasing. -/
theorem ndl_tail (x : PyNode) (xs : List PyNode)
    (h : nondecreasingLinenos (x :: xs) = true) :
    nondecreasingLinenos xs = true := by
  cases xs with
  | nil => rfl
  | cons y ys =>
      simp only [nondecreasingLinenos, Bool.and_eq_true] at h
      exact h.2

/-- `drop` keeps a statement list nondecreasing. -/
theorem ndl_drop : ∀ (l : List PyNode) (i : Nat),
    nondecreasingLinenos l = true →
      nondecreasingLinenos (l.drop i) = true
  | _, 0, h => h
  | [], _ + 1, _ => rfl
  | x :: xs, i + 1, h => ndl_drop xs i (ndl_tail x xs h)

/-- `take` keeps a statement list nondecreasing. -/
theorem ndl_take : ∀ (l : List PyNode) (i : Nat),
    nondecreasingLinenos l = true →
      nondecreasingLinenos (l.take i) = true
  | _, 0, _ => rfl
  | [], _ + 1, _ => rfl
  | [_], i + 1, _ => by
      simp [List.take, nondecreasingLinenos]
  | _ :: _ :: _, 1, _ => by
      simp [List.take, nondecreasingLinenos]
  | x :: y :: r, i + 2, h => by
      have h' := h
      simp only [nondecreasingLinenos, Bool.and_eq_true] at h'
      have ih := ndl_take (y :: r) (i + 1) h'.2
      show nondecreasingLinenos (x :: y :: List.take i r) = true
      simp only [nondecreasingLinenos, Bool.and_eq_true]
      exact ⟨h'.1, ih⟩

/-- In a nondecreasing statement list, the head starts no later than the
last element. -/
theorem ndl_head_last : ∀ (m : List PyNode),
    nondecreasingLinenos m = true →
      ∀ x y, m.head? = Option.some x → m.getLast? = Option.some y →
        x.lineno ≤ y.lineno
  | [], _, x, _, hx, _ => by simp at hx
  | [a], _, x, y, hx, hy => by
      simp only [List.head?_cons, Option.some.injEq] at hx
      simp only [List.getLast?_singleton, Option.some.injEq] at hy
      subst hx
      subst hy
      exact Nat.le_refl _
  | a :: b :: r, h, x, y, hx, hy => by
      have h' := h
      simp only [nondecreasingLinenos, Bool.and_eq_true,
        decide_eq_true_eq] at h'
      simp only [List.head?_cons, Option.some.injEq] at hx
      subst hx
      have hy' : (b :: r).getLast? = Option.some y := by
        rw [← hy]
        exact (List.getLast?_cons_cons).symm
      have hb := ndl_head_last (b :: r) h'.2 b y rfl hy'
      exact Nat.le_trans h'.1 hb

/-- Every issue of the reachability scan reports the position of some
statement of the scanned list. -/
theorem scanBodyAux_mem (file : Option String) :
    ∀ (tf : Bool) (tl i : Nat) (body : List PyNode) (iss : Issue),
      iss ∈ DeadCodeRule.scanBodyAux file tf tl i body →
        ∃ stmt ∈ body, iss.lineno = stmt.lineno ∧
          iss.end_lineno = stmt.end_lineno
  | _, _, _, [], iss, h => by simp [DeadCodeRule.scanBodyAux] at h
  | tf, tl, i, stmt :: rest, iss, h => by
      rw [DeadCodeRule.scanBodyAux] at h
      by_cases h1 : DeadCodeRule.is_terminator stmt = true
      · rw [if_pos h1] at h
        obtain ⟨s, hs, he⟩ :=
          scanBodyAux_mem file true stmt.lineno (i + 1) rest iss h
        exact ⟨s, List.mem_cons_of_mem _ hs, he⟩
      · rw [if_neg h1] at h
        by_cases h2 : (tf && !(DeadCodeRule.is_docstring stmt i)) = true
        · rw [if_pos h2] at h
          have hiss : iss = DeadCodeRule.unreachableIssue stmt tl file := by
            simpa using h
          subst hiss
          exact ⟨stmt, List.mem_cons_self stmt rest,
            by simp [DeadCodeRule.unreachableIssue]⟩
        · rw [if_neg h2] at h
          obtain ⟨s, hs, he⟩ := scanBodyAux_mem file tf tl (i + 1) rest iss h
          exact ⟨s, List.mem_cons_of_mem _ hs, he⟩

/-- A fold whose step preserves an invariant (given a fact about each list
element) preserves it to the end. -/
theorem foldl_inv {α β : Type} (P : β → Prop) (Q : α → Prop)
    (f : β → α → β)
    (hstep : ∀ b a, P b → Q a → P (f b a)) :
    ∀ (l : List α) (b : β), P b → (∀ a ∈ l, Q a) → P (l.foldl f b)
  | [], _, hb, _ => hb
  | a :: l, b, hb, hl =>
      foldl_inv P Q f hstep l (f b a)
        (hstep b a hb (hl a (List.mem_cons_self a l)))
        (fun x hx => hl x (List.mem_cons_of_mem a hx))

/-- `dictInsert` keeps a predicate holding of every stored value. -/
theorem dictInsert_values {α : Type} (P : α → Prop) (k : String) (v : α) :
    ∀ d : List (String × α), (∀ p ∈ d, P p.2) → P v →
      ∀ p ∈ dictInsert k v d, P p.2
  | [], _, hv, p, hp => by
      simp only [dictInsert, List.mem_singleton] at hp
      subst hp
      exact hv
  | (k', v') :: rest, hd, hv, p, hp => by
      rw [dictInsert] at hp
      by_cases hk : k' = k
      · rw [if_pos hk] at hp
        rcases List.mem_cons.mp hp with rfl | hp
        · exact hv
        · exact hd p (List.mem_cons_of_mem _ hp)
      · rw [if_neg hk] at hp
        rcases List.mem_cons.mp hp with rfl | hp
        · exact hd (k', v') (List.mem_cons_self _ _)
        · exact dictInsert_values P k v rest
            (fun q hq => hd q (List.mem_cons_of_mem _ hq)) hv p hp

/-- Both components of a double-loop pair come from the scanned list. -/
theorem orderedPairs_mem {α : Type} :
    ∀ (l : List α) (p : α × α),
      p ∈ DuplicatedCodeRule.orderedPairs l → p.1 ∈ l ∧ p.2 ∈ l
  | [], p, hp => by simp [DuplicatedCodeRule.orderedPairs] at hp
  | x :: xs, p, hp => by
      simp only [DuplicatedCodeRule.orderedPairs, List.mem_append,
        List.mem_map] at hp
      rcases hp with ⟨y, hy, rfl⟩ | hp
      · exact ⟨List.mem_cons_self x xs, List.mem_cons_of_mem x hy⟩
      · have h := orderedPairs_mem xs p hp
        exact ⟨List.mem_cons_of_mem x h.1, List.mem_cons_of_mem x h.2⟩

/-- Deduplication by name only drops elements. -/
theorem dedupByName_subset :
    ∀ (seen : List String) (l : List DuplicatedCodeRule.FuncRec),
      ∀ m ∈ DuplicatedCodeRule.dedupByName seen l, m ∈ l
  | _, [], m, hm => by simp [DuplicatedCodeRule.dedupByName] at hm
  | seen, f :: rest, m, hm => by
      rw [DuplicatedCodeRule.dedupByName] at hm
      by_cases hf : seen.contains f.name = true
      · rw [if_pos hf] at hm
        exact List.mem_cons_of_mem f (dedupByName_subset seen rest m hm)
      · rw [if_neg hf] at hm
        rcases List.mem_cons.mp hm with rfl | hm
        · exact List.mem_cons_self m rest
        · exact List.mem_cons_of_mem f
            (dedupByName_subset (seen ++ [f.name]) rest m hm)


/-- Membership in an `if c then [] else l` forces the else branch. -/
theorem mem_ite_nil_elim {α : Type} {c : Prop} [Decidable c] {l : List α}
    {a : α} (h : a ∈ if c then [] else l) : a ∈ l := by
  split at h
  · exact absurd h (List.not_mem_nil a)
  · exact h

/-- Membership in an `if c then l else []` forces the then branch. -/
theorem mem_ite_nil_right_elim {α : Type} {c : Prop} [Decidable c]
    {l : List α} {a : α} (h : a ∈ if c then l else []) : a ∈ l := by
  split at h
  · exact h
  · exact absurd h (List.not_mem_nil a)

/-- Every issue of `MutableDefaultArgumentsRule.check` on a well-formed
tree spans real lines. -/
theorem mda_spanOk (tree : PyNode) (hwf : tree.wf = true) :
    ∀ iss ∈ MutableDefaultArgumentsRule.check tree, iss.spanOk := by
  intro iss hiss
  rw [MutableDefaultArgumentsRule.check] at hiss
  obtain ⟨node, hnode, hiss⟩ := List.mem_flatMap.mp hiss
  have hnwf := wf_walk tree hwf node hnode
  cases node
  case FunctionDef name args body l e =>
    obtain ⟨dflt, _, hsome⟩ := List.mem_filterMap.mp hiss
    by_cases hm : isMutableDefault dflt = true
    · rw [if_pos hm] at hsome
      obtain rfl : mutableDefaultIssue name l e = iss := by
        simpa using hsome
      simp only [PyNode.wf, Bool.and_eq_true, decide_eq_true_eq] at hnwf
      exact ⟨hnwf.1.1.1.1, hnwf.1.1.1.2⟩
    · rw [if_neg hm] at hsome
      simp at hsome
  all_goals simp at hiss

/-- Every issue of `GodClassRule.check` on a well-formed tree spans real
lines. -/
theorem god_spanOk (cfg : GodClassRule.Config) (tree : PyNode)
    (hwf : tree.wf = true) :
    ∀ iss ∈ GodClassRule.check cfg tree, iss.spanOk := by
  intro iss hiss
  rw [GodClassRule.check] at hiss
  obtain ⟨node, hnode, hiss⟩ := List.mem_flatMap.mp hiss
  have hnwf := wf_walk tree hwf node hnode
  cases node
  case ClassDef name body l e =>
    have hiss2 := mem_ite_nil_elim hiss
    obtain rfl := List.mem_singleton.mp hiss2
    simp only [PyNode.wf, Bool.and_eq_true, decide_eq_true_eq] at hnwf
    exact ⟨hnwf.1.1.1, hnwf.1.1.2⟩
  all_goals simp at hiss

/-- Every issue of `LongMethodRule.check` on a well-formed tree spans real
lines. -/
theorem long_spanOk (cfg : LongMethodRule.Config) (tree : PyNode)
    (hwf : tree.wf = true) :
    ∀ iss ∈ LongMethodRule.check cfg tree, iss.spanOk := by
  intro iss hiss
  rw [LongMethodRule.check] at hiss
  obtain ⟨node, hnode, hiss⟩ := List.mem_flatMap.mp hiss
  have hnwf := wf_walk tree hwf node hnode
  cases node
  case FunctionDef name args body l e =>
    have hiss2 := mem_ite_nil_elim hiss
    obtain rfl := List.mem_singleton.mp hiss2
    simp only [PyNode.wf, Bool.and_eq_true, decide_eq_true_eq] at hnwf
    exact ⟨hnwf.1.1.1.1, hnwf.1.1.1.2⟩
  case AsyncFunctionDef name args body l e =>
    have hiss2 := mem_ite_nil_elim hiss
    obtain rfl := List.mem_singleton.mp hiss2
    simp only [PyNode.wf, Bool.and_eq_true, decide_eq_true_eq] at hnwf
    exact ⟨hnwf.1.1.1.1, hnwf.1.1.1.2⟩
  all_goals simp at hiss

/-- Every statement of every statement list the reachability pass scans at
a well-formed node is positioned. -/
theorem scannedBodies_posOk (node : PyNode) (hwf : node.wf = true) :
    ∀ body ∈ DeadCodeRule.scannedBodies node, ∀ stmt ∈ body,
      stmt.posOk = true := by
  intro body hbody stmt hstmt
  cases node
  case FunctionDef name args bd l e =>
    simp only [DeadCodeRule.scannedBodies, List.mem_singleton] at hbody
    subst hbody
    simp only [PyNode.wf, Bool.and_eq_true] at hwf
    have hs := hwf.1.1.2
    simp only [stmtsOk, Bool.and_eq_true, List.all_eq_true] at hs
    exact hs.2 stmt hstmt
  case For target iter bd orelse l e =>
    simp only [DeadCodeRule.scannedBodies, List.mem_cons,
      List.mem_singleton, List.not_mem_nil, or_false] at hbody
    simp only [PyNode.wf, Bool.and_eq_true] at hwf
    rcases hbody with rfl | rfl
    · have hs := hwf.1.1.1.1.1.2
      simp only [stmtsOk, Bool.and_eq_true, List.all_eq_true] at hs
      exact hs.2 stmt hstmt
    · have hs := hwf.1.1.1.1.2
      simp only [stmtsOk, Bool.and_eq_true, List.all_eq_true] at hs
      exact hs.2 stmt hstmt
  case While test bd orelse l e =>
    simp only [DeadCodeRule.scannedBodies, List.mem_cons,
      List.mem_singleton, List.not_mem_nil, or_false] at hbody
    simp only [PyNode.wf, Bool.and_eq_true] at hwf
    rcases hbody with rfl | rfl
    · have hs := hwf.1.1.1.1.2
      simp only [stmtsOk, Bool.and_eq_true, List.all_eq_true] at hs
      exact hs.2 stmt hstmt
    · have hs := hwf.1.1.1.2
      simp only [stmtsOk, Bool.and_eq_true, List.all_eq_true] at hs
      exact hs.2 stmt hstmt
  case If test bd orelse l e =>
    simp only [DeadCodeRule.scannedBodies, List.mem_cons,
      List.mem_singleton, List.not_mem_nil, or_false] at hbody
    simp only [PyNode.wf, Bool.and_eq_true] at hwf
    rcases hbody with rfl | rfl
    · have hs := hwf.1.1.1.1.2
      simp only [stmtsOk, Bool.and_eq_true, List.all_eq_true] at hs
      exact hs.2 stmt hstmt
    · have hs := hwf.1.1.1.2
      simp only [stmtsOk, Bool.and_eq_true, List.all_eq_true] at hs
      exact hs.2 stmt hstmt
  case With items bd l e =>
    simp only [DeadCodeRule.scannedBodies, List.mem_singleton] at hbody
    subst hbody
    simp only [PyNode.wf, Bool.and_eq_true] at hwf
    have hs := hwf.1.1.2
    simp only [stmtsOk, Bool.and_eq_true, List.all_eq_true] at hs
    exact hs.2 stmt hstmt
  case Try bd handlers orelse fb l e =>
    simp only [DeadCodeRule.scannedBodies, List.mem_append, List.mem_cons,
      List.mem_singleton, List.mem_map, List.not_mem_nil, or_false]
      at hbody
    simp only [PyNode.wf, Bool.and_eq_true] at hwf
    rcases hbody with ((rfl | rfl) | ⟨hd, hhd, rfl⟩) | rfl
    · have hs := hwf.1.1.1.1.1.1.2
      simp only [stmtsOk, Bool.and_eq_true, List.all_eq_true] at hs
      exact hs.2 stmt hstmt
    · have hs := hwf.1.1.1.1.1.2
      simp only [stmtsOk, Bool.and_eq_true, List.all_eq_true] at hs
      exact hs.2 stmt hstmt
    · have hhwf := listWf_mem handlers hwf.1.1.2 hd hhd
      cases hd
      case ExceptHandler t nm hbd hl he =>
        simp only [DeadCodeRule.handlerBody] at hstmt
        simp only [PyNode.wf, Bool.and_eq_true] at hhwf
        have hs := hhwf.1.1.2
        simp only [stmtsOk, Bool.and_eq_true, List.all_eq_true] at hs
        exact hs.2 stmt hstmt
      all_goals simp [DeadCodeRule.handlerBody] at hstmt
    · have hs := hwf.1.1.1.1.2
      simp only [stmtsOk, Bool.and_eq_true, List.all_eq_true] at hs
      exact hs.2 stmt hstmt
  all_goals simp [DeadCodeRule.scannedBodies] at hbody

/-- Every issue of the unreachable-code pass on a well-formed tree spans
real lines. -/
theorem check_unreachable_spanOk (tree : PyNode) (hwf : tree.wf = true)
    (file : Option String) :
    ∀ iss ∈ DeadCodeRule.check_unreachable tree file, iss.spanOk := by
  intro iss hiss
  rw [DeadCodeRule.check_unreachable] at hiss
  obtain ⟨node, hnode, hiss⟩ := List.mem_flatMap.mp hiss
  obtain ⟨body, hbody, hiss⟩ := List.mem_flatMap.mp hiss
  have hnwf := wf_walk tree hwf node hnode
  obtain ⟨stmt, hstmt, hlin, hend⟩ :=
    scanBodyAux_mem file false 0 0 body iss hiss
  have hpos := scannedBodies_posOk node hnwf body hbody stmt hstmt
  simp only [PyNode.posOk, Bool.and_eq_true, decide_eq_true_eq] at hpos
  exact ⟨by rw [hlin]; exact hpos.1, by rw [hlin, hend]; exact hpos.2⟩


/-- Every definition the dead-code pass collects from a well-formed tree
records a real line span. -/
theorem collect_definitions_span (tree : PyNode) (hwf : tree.wf = true) :
    ∀ entry ∈ DeadCodeRule.collect_definitions tree,
      1 ≤ entry.2.2.1 ∧ entry.2.2.1 ≤ entry.2.2.2 := by
  rw [DeadCodeRule.collect_definitions]
  refine foldl_inv
    (fun (d : List DeadCodeRule.DefEntry) => ∀ entry ∈ d,
      1 ≤ entry.2.2.1 ∧ entry.2.2.1 ≤ entry.2.2.2)
    (fun node => node.wf = true) _ ?_ (walk tree) [] (by simp)
    (wf_walk tree hwf)
  intro d node hP hQ
  cases node
  case FunctionDef name args body l e =>
    simp only [PyNode.wf, Bool.and_eq_true, decide_eq_true_eq] at hQ
    exact dictInsert_values (fun v => 1 ≤ v.2.1 ∧ v.2.1 ≤ v.2.2) name
      ("function", l, e) d hP ⟨hQ.1.1.1.1, hQ.1.1.1.2⟩
  case ClassDef name body l e =>
    simp only [PyNode.wf, Bool.and_eq_true, decide_eq_true_eq] at hQ
    exact dictInsert_values (fun v => 1 ≤ v.2.1 ∧ v.2.1 ≤ v.2.2) name
      ("class", l, e) d hP ⟨hQ.1.1.1, hQ.1.1.2⟩
  case Assign targets value l e =>
    simp only [PyNode.wf, Bool.and_eq_true] at hQ
    refine foldl_inv
      (fun (d : List DeadCodeRule.DefEntry) => ∀ entry ∈ d,
        1 ≤ entry.2.2.1 ∧ entry.2.2.1 ≤ entry.2.2.2)
      (fun t => t.wf = true) _ ?_ targets.toList d hP
      (listWf_mem targets hQ.1.2)
    intro d' t hP' hQ'
    cases t
    case Name id ctx l' e' =>
      simp only [PyNode.wf, Bool.and_eq_true, decide_eq_true_eq] at hQ'
      exact dictInsert_values (fun v => 1 ≤ v.2.1 ∧ v.2.1 ≤ v.2.2) id
        ("variable", l', e') d' hP' ⟨hQ'.1, hQ'.2⟩
    all_goals exact hP'
  all_goals exact hP

/-- Every unused-definition issue built from span-correct entries spans
real lines. -/
theorem check_unused_spanOk (defined : List DeadCodeRule.DefEntry)
    (used imports : List String)
    (hdef : ∀ entry ∈ defined,
      1 ≤ entry.2.2.1 ∧ entry.2.2.1 ≤ entry.2.2.2) :
    ∀ iss ∈ DeadCodeRule.check_unused defined used imports, iss.spanOk := by
  intro iss hiss
  rw [DeadCodeRule.check_unused] at hiss
  obtain ⟨entry, hentry, hsome⟩ := List.mem_filterMap.mp hiss
  split at hsome
  · simp at hsome
  · split at hsome
    · simp at hsome
    · split at hsome
      · simp at hsome
      · obtain rfl : DeadCodeRule.unusedIssue entry.2.1 entry.1 entry.2.2.1
            entry.2.2.2 = iss := by simpa using hsome
        have hsp := hdef entry hentry
        exact ⟨hsp.1, hsp.2⟩

/-- Every issue of `DeadCodeRule.check` on a well-formed tree spans real
lines. -/
theorem deadcode_check_spanOk (tree : PyNode) (hwf : tree.wf = true) :
    ∀ iss ∈ DeadCodeRule.check tree, iss.spanOk := by
  intro iss hiss
  rw [DeadCodeRule.check] at hiss
  rcases List.mem_append.mp hiss with h | h
  · exact check_unused_spanOk _ _ _ (collect_definitions_span tree hwf) iss h
  · exact check_unreachable_spanOk tree hwf Option.none iss h

/-- Every issue of `DeadCodeRule.check_project` on well-formed trees spans
real lines. -/
theorem deadcode_project_spanOk (project : List (String × PyNode))
    (hproj : ∀ p ∈ project, (p.2).wf = true) :
    ∀ iss ∈ DeadCodeRule.check_project project, iss.spanOk := by
  have hdefs : ∀ fd ∈ DeadCodeRule.all_definitions project,
      ∀ entry ∈ fd.2, 1 ≤ entry.2.2.1 ∧ entry.2.2.1 ≤ entry.2.2.2 := by
    rw [DeadCodeRule.all_definitions]
    refine foldl_inv
      (fun (d : List (String × List DeadCodeRule.DefEntry)) =>
        ∀ fd ∈ d, ∀ entry ∈ fd.2,
          1 ≤ entry.2.2.1 ∧ entry.2.2.1 ≤ entry.2.2.2)
      (fun p => (p.2).wf = true) _ ?_ project [] (by simp) hproj
    intro d p hP hQ
    exact dictInsert_values
      (fun defs => ∀ entry ∈ defs,
        1 ≤ entry.2.2.1 ∧ entry.2.2.1 ≤ entry.2.2.2)
      p.1 (DeadCodeRule.collect_definitions p.2) d hP
      (collect_definitions_span p.2 hQ)
  intro iss hiss
  rw [DeadCodeRule.check_project] at hiss
  rcases List.mem_append.mp hiss with h | h
  · obtain ⟨fd, hfd, h⟩ := List.mem_flatMap.mp h
    obtain ⟨entry, hentry, hsome⟩ := List.mem_filterMap.mp h
    split at hsome
    · simp at hsome
    · split at hsome
      · simp at hsome
      · obtain rfl : DeadCodeRule.unusedProjectIssue fd.1 entry.2.1 entry.1
            entry.2.2.1 entry.2.2.2 = iss := by simpa using hsome
        have hsp := hdefs fd hfd entry hentry
        exact ⟨hsp.1, hsp.2⟩
  · obtain ⟨p, hp, h⟩ := List.mem_flatMap.mp h
    exact check_unreachable_spanOk p.2 (hproj p hp) (Option.some p.1) iss h


/-- Each function record extracted by the duplicated-code rule from a
well-formed tree has a real line span and a well-formed statement body. -/
theorem extract_all_functions_wfFacts (cfg : DuplicatedCodeRule.Config)
    (tree : PyNode) (hwf : tree.wf = true) :
    ∀ f ∈ DuplicatedCodeRule.extract_all_functions cfg tree,
      (1 ≤ f.lineno ∧ f.lineno ≤ f.end_lineno) ∧
        nondecreasingLinenos f.body = true ∧
        f.body.all PyNode.posOk = true := by
  intro f hf
  rw [DuplicatedCodeRule.extract_all_functions] at hf
  obtain ⟨node, hnode, hsome⟩ := List.mem_filterMap.mp hf
  have hnwf := wf_walk tree hwf node hnode
  cases node
  case FunctionDef name args body l e =>
    have hsome' : (if cfg.min_statements ≤ body.toList.length then
        Option.some
          ({ name := name, lineno := l, end_lineno := e,
             statements := body.toList.length,
             normalized := Norm.tup (normalizeStmts body.toList),
             body := body.toList } : DuplicatedCodeRule.FuncRec)
      else Option.none) = Option.some f := hsome
    by_cases hlen : cfg.min_statements ≤ body.toList.length
    · rw [if_pos hlen] at hsome'
      have hfe := Option.some.inj hsome'
      subst hfe
      simp only [PyNode.wf, Bool.and_eq_true, decide_eq_true_eq] at hnwf
      have hs := hnwf.1.1.2
      simp only [stmtsOk, Bool.and_eq_true] at hs
      exact ⟨⟨hnwf.1.1.1.1, hnwf.1.1.1.2⟩, hs.1, hs.2⟩
    · rw [if_neg hlen] at hsome'
      simp at hsome'
  case AsyncFunctionDef name args body l e =>
    have hsome' : (if cfg.min_statements ≤ body.toList.length then
        Option.some
          ({ name := name, lineno := l, end_lineno := e,
             statements := body.toList.length,
             normalized := Norm.tup (normalizeStmts body.toList),
             body := body.toList } : DuplicatedCodeRule.FuncRec)
      else Option.none) = Option.some f := hsome
    by_cases hlen : cfg.min_statements ≤ body.toList.length
    · rw [if_pos hlen] at hsome'
      have hfe := Option.some.inj hsome'
      subst hfe
      simp only [PyNode.wf, Bool.and_eq_true, decide_eq_true_eq] at hnwf
      have hs := hnwf.1.1.2
      simp only [stmtsOk, Bool.and_eq_true] at hs
      exact ⟨⟨hnwf.1.1.1.1, hnwf.1.1.1.2⟩, hs.1, hs.2⟩
    · rw [if_neg hlen] at hsome'
      simp at hsome'
  all_goals simp at hsome

/-- Every sliding-window block extracted from a positioned, nondecreasing
statement list spans real lines. -/
theorem extract_code_blocks_span (stmts : List PyNode) (min_size : Nat)
    (pn : String) (pl : Nat) (hmin : 1 ≤ min_size)
    (hndl : nondecreasingLinenos stmts = true)
    (hpos : stmts.all PyNode.posOk = true) :
    ∀ b ∈ DuplicatedCodeRule.extract_code_blocks stmts min_size pn pl,
      1 ≤ b.start_line ∧ b.start_line ≤ b.end_line := by
  intro b hb
  rw [DuplicatedCodeRule.extract_code_blocks] at hb
  by_cases hlen : stmts.length < min_size
  · rw [if_pos hlen] at hb
    simp at hb
  · rw [if_neg hlen] at hb
    obtain ⟨i, hi, hb⟩ := List.mem_flatMap.mp hb
    obtain ⟨w, hw, hb⟩ := List.mem_map.mp hb
    rw [List.mem_range] at hi
    simp only [DuplicatedCodeRule.rangePy] at hw
    rw [List.mem_range'_1] at hw
    have hwB : w < min (stmts.length - i + 1) (min_size + 5) := by omega
    have hwle : w ≤ stmts.length - i := by
      have := Nat.min_le_left (stmts.length - i + 1) (min_size + 5)
      omega
    have hbl : ((stmts.drop i).take w).length = w := by
      simp only [List.length_take, List.length_drop]
      omega
    obtain ⟨x, bs, hblock⟩ :
        ∃ x bs, (stmts.drop i).take w = x :: bs := by
      cases hcb : (stmts.drop i).take w with
      | nil =>
          rw [hcb] at hbl
          simp at hbl
          omega
      | cons x bs => exact ⟨x, bs, rfl⟩
    have hnb : nondecreasingLinenos ((stmts.drop i).take w) = true :=
      ndl_take _ _ (ndl_drop stmts i hndl)
    have hxs : x ∈ stmts := by
      have h1 : x ∈ (stmts.drop i).take w := by
        rw [hblock]
        exact List.mem_cons_self x bs
      exact List.mem_of_mem_drop (List.mem_of_mem_take h1)
    have hpx := List.all_eq_true.mp hpos x hxs
    simp only [PyNode.posOk, Bool.and_eq_true, decide_eq_true_eq] at hpx
    obtain ⟨y, hy⟩ : ∃ y, ((stmts.drop i).take w).getLast? = Option.some y := by
      rw [hblock]
      exact ⟨(x :: bs).getLast (by simp), List.getLast?_eq_getLast _ _⟩
    have hxy : x.lineno ≤ y.lineno := by
      rw [hblock] at hnb hy
      exact ndl_head_last (x :: bs) hnb x y rfl hy
    subst hb
    show 1 ≤ ((((stmts.drop i).take w).head?.map PyNode.lineno).getD 0) ∧
      ((((stmts.drop i).take w).head?.map PyNode.lineno).getD 0) ≤
        ((((stmts.drop i).take w).getLast?.map PyNode.lineno).getD 0)
    rw [hblock] at hy ⊢
    rw [hy]
    simp only [List.head?_cons, Option.map_some', Option.getD_some]
    exact ⟨hpx.1, hxy⟩

/-- Every within-function duplicate issue over span-correct function
records spans real lines. -/
theorem check_within_spanOk (cfg : DuplicatedCodeRule.Config)
    (functions : List DuplicatedCodeRule.FuncRec)
    (hmin : 1 ≤ cfg.min_statements)
    (hfun : ∀ f ∈ functions, nondecreasingLinenos f.body = true ∧
      f.body.all PyNode.posOk = true) :
    ∀ iss ∈ DuplicatedCodeRule.check_within_functions cfg functions,
      iss.spanOk := by
  intro iss hiss
  rw [DuplicatedCodeRule.check_within_functions] at hiss
  obtain ⟨f, hf, hiss⟩ := List.mem_flatMap.mp hiss
  have hiss' : iss ∈
      (if f.statements < cfg.min_statements * 2 then ([] : List Issue)
      else
        match (DuplicatedCodeRule.orderedPairs
            (DuplicatedCodeRule.extract_code_blocks f.body
              cfg.min_statements ("function:" ++ f.name) f.lineno)).find?
            (DuplicatedCodeRule.withinPairHit cfg) with
        | Option.some bp =>
            [DuplicatedCodeRule.withinIssue f.name bp.1 bp.2
              (DuplicatedCodeRule.calculate_similarity bp.1.normalized
                bp.2.normalized) DuplicatedCodeRule.formatPct]
        | Option.none => []) := hiss
  by_cases hskip : f.statements < cfg.min_statements * 2
  · rw [if_pos hskip] at hiss'
    simp at hiss'
  · rw [if_neg hskip] at hiss'
    rcases hfind : (DuplicatedCodeRule.orderedPairs
        (DuplicatedCodeRule.extract_code_blocks f.body
          cfg.min_statements ("function:" ++ f.name) f.lineno)).find?
        (DuplicatedCodeRule.withinPairHit cfg) with _ | bp
    · rw [hfind] at hiss'
      simp at hiss'
    · rw [hfind] at hiss'
      obtain rfl : iss = DuplicatedCodeRule.withinIssue f.name bp.1 bp.2
          (DuplicatedCodeRule.calculate_similarity bp.1.normalized
            bp.2.normalized) DuplicatedCodeRule.formatPct := by
        simpa using hiss'
      have hbp := List.mem_of_find?_eq_some hfind
      have hb1 := (orderedPairs_mem _ bp hbp).1
      have hff := hfun f hf
      have hspan := extract_code_blocks_span f.body cfg.min_statements
        ("function:" ++ f.name) f.lineno hmin hff.1 hff.2 bp.1 hb1
      exact ⟨hspan.1, hspan.2⟩


/-- Members of any group after a successful `updateGroups` step come from
the old groups or are one of the two inserted functions. -/
theorem updateGroups_mem (f1 f2 : DuplicatedCodeRule.FuncRec) :
    ∀ (gs gs' : List (String × List DuplicatedCodeRule.FuncRec)),
      DuplicatedCodeRule.updateGroups f1 f2 gs = Option.some gs' →
      ∀ kg ∈ gs', ∀ m ∈ kg.2,
        (∃ kg0 ∈ gs, m ∈ kg0.2) ∨ m = f1 ∨ m = f2
  | [], gs', h => by simp [DuplicatedCodeRule.updateGroups] at h
  | (key, members) :: rest, gs', h => by
      rw [DuplicatedCodeRule.updateGroups] at h
      by_cases h1 : members.any (fun m => m.name = f1.name) = true
      · rw [if_pos h1] at h
        have hfe := Option.some.inj h
        subst hfe
        intro kg hkg m hm
        rcases List.mem_cons.mp hkg with rfl | hkg
        · have hm' : m ∈ (if members.any
              (fun m => DuplicatedCodeRule.funcRecBeq m f2) then members
              else members ++ [f2]) := hm
          by_cases h2 : members.any
              (fun m => DuplicatedCodeRule.funcRecBeq m f2) = true
          · rw [if_pos h2] at hm'
            exact Or.inl ⟨(key, members), List.mem_cons_self _ _, hm'⟩
          · rw [if_neg h2] at hm'
            rcases List.mem_append.mp hm' with hm2 | hm2
            · exact Or.inl ⟨(key, members), List.mem_cons_self _ _, hm2⟩
            · exact Or.inr (Or.inr (List.mem_singleton.mp hm2))
        · exact Or.inl ⟨kg, List.mem_cons_of_mem _ hkg, hm⟩
      · rw [if_neg h1] at h
        by_cases h2 : members.any (fun m => m.name = f2.name) = true
        · rw [if_pos h2] at h
          have hfe := Option.some.inj h
          subst hfe
          intro kg hkg m hm
          rcases List.mem_cons.mp hkg with rfl | hkg
          · have hm' : m ∈ (if members.any
                (fun m => DuplicatedCodeRule.funcRecBeq m f1) then members
                else members ++ [f1]) := hm
            by_cases h3 : members.any
                (fun m => DuplicatedCodeRule.funcRecBeq m f1) = true
            · rw [if_pos h3] at hm'
              exact Or.inl ⟨(key, members), List.mem_cons_self _ _, hm'⟩
            · rw [if_neg h3] at hm'
              rcases List.mem_append.mp hm' with hm2 | hm2
              · exact Or.inl ⟨(key, members), List.mem_cons_self _ _, hm2⟩
              · exact Or.inr (Or.inl (List.mem_singleton.mp hm2))
          · exact Or.inl ⟨kg, List.mem_cons_of_mem _ hkg, hm⟩
        · rw [if_neg h2] at h
          obtain ⟨g', hg', hgs⟩ : ∃ g',
              DuplicatedCodeRule.updateGroups f1 f2 rest = Option.some g' ∧
                (key, members) :: g' = gs' := by
            cases hu : DuplicatedCodeRule.updateGroups f1 f2 rest with
            | none =>
                rw [hu] at h
                simp at h
            | some g' =>
                rw [hu] at h
                simp only [Option.map_some', Option.some.injEq] at h
                exact ⟨g', rfl, h⟩
          subst hgs
          intro kg hkg m hm
          rcases List.mem_cons.mp hkg with rfl | hkg
          · exact Or.inl ⟨(key, members), List.mem_cons_self _ _, hm⟩
          · rcases updateGroups_mem f1 f2 rest g' hg' kg hkg m hm with
              ⟨kg0, hkg0, hm0⟩ | hor
            · exact Or.inl ⟨kg0, List.mem_cons_of_mem _ hkg0, hm0⟩
            · exact Or.inr hor

/-- Every member of every group the between-function pass builds is one of
the extracted functions. -/
theorem buildGroups_mem (cfg : DuplicatedCodeRule.Config)
    (functions : List DuplicatedCodeRule.FuncRec) :
    ∀ kg ∈ DuplicatedCodeRule.buildGroups cfg functions,
      ∀ m ∈ kg.2, m ∈ functions := by
  rw [DuplicatedCodeRule.buildGroups]
  refine foldl_inv
    (fun (st : List (String × String) ×
        List (String × List DuplicatedCodeRule.FuncRec)) =>
      ∀ kg ∈ st.2, ∀ m ∈ kg.2, m ∈ functions)
    (fun (fp : DuplicatedCodeRule.FuncRec × DuplicatedCodeRule.FuncRec) =>
      fp.1 ∈ functions ∧ fp.2 ∈ functions)
    _ ?_ (DuplicatedCodeRule.orderedPairs functions) ([], []) (by simp)
    (fun fp hfp => orderedPairs_mem functions fp hfp)
  intro st fp hP hQ
  show ∀ kg ∈ (if st.1.contains
        (DuplicatedCodeRule.sortedPairKey fp.1.name fp.2.name) = true then st
      else
        if cfg.similarity_threshold ≤
            DuplicatedCodeRule.calculate_similarity fp.1.normalized
              fp.2.normalized then
          (match DuplicatedCodeRule.updateGroups fp.1 fp.2 st.2 with
            | Option.some g =>
                (st.1 ++ [DuplicatedCodeRule.sortedPairKey fp.1.name
                  fp.2.name], g)
            | Option.none =>
                (st.1 ++ [DuplicatedCodeRule.sortedPairKey fp.1.name
                  fp.2.name],
                  dictInsert (fp.1.name ++ "_" ++ fp.2.name) [fp.1, fp.2]
                    st.2))
        else
          (st.1 ++ [DuplicatedCodeRule.sortedPairKey fp.1.name fp.2.name],
            st.2)).2,
    ∀ m ∈ kg.2, m ∈ functions
  by_cases hc : st.1.contains
      (DuplicatedCodeRule.sortedPairKey fp.1.name fp.2.name) = true
  · rw [if_pos hc]
    exact hP
  · rw [if_neg hc]
    by_cases hs : cfg.similarity_threshold ≤
        DuplicatedCodeRule.calculate_similarity fp.1.normalized
          fp.2.normalized
    · rw [if_pos hs]
      rcases heq : DuplicatedCodeRule.updateGroups fp.1 fp.2 st.2 with _ | g
      · show ∀ kg ∈ dictInsert (fp.1.name ++ "_" ++ fp.2.name)
            [fp.1, fp.2] st.2, ∀ m ∈ kg.2, m ∈ functions
        intro kg hkg m hm
        refine dictInsert_values
          (fun (group : List DuplicatedCodeRule.FuncRec) =>
            ∀ m ∈ group, m ∈ functions)
          (fp.1.name ++ "_" ++ fp.2.name) [fp.1, fp.2] st.2 hP ?_ kg hkg
          m hm
        intro x hx
        rcases List.mem_cons.mp hx with rfl | hx
        · exact hQ.1
        · rw [List.mem_singleton.mp hx]
          exact hQ.2
      · show ∀ kg ∈ g, ∀ m ∈ kg.2, m ∈ functions
        intro kg hkg m hm
        rcases updateGroups_mem fp.1 fp.2 st.2 g heq kg hkg m hm with
          ⟨kg0, hkg0, hm0⟩ | rfl | rfl
        · exact hP kg0 hkg0 m hm0
        · exact hQ.1
        · exact hQ.2
    · rw [if_neg hs]
      exact hP

/-- Every between-function issue over groups of span-correct records spans
real lines. -/
theorem reportGroups_spanOk
    (groups : List (String × List DuplicatedCodeRule.FuncRec))
    (hg : ∀ kg ∈ groups, ∀ m ∈ kg.2,
      1 ≤ m.lineno ∧ m.lineno ≤ m.end_lineno) :
    ∀ iss ∈ DuplicatedCodeRule.reportGroups groups, iss.spanOk := by
  rw [DuplicatedCodeRule.reportGroups]
  refine foldl_inv
    (fun (acc : List String × List Issue) => ∀ iss ∈ acc.2, iss.spanOk)
    (fun kg => kg ∈ groups) _ ?_ groups ([], []) (by simp)
    (fun kg hkg => hkg)
  intro acc kg hP hQ
  show ∀ iss ∈ (if (decide
        (2 ≤ (DuplicatedCodeRule.dedupByName [] kg.2).length) &&
        (DuplicatedCodeRule.dedupByName [] kg.2).all
          fun f => !acc.1.contains f.name) = true then
      (acc.1 ++ List.map DuplicatedCodeRule.FuncRec.name
          (DuplicatedCodeRule.dedupByName [] kg.2),
        acc.2 ++ [DuplicatedCodeRule.betweenIssue
          (DuplicatedCodeRule.dedupByName [] kg.2)])
    else acc).2, iss.spanOk
  by_cases hc : (decide
      (2 ≤ (DuplicatedCodeRule.dedupByName [] kg.2).length) &&
      (DuplicatedCodeRule.dedupByName [] kg.2).all
        fun f => !acc.1.contains f.name) = true
  · rw [if_pos hc]
    intro iss hiss
    rcases List.mem_append.mp hiss with h | h
    · exact hP iss h
    · obtain rfl := List.mem_singleton.mp h
      have h2 : 2 ≤ (DuplicatedCodeRule.dedupByName [] kg.2).length := by
        simp only [Bool.and_eq_true, decide_eq_true_eq] at hc
        exact hc.1
      cases hgrp : DuplicatedCodeRule.dedupByName [] kg.2 with
      | nil =>
          rw [hgrp] at h2
          simp at h2
      | cons g0 grest =>
          have hg0 : g0 ∈ kg.2 := dedupByName_subset [] kg.2 g0 (by
            rw [hgrp]
            exact List.mem_cons_self _ _)
          have hb := hg kg hQ g0 hg0
          exact ⟨hb.1, hb.2⟩
  · rw [if_neg hc]
    exact hP

/-- Every issue of `DuplicatedCodeRule.check` on a well-formed tree spans
real lines (for a configuration asking for at least one statement per
block, as every real configuration does). -/
theorem dup_check_spanOk (cfg : DuplicatedCodeRule.Config) (tree : PyNode)
    (hwf : tree.wf = true) (hmin : 1 ≤ cfg.min_statements) :
    ∀ iss ∈ DuplicatedCodeRule.check cfg tree, iss.spanOk := by
  intro iss hiss
  rw [DuplicatedCodeRule.check] at hiss
  rcases List.mem_append.mp hiss with h | h
  · have h2 := mem_ite_nil_right_elim h
    rw [DuplicatedCodeRule.check_function_to_function] at h2
    refine reportGroups_spanOk _ ?_ iss h2
    intro kg hkg m hm
    have hmem := buildGroups_mem cfg _ kg hkg m hm
    exact ((extract_all_functions_wfFacts cfg tree hwf) m hmem).1
  · have h2 := mem_ite_nil_right_elim h
    refine check_within_spanOk cfg _ hmin ?_ iss h2
    intro f hf
    exact ((extract_all_functions_wfFacts cfg tree hwf) f hf).2


/-- **C6.**  On well-formed input trees (positions as `ast.parse`
guarantees them), every Issue emitted by any of the five rules' `check` —
and by `DeadCodeRule.check_project` on a project of well-formed trees —
has `lineno ≥ 1` and `end_lineno ≥ lineno`.  The duplicated-code
configuration is asked for at least one statement per block, as every
real configuration is. -/
theorem claim_C6 (tree : PyNode) (hwf : tree.wf = true)
    (gcfg : GodClassRule.Config) (lcfg : LongMethodRule.Config)
    (dcfg : DuplicatedCodeRule.Config) (hmin : 1 ≤ dcfg.min_statements)
    (project : List (String × PyNode))
    (hproj : ∀ p ∈ project, (p.2).wf = true) :
    (∀ iss ∈ MutableDefaultArgumentsRule.check tree, iss.spanOk) ∧
    (∀ iss ∈ GodClassRule.check gcfg tree, iss.spanOk) ∧
    (∀ iss ∈ LongMethodRule.check lcfg tree, iss.spanOk) ∧
    (∀ iss ∈ DeadCodeRule.check tree, iss.spanOk) ∧
    (∀ iss ∈ DuplicatedCodeRule.check dcfg tree, iss.spanOk) ∧
    (∀ iss ∈ DeadCodeRule.check_project project, iss.spanOk) :=
  ⟨mda_spanOk tree hwf, god_spanOk gcfg tree hwf, long_spanOk lcfg tree hwf,
    deadcode_check_spanOk tree hwf, dup_check_spanOk dcfg tree hwf hmin,
    deadcode_project_spanOk project hproj⟩

/-- **C6, witness.**  The invariant instantiated on a concrete well-formed
module and one-file project at the default configurations. -/
theorem claim_C6_witness :
    exHelperCalled.wf = true ∧
    1 ≤ ({} : DuplicatedCodeRule.Config).min_statements ∧
    (∀ p ∈ projHelper, (p.2).wf = true) ∧
    (∀ iss ∈ DeadCodeRule.check exHelperCalled, iss.spanOk) ∧
    (∀ iss ∈ DeadCodeRule.check_project projHelper, iss.spanOk) :=
  ⟨by decide, by decide, by decide,
    (claim_C6 exHelperCalled (by decide) {} {} {} (by decide) projHelper
      (by decide)).2.2.2.1,
    (claim_C6 exHelperCalled (by decide) {} {} {} (by decide) projHelper
      (by decide)).2.2.2.2.2⟩

end PyGS
